import Mathlib

/-!
Talent Connect front end: permission tables, transcript merge and interview store.

A shallow embedding of the pure parts of the browser application:

* `utils/permissions.js`: the role tables and the checks built on them;
* `pages/Interviews/InterviewerPanel` and `pages/Interviews/CandidatePanel`:
  `upsertQuestion`, the socket message handlers, `handleSendQuestion`,
  `handleSubmit` and the reconnect timer;
* `store/interviewStore.js`: the interview cache and its socket registry;
* `store/jobChatStore.js` and `components/organisms/JobBuilderChat`: `sendMessage`,
  `getFormData` and the payload of the generation request;
* `utils/api.js`: the event stream reader of `matcherAPI.streamMatch`;
* `components/organisms/Navbar`, `components/guards/ProtectedRoute` and
  `router/routes.jsx`: the menu definition, the route guard and the guarded paths;
* `pages/Jobs/JobFormReview` and `pages/Jobs/ProfileMatcher`: `validateForm`, the
  comma-separated lists and the ordering of the match results;
* `components/molecules/ChatMessage`: `parseMessage`.

JavaScript values are given Lean types as follows.  A string is a `String`; its
characters are read through `String.toList`.  A property that may hold `null` or
be `undefined` is an `Option`.  A plain object used as a dictionary is a list of
its own properties in insertion order, read through `objGet`, which also knows
the members that every object inherits.  A call that may raise a `TypeError`
returns a `Js` value.
-/

namespace TalentConnect

/-! ## JavaScript helpers -/

/-- Outcome of a call that either returns a value or raises a `TypeError`. -/
inductive Js (α : Type) where
  | ok (a : α)
  | typeError
deriving DecidableEq, Repr

/-- Sequencing of calls: an exception raised by the first call propagates. -/
def Js.bind {α β : Type} (x : Js α) (f : α → Js β) : Js β :=
  match x with
  | .ok a => f a
  | .typeError => .typeError

/-- The array `filter` method with a callback that may raise: callbacks run in index order and
the first exception aborts the whole call. -/
def filterJs {α : Type} (p : α → Js Bool) : List α → Js (List α)
  | [] => .ok []
  | x :: xs =>
    match p x with
    | .typeError => .typeError
    | .ok b =>
      match filterJs p xs with
      | .typeError => .typeError
      | .ok rest => .ok (if b then x :: rest else rest)

/-- The array `map` method with a callback that may raise. -/
def mapJs {α β : Type} (f : α → Js β) : List α → Js (List β)
  | [] => .ok []
  | x :: xs =>
    match f x with
    | .typeError => .typeError
    | .ok y =>
      match mapJs f xs with
      | .typeError => .typeError
      | .ok rest => .ok (y :: rest)

/-- Names of the members that every plain object inherits from `Object.prototype`; reading one of
them from an object literal that has no own property of that name yields a function (or, for
`__proto__`, the prototype object), never `undefined`. -/
def objectMembers : List String :=
  ["constructor", "__proto__", "hasOwnProperty", "isPrototypeOf", "propertyIsEnumerable",
   "toLocaleString", "toString", "valueOf", "__defineGetter__", "__defineSetter__",
   "__lookupGetter__", "__lookupSetter__"]

/-- What `obj[key]` evaluates to on a plain object: an own property, an inherited member (which
is truthy and is neither an array nor a string), or `undefined`. -/
inductive Lookup (α : Type) where
  | own (a : α)
  | inherited
  | missing
deriving DecidableEq, Repr

/-- The first own property called `key`, if any. -/
def ownGet {α : Type} : List (String × α) → String → Option α
  | [], _ => none
  | (k, v) :: rest, key => if k = key then some v else ownGet rest key

/-- The expression `obj[key]` on a plain object given by its own properties. -/
def objGet {α : Type} (obj : List (String × α)) (key : String) : Lookup α :=
  match ownGet obj key with
  | some a => .own a
  | none => if key ∈ objectMembers then .inherited else .missing

/-- The call `Object.keys(obj)`: the own property names in insertion order. -/
def objKeys {α : Type} (obj : List (String × α)) : List String :=
  obj.map Prod.fst

/-- Splitting a character list at every occurrence of `sep`; there is always at least one piece:
the empty input gives one empty piece, as `split` does. -/
def splitChars (sep : Char) : List Char → List (List Char)
  | [] => [[]]
  | c :: cs =>
    if c = sep then [] :: splitChars sep cs
    else
      match splitChars sep cs with
      | [] => [[c]]
      | seg :: rest => (c :: seg) :: rest

/-- The call `s.split(sep)` for a one-character separator. -/
def jsSplit (s : String) (sep : Char) : List String :=
  (splitChars sep s.toList).map String.mk

/-- The call `s.includes(c)` for a one-character needle. -/
def jsIncludes (s : String) (c : Char) : Bool :=
  s.toList.contains c

/-- The call `s.startsWith(c)` for a one-character prefix. -/
def jsStartsWith (s : String) (c : Char) : Bool :=
  s.toList.head? == some c

/-- The loop of the array `every` method, at the element with index `i`. -/
def everyFrom {α : Type} (p : α → Nat → Bool) : Nat → List α → Bool
  | _, [] => true
  | i, x :: xs => p x i && everyFrom p (i + 1) xs

/-- The array `every` method: the callback sees each element together with its index. -/
def everyIdx {α : Type} (p : α → Nat → Bool) (xs : List α) : Bool :=
  everyFrom p 0 xs

/-! ## `utils/permissions.js` -/

/-- A user object as read from local storage; `role` is `none` when the property is absent or
`null`. -/
structure User where
  role : Option String
deriving DecidableEq, Repr

/-- Constant `ROLES.HR`. -/
def ROLES.HR : String := "hr"

/-- Constant `ROLES.HIRING_MANAGER`. -/
def ROLES.HIRING_MANAGER : String := "hiring_manager"

/-- Constant `ROLES.RECRUITER`. -/
def ROLES.RECRUITER : String := "recruiter"

/-- Table `PERMISSIONS`. -/
def PERMISSIONS : List (String × List String) :=
  [("jobs.jd.create", [ROLES.HR, ROLES.HIRING_MANAGER]),
   ("jobs.jd.edit", [ROLES.HR, ROLES.HIRING_MANAGER]),
   ("jobs.jd.view", [ROLES.HR, ROLES.RECRUITER, ROLES.HIRING_MANAGER]),
   ("jobs.matcher.use", [ROLES.HR, ROLES.RECRUITER, ROLES.HIRING_MANAGER]),
   ("docs.templates.all", [ROLES.HR]),
   ("docs.templates.offer", [ROLES.HR, ROLES.RECRUITER]),
   ("docs.templates.view", [ROLES.HIRING_MANAGER]),
   ("docs.query.full", [ROLES.HR]),
   ("docs.query.limited", [ROLES.RECRUITER]),
   ("interviews.dashboard", [ROLES.HR, ROLES.HIRING_MANAGER]),
   ("interviews.schedule", [ROLES.HR, ROLES.HIRING_MANAGER]),
   ("interviews.conduct", [ROLES.HR, ROLES.HIRING_MANAGER]),
   ("interviews.view", [ROLES.RECRUITER])]

/-- Table `ROUTE_PERMISSIONS`, in source order. -/
def ROUTE_PERMISSIONS : List (String × List String) :=
  [("/dashboard", [ROLES.HR, ROLES.RECRUITER, ROLES.HIRING_MANAGER]),
   ("/jobs/generator", [ROLES.HR, ROLES.HIRING_MANAGER]),
   ("/jobs/generator/legacy", [ROLES.HR, ROLES.HIRING_MANAGER]),
   ("/jobs/results", [ROLES.HR, ROLES.HIRING_MANAGER]),
   ("/jobs/create/chat", [ROLES.HR, ROLES.HIRING_MANAGER]),
   ("/jobs/create/form", [ROLES.HR, ROLES.HIRING_MANAGER]),
   ("/jobs/matcher", [ROLES.HR, ROLES.RECRUITER, ROLES.HIRING_MANAGER]),
   ("/documents", [ROLES.HR, ROLES.RECRUITER]),
   ("/documents/generate", [ROLES.HR, ROLES.RECRUITER]),
   ("/documents/templates", [ROLES.HR, ROLES.RECRUITER]),
   ("/documents/agent", [ROLES.HR, ROLES.RECRUITER]),
   ("/documents/library", [ROLES.HR, ROLES.RECRUITER]),
   ("/documents/query", [ROLES.HR]),
   ("/interviews/dashboard", [ROLES.HR, ROLES.HIRING_MANAGER]),
   ("/interviews/schedule", [ROLES.HR, ROLES.HIRING_MANAGER]),
   ("/interviews/candidate", [ROLES.HR, ROLES.HIRING_MANAGER]),
   ("/interviews/interviewer", [ROLES.HR, ROLES.HIRING_MANAGER]),
   ("/interview/:interviewId/summary", [ROLES.HR, ROLES.HIRING_MANAGER])]

/-- One value of the table `MENU_ACCESS`. -/
structure MenuAccess where
  visible : List String
  submenus : List (String × List String)
deriving DecidableEq, Repr

/-- Table `MENU_ACCESS`. -/
def MENU_ACCESS : List (String × MenuAccess) :=
  [("jobs",
     { visible := [ROLES.HR, ROLES.RECRUITER, ROLES.HIRING_MANAGER],
       submenus := [("generator", [ROLES.HR, ROLES.HIRING_MANAGER]),
                    ("matcher", [ROLES.HR, ROLES.RECRUITER, ROLES.HIRING_MANAGER])] }),
   ("documents",
     { visible := [ROLES.HR, ROLES.RECRUITER],
       submenus := [("generate", [ROLES.HR, ROLES.RECRUITER]),
                    ("agent", [ROLES.HR, ROLES.RECRUITER]),
                    ("library", [ROLES.HR, ROLES.RECRUITER]),
                    ("templates", [ROLES.HR, ROLES.RECRUITER]),
                    ("query", [ROLES.HR])] }),
   ("interviews",
     { visible := [ROLES.HR, ROLES.HIRING_MANAGER],
       submenus := [("dashboard", [ROLES.HR, ROLES.HIRING_MANAGER]),
                    ("schedule", [ROLES.HR, ROLES.HIRING_MANAGER])] })]

/-- The guard `!user || !user.role` read positively: the role of a user that passes it. A missing
user, a missing role and the empty string all fail the guard. -/
def truthyRole : Option User → Option String
  | none => none
  | some u =>
    match u.role with
    | none => none
    | some r => if r = "" then none else some r

/-- Function `hasPermission`. -/
def hasPermission (user : Option User) (permission : String) : Js Bool :=
  match truthyRole user with
  | none => .ok false
  | some role =>
    match objGet PERMISSIONS permission with
    | .own allowedRoles => .ok (allowedRoles.contains role)
    | .inherited => .typeError
    | .missing => .ok false

/-- The callback that `canAccessRoute` hands to `find`: does the parameterised `route` match
`path` segment by segment. -/
def routeMatches (route path : String) : Bool :=
  if !jsIncludes route ':' then false
  else
    let routeParts := jsSplit route '/'
    let pathParts := jsSplit path '/'
    if routeParts.length != pathParts.length then false
    else everyIdx (fun part index => jsStartsWith part ':' || pathParts[index]? == some part)
      routeParts

/-- Function `canAccessRoute`. -/
def canAccessRoute (user : Option User) (path : String) : Js Bool :=
  match truthyRole user with
  | none => .ok false
  | some role =>
    match objGet ROUTE_PERMISSIONS path with
    | .own allowedRoles => .ok (allowedRoles.contains role)
    | .inherited => .typeError
    | .missing =>
      match (objKeys ROUTE_PERMISSIONS).find? (fun route => routeMatches route path) with
      | none => .ok false
      | some matchedRoute =>
        match objGet ROUTE_PERMISSIONS matchedRoute with
        | .own allowedRoles => .ok (allowedRoles.contains role)
        | _ => .typeError

/-- Function `canViewMenu`. An inherited member is truthy and has no `visible` property, so
reading `menu.visible.includes` raises. -/
def canViewMenu (user : Option User) (menuId : String) : Js Bool :=
  match truthyRole user with
  | none => .ok false
  | some role =>
    match objGet MENU_ACCESS menuId with
    | .own menu => .ok (menu.visible.contains role)
    | .inherited => .typeError
    | .missing => .ok false

/-- Function `canViewSubmenu`. An inherited member of `MENU_ACCESS` has no `submenus` property, so
the second guard returns false; an inherited member of a `submenus` object is truthy and has no
`includes` method, so the last line raises. -/
def canViewSubmenu (user : Option User) (menuId submenuKey : String) : Js Bool :=
  match truthyRole user with
  | none => .ok false
  | some role =>
    match objGet MENU_ACCESS menuId with
    | .missing => .ok false
    | .inherited => .ok false
    | .own menu =>
      match objGet menu.submenus submenuKey with
      | .own allowedRoles => .ok (allowedRoles.contains role)
      | .inherited => .typeError
      | .missing => .ok false

/-- A submenu item of the navigation bar. -/
structure Submenu where
  title : String
  description : String
  link : String
  icon : Option String
deriving DecidableEq, Repr

/-- A menu item of the navigation bar. -/
structure MenuItem where
  id : String
  label : String
  submenus : List Submenu
deriving DecidableEq, Repr

/-- The expression `submenu.link.split('/').pop()`: the last segment of the link. -/
def submenuKeyOf (submenu : Submenu) : String :=
  (jsSplit submenu.link '/').getLast?.getD ""

/-- The callback that `filterMenuByRole` hands to `map`: a copy of the menu holding only the
submenus that `canViewSubmenu` accepts, the key being the last segment of the link. -/
def withVisibleSubmenus (user : Option User) (menu : MenuItem) : Js MenuItem :=
  (filterJs (fun submenu => canViewSubmenu user menu.id (submenuKeyOf submenu))
    menu.submenus).bind fun subs => .ok { menu with submenus := subs }

/-- Function `filterMenuByRole`: filter by `canViewMenu`, rebuild each menu with its visible
submenus, drop the menus left with none. Each stage runs over the whole array before the next
one starts. -/
def filterMenuByRole (user : Option User) (menuItems : List MenuItem) : Js (List MenuItem) :=
  match truthyRole user with
  | none => .ok []
  | some _ =>
    (filterJs (fun menu => canViewMenu user menu.id) menuItems).bind fun visible =>
    (mapJs (withVisibleSubmenus user) visible).bind fun mapped =>
    .ok (mapped.filter (fun menu => menu.submenus.length > 0))

/-! ## Interview transcripts (`InterviewerPanel`, `CandidatePanel`) -/

/-- An identifier as JSON delivers it: `null`, a number or a string. A number and a string are
never strictly equal. -/
inductive JsId where
  | null
  | num (n : Int)
  | str (s : String)
deriving DecidableEq, Repr

/-- Truthiness of an identifier: `null`, `0` and the empty string are falsy. -/
def JsId.truthy : JsId → Bool
  | .null => false
  | .num n => n != 0
  | .str s => s != ""

/-- The conversion `String(id)`. -/
def JsId.toJsString : JsId → String
  | .null => "null"
  | .num n => toString n
  | .str s => s

/-- A transcript entry. Every entry carries the three properties `id`, `question` and `answer`;
`question` and `answer` are `none` when they hold `null` or `undefined`. -/
structure Entry where
  id : JsId
  question : Option String
  answer : Option String
deriving DecidableEq, Repr

/-- Truthiness of an optional text: `null`, `undefined` and the empty string are falsy. -/
def truthyText : Option String → Bool
  | none => false
  | some s => s != ""

/-- The operator `a ?? b`: the right operand is used only when the left one is `null` or
`undefined`; an empty string on the left is kept. -/
def nullish (a b : Option String) : Option String :=
  match a with
  | some x => some x
  | none => b

/-- The white space and line terminator characters that `trim` removes. -/
def isJsWhitespace (c : Char) : Bool :=
  c.toNat ∈ [9, 10, 11, 12, 13, 32, 160, 5760, 8232, 8233, 8239, 8287, 12288, 65279]
    || (8192 ≤ c.toNat && c.toNat ≤ 8202)

/-- The call `s.trim()`. -/
def jsTrim (s : String) : String :=
  String.mk ((s.toList.dropWhile isJsWhitespace).reverse.dropWhile isJsWhitespace).reverse

/-- The expression `q.question?.trim()`; `none` stands for `undefined`. -/
def trimmedQuestion (q : Entry) : Option String :=
  q.question.map jsTrim

/-- The array `findIndex` method; `none` stands for the result `-1`. -/
def findIndex {α : Type} (p : α → Bool) : List α → Option Nat
  | [] => none
  | x :: xs => if p x then some 0 else (findIndex p xs).map (· + 1)

/-- The object literal `{ ...prev, ...incoming, answer: prev.answer ?? incoming.answer }`: both
operands carry `id` and `question`, so the second spread decides them. -/
def mergeQuestion (prev incoming : Entry) : Entry :=
  { id := incoming.id, question := incoming.question,
    answer := nullish prev.answer incoming.answer }

/-- The callback of the first `findIndex` in `upsertQuestion`: same trimmed text and no answer. -/
def sameTextUnanswered (incoming q : Entry) : Bool :=
  trimmedQuestion q == trimmedQuestion incoming && !truthyText q.answer

/-- The statements `const next = [...list]; const prev = next[idx]; next[idx] = merged;
return next`. -/
def mergeAt (list : List Entry) (idx : Nat) (incoming : Entry) : List Entry :=
  match list[idx]? with
  | some prev => list.set idx (mergeQuestion prev incoming)
  | none => list

/-- Function `upsertQuestion`, the same in both panels; `incoming` is `none` when the argument is
`null` or `undefined`. -/
def upsertQuestion (list : List Entry) (incoming : Option Entry) : List Entry :=
  match incoming with
  | none => list
  | some inc =>
    match findIndex (sameTextUnanswered inc) list with
    | some sameTextIdx => mergeAt list sameTextIdx inc
    | none =>
      match findIndex (fun q => q.id == inc.id) list with
      | some idIdx => mergeAt list idIdx inc
      | none => list ++ [inc]

/-! ## `store/interviewStore.js` -/

/-- The object literal `{ ...obj, [key]: value }`: a copy in which `key` holds `value`. The store
never observes the order of the own properties. -/
def objSet {α : Type} : List (String × α) → String → α → List (String × α)
  | [], key, v => [(key, v)]
  | (k, w) :: rest, key, v => if k = key then (k, v) :: rest else (k, w) :: objSet rest key v

/-- The statement `delete obj[key]` on a copy. -/
def objDelete {α : Type} (obj : List (String × α)) (key : String) : List (String × α) :=
  obj.filter (fun kv => kv.1 != key)

/-- The filter loop of `dedupeById` with the set `seen` built so far. -/
def dedupeFrom (seen : List JsId) : List Entry → List Entry
  | [] => []
  | item :: rest =>
    if !item.id.truthy then dedupeFrom seen rest
    else if seen.contains item.id then dedupeFrom seen rest
    else item :: dedupeFrom (item.id :: seen) rest

/-- Function `dedupeById`: drop the items without a truthy id and every item whose id was seen
before. -/
def dedupeById (items : List Entry) : List Entry :=
  dedupeFrom [] items

/-- Function `sameId`: comparison after `String(...)`. -/
def sameId (a b : JsId) : Bool :=
  a.toJsString == b.toJsString

/-- An interview as the server returns it; `transcript` is `none` when the property is absent or
`null`, and so are the two keys and the status. -/
structure Interview where
  id : JsId
  transcript : Option (List Entry)
  status : Option String
  interviewer_key : Option String
  candidate_key : Option String
deriving DecidableEq, Repr

/-- A value found where a participant key is expected: a string, an inherited object member, or
nothing (`null` or `undefined`). -/
inductive JsKey where
  | text (s : String)
  | member
  | absent
deriving DecidableEq, Repr

/-- Truthiness of a key value. -/
def JsKey.truthy : JsKey → Bool
  | .text s => s != ""
  | .member => true
  | .absent => false

/-- A `WebSocket` object: the serial number of its construction and the interview id and key that
were written into its address. -/
structure Socket where
  serial : Nat
  interview : String
  key : JsKey
deriving DecidableEq, Repr

/-- The state held by `useInterviewStore`. -/
structure StoreState where
  interviews : List Interview
  pendingQuestions : List (String × List Entry)
  loading : Bool
  error : Option String
  participantKeys : List (String × String)
  sockets : List (String × Socket)
deriving DecidableEq, Repr

/-- The initial state of the store, with the participant keys read from session storage. -/
def initialStore (storedKeys : List (String × String)) : StoreState :=
  { interviews := [], pendingQuestions := [], loading := false, error := none,
    participantKeys := storedKeys, sockets := [] }

/-- The expression `x || y` on optional keys of an interview. -/
def orKey (a b : Option String) : Option String :=
  if truthyText a then a else b

/-- Function `getKeyForInterview`. Both reads of `participantKeys` use the same property name,
because a property name is always converted with `String(...)`. -/
def getKeyForInterview (state : StoreState) (interviewId : JsId) : JsKey :=
  let keyFromStore : JsKey :=
    match objGet state.participantKeys interviewId.toJsString with
    | .own s => .text s
    | .inherited => .member
    | .missing => .absent
  if keyFromStore.truthy then keyFromStore
  else
    match state.interviews.find? (fun i => sameId i.id interviewId) with
    | none => .absent
    | some interview =>
      match orKey interview.interviewer_key interview.candidate_key with
      | some s => .text s
      | none => .absent

/-- The list `(interview.transcript || []).filter((q) => !q.answer)` after `dedupeById`. -/
def pendingOf (transcript : Option (List Entry)) : List Entry :=
  dedupeById ((transcript.getD []).filter (fun q => !truthyText q.answer))

/-- Action `syncInterview`. -/
def syncInterview (state : StoreState) (interview : Interview) : StoreState :=
  let found := state.interviews.find? (fun item => sameId item.id interview.id)
  let updatedList :=
    if found.isSome then
      state.interviews.map (fun item => if sameId item.id interview.id then interview else item)
    else interview :: state.interviews
  let pending := pendingOf interview.transcript
  let keyId := interview.id.toJsString
  let stored : Bool :=
    match objGet state.participantKeys keyId with
    | .own s => s != ""
    | .inherited => true
    | .missing => false
  let participantKeys :=
    match interview.interviewer_key with
    | some k => if !stored && k != "" then objSet state.participantKeys keyId k
                else state.participantKeys
    | none => state.participantKeys
  { state with
    interviews := updatedList
    pendingQuestions := objSet state.pendingQuestions keyId pending
    participantKeys := participantKeys }

/-- The callback of `map` in `applyQuestionEvent`: an interview with another id is returned as it
is, a matching one gets the question merged into its transcript. -/
def questionInto (interviewId : JsId) (question : Entry) (i : Interview) : Interview :=
  if !sameId i.id interviewId then i
  else { i with transcript := some (dedupeById ((i.transcript.getD []) ++ [question])) }

/-- Action `applyQuestionEvent`. Spreading an inherited member (a function or the prototype
object, neither of them iterable) raises inside the updater, and the store keeps its state. -/
def applyQuestionEvent (state : StoreState) (interviewId : JsId) (question : Entry) :
    Js StoreState :=
  let keyId := interviewId.toJsString
  let interviews := state.interviews.map (questionInto interviewId question)
  match objGet state.pendingQuestions keyId with
  | .inherited => .typeError
  | .own l =>
    .ok { state with
          interviews := interviews
          pendingQuestions := objSet state.pendingQuestions keyId (dedupeById (l ++ [question])) }
  | .missing =>
    .ok { state with
          interviews := interviews
          pendingQuestions := objSet state.pendingQuestions keyId (dedupeById ([] ++ [question])) }

/-- The callback of the inner `map` in `applyResponseEvent` and in the response branch of both
panels: `q.id === questionId ? { ...q, answer } : q`. -/
def answerEntry (questionId : JsId) (answer : Option String) (q : Entry) : Entry :=
  if q.id = questionId then { q with answer := answer } else q

/-- The callback of the outer `map` in `applyResponseEvent`: a matching interview gets the answer
written into its transcript, any other interview is returned as it is. -/
def responseInto (interviewId questionId : JsId) (answer : Option String) (i : Interview) :
    Interview :=
  if sameId i.id interviewId then
    { i with transcript := some ((i.transcript.getD []).map (answerEntry questionId answer)) }
  else i

/-- Action `applyResponseEvent`. An inherited member is truthy and has no `filter` method, so
the call on it raises inside the updater, and the store keeps its state. -/
def applyResponseEvent (state : StoreState) (interviewId : JsId) (questionId : JsId)
    (answer : Option String) : Js StoreState :=
  let keyId := interviewId.toJsString
  let interviews := state.interviews.map (responseInto interviewId questionId answer)
  match objGet state.pendingQuestions keyId with
  | .inherited => .typeError
  | .own l =>
    .ok { state with
          interviews := interviews
          pendingQuestions :=
            objSet state.pendingQuestions keyId (l.filter (fun q => q.id != questionId)) }
  | .missing => .ok { state with interviews := interviews }

/-! ## Socket messages in the panels -/

/-- A parsed socket message, by its `type` property; `question` is `none` when the property
`data.question` is absent or `null`. -/
inductive SocketMessage where
  | question (question : Option Entry)
  | response (question_id : JsId) (answer : Option String)
  | status (status : Option String)
  | other
deriving DecidableEq, Repr

/-- The effect of `ws.onmessage` on the local transcript, the same in `InterviewerPanel` and
`CandidatePanel`: a question is upserted, a response is written into the entries with its
question id, a status message leaves the transcript alone (it only navigates). -/
def panelOnMessage (prev : List Entry) (data : SocketMessage) : List Entry :=
  match data with
  | .question (some q) => upsertQuestion prev (some q)
  | .question none => prev
  | .response question_id answer => prev.map (answerEntry question_id answer)
  | .status _ => prev
  | .other => prev

/-! ## REST actions of the store -/

/-- How an awaited REST call settles. -/
inductive RestResult (α : Type) where
  | resolved (a : α)
  | rejected (message : String)
deriving DecidableEq, Repr

/-- How an asynchronous action ends: its promise is fulfilled with a value or rejected with an
error message. -/
inductive Async (α : Type) where
  | returned (a : α)
  | thrown (message : String)
deriving DecidableEq, Repr

/-- The request `interviewsAPI.sendQuestion(id, question, key)`: a POST to
`/interviews/<id>/questions?key=<key>` with body `{ question }`. -/
structure QuestionRequest where
  interview : String
  key : JsKey
  question : String
deriving DecidableEq, Repr

/-- The expression `interview.transcript?.slice(-1)[0]`: the last entry, or `undefined` when the
transcript is empty or absent. -/
def lastEntry (transcript : Option (List Entry)) : Option Entry :=
  transcript.bind List.getLast?

/-- Action `sendQuestion` of the store. The function `server` stands for the awaited REST call:
for the request issued it gives the store state found when the call settles (other events may
have run meanwhile) and how the call settled. The action touches no socket. -/
def sendQuestion (state : StoreState) (interviewId : JsId) (questionText : String)
    (server : QuestionRequest → StoreState × RestResult Interview) :
    StoreState × Async (Option Entry) :=
  let key := getKeyForInterview state interviewId
  if !key.truthy then (state, .thrown "Missing participant key for send question")
  else
    match server ⟨interviewId.toJsString, key, questionText⟩ with
    | (later, .rejected message) => (later, .thrown message)
    | (later, .resolved interview) =>
      (syncInterview later interview, .returned (lastEntry interview.transcript))

/-! ## `InterviewerPanel`: sending a question -/

/-- The test `!q.answer` that both panels use to find the entry still waiting for an answer. -/
def noAnswer (q : Entry) : Bool :=
  !truthyText q.answer

/-- The memo `lastUnanswered` of `InterviewerPanel` (`activeQuestion` in `CandidatePanel`):
`transcript.find((q) => !q.answer)`. -/
def lastUnanswered (transcript : List Entry) : Option Entry :=
  transcript.find? noAnswer

/-- The part of the state of `InterviewerPanel` that `handleSendQuestion` reads or writes; `ws`
is `wsRef.current` and `key` is `keyRef.current`. -/
structure InterviewerPanel where
  interview : Option Interview
  transcript : List Entry
  message : String
  socketReady : Bool
  ws : Option Socket
  key : Option String
deriving DecidableEq, Repr

/-- What a handler does to the outside world: nothing, an alert box, one JSON message of type
`question` sent over a socket, one REST call `interviewsAPI.sendQuestion`, or one JSON message
of type `response` sent over a socket. -/
inductive PanelEffect where
  | nothing
  | alert (text : String)
  | socketSend (ws : Socket) (key : Option String) (question : String)
  | restSendQuestion (interviewId : JsId) (question : String) (key : Option String)
  | socketSendResponse (ws : Socket) (key : Option String) (questionId : JsId) (answer : String)
deriving DecidableEq, Repr

/-- The optimistic entry `{ id: "temp-" + Date.now(), question: text, answer: null }`; `now` is
the reading of the clock. -/
def tempEntry (now : Nat) (text : String) : Entry :=
  { id := .str ("temp-" ++ toString now), question := some text, answer := none }

/-- Handler `handleSendQuestion` of `InterviewerPanel`, up to the point where it returns: the new
state and the one effect. Reading `interview.id` for the REST call raises when the interview has
been reset to `null`. -/
def handleSendQuestion (p : InterviewerPanel) (now : Nat) : Js (InterviewerPanel × PanelEffect) :=
  let text := jsTrim p.message
  match p.ws with
  | none => .ok (p, .nothing)
  | some ws =>
    if text = "" then .ok (p, .nothing)
    else
      match lastUnanswered p.transcript with
      | some _ =>
        .ok (p, .alert
          "Please wait for the previous question to be answered before sending a new one.")
      | none =>
        if p.socketReady then
          .ok ({ p with transcript := upsertQuestion p.transcript (some (tempEntry now text))
                        message := "" },
               .socketSend ws p.key text)
        else
          match p.interview with
          | none => .typeError
          | some interview => .ok (p, .restSendQuestion interview.id text p.key)

/-- The `then` and `catch` callbacks of the REST fallback in `handleSendQuestion`: the local
transcript is replaced by `updated.transcript || []`, or the failure is shown. -/
def handleSendQuestionSettled (p : InterviewerPanel) (result : RestResult Interview) :
    InterviewerPanel × PanelEffect :=
  match result with
  | .resolved updated => ({ p with transcript := updated.transcript.getD [], message := "" },
      .nothing)
  | .rejected message =>
    (p, .alert (if message = "" then "Failed to send question" else message))

/-! ## Reconnect timer of the panels -/

/-- A pending `setTimeout(connect, delay)`: its handle and the clock reading, in milliseconds, at
which it fires. -/
structure Timer where
  id : Nat
  due : Nat
deriving DecidableEq, Repr

/-- The part of a panel that the reconnect logic reads or writes: the clock, the next timer
handle the browser will hand out (handles are positive), the pending timers whose callback is
`connect`, the cell `reconnectRef.current`, and the number of calls of `connect` made by timers
so far. The same in `InterviewerPanel` (`connectSocket`) and `CandidatePanel` (`connect`). -/
structure ReconnectState where
  now : Nat
  nextTimer : Nat
  pending : List Timer
  reconnectRef : Option Nat
  attempts : Nat
deriving DecidableEq, Repr

/-- The call `clearTimeout(id)`: a pending timer with that handle is dropped, any other handle
is ignored. -/
def clearTimeout (pending : List Timer) (id : Nat) : List Timer :=
  pending.filter (fun t => t.id != id)

/-- The timer part of `ws.onclose`: `if (reconnectRef.current) clearTimeout(reconnectRef.current)`
followed by `reconnectRef.current = setTimeout(connect, 1000)`. -/
def onClose (s : ReconnectState) : ReconnectState :=
  let cleared :=
    match s.reconnectRef with
    | some id => if id != 0 then clearTimeout s.pending id else s.pending
    | none => s.pending
  { s with
    pending := cleared ++ [{ id := s.nextTimer, due := s.now + 1000 }]
    reconnectRef := some s.nextTimer
    nextTimer := s.nextTimer + 1 }

/-- The clock advances by `dt` milliseconds: every pending timer that is due by then fires and
calls `connect` once; `connect` opens a socket and sets no timer. -/
def advance (s : ReconnectState) (dt : Nat) : ReconnectState :=
  { s with
    now := s.now + dt
    pending := s.pending.filter (fun t => decide (s.now + dt < t.due))
    attempts := s.attempts + (s.pending.filter (fun t => decide (t.due ≤ s.now + dt))).length }

/-- The reconnect state of a freshly mounted panel. -/
def mounted : ReconnectState :=
  { now := 0, nextTimer := 1, pending := [], reconnectRef := none, attempts := 0 }

/-! ## Socket registry of the store -/

/-- The store together with the part of the browser that its socket actions touch: the
`WebSocket` objects constructed so far and the ones on which `close` was called. -/
structure StoreEnv where
  store : StoreState
  opened : List Socket
  closed : List Socket
deriving DecidableEq, Repr

/-- What `connectSocket` returns: a socket, an inherited object member found where a socket was
expected, or `null`. -/
inductive ConnectResult where
  | socket (ws : Socket)
  | member
  | null
deriving DecidableEq, Repr

/-- Action `connectSocket`. The address of a new socket is built from `String(interviewId)` and
the resolved key; its message handler is installed before it is registered. -/
def connectSocket (env : StoreEnv) (interviewId : JsId) : StoreEnv × ConnectResult :=
  let socketKey := interviewId.toJsString
  match objGet env.store.sockets socketKey with
  | .own existing => (env, .socket existing)
  | .inherited => (env, .member)
  | .missing =>
    let resolvedKey := getKeyForInterview env.store interviewId
    if !resolvedKey.truthy then (env, .null)
    else
      let ws : Socket :=
        { serial := env.opened.length, interview := socketKey, key := resolvedKey }
      ({ env with
         store := { env.store with sockets := objSet env.store.sockets socketKey ws }
         opened := env.opened ++ [ws] },
       .socket ws)

/-- Action `disconnectSocket`. Calling `close` on an inherited member raises, because no such
member has a `close` method. -/
def disconnectSocket (env : StoreEnv) (interviewId : JsId) : Js StoreEnv :=
  let socketKey := interviewId.toJsString
  match objGet env.store.sockets socketKey with
  | .inherited => .typeError
  | .own ws =>
    .ok { env with
          store := { env.store with sockets := objDelete env.store.sockets socketKey }
          closed := env.closed ++ [ws] }
  | .missing =>
    .ok { env with store := { env.store with sockets := objDelete env.store.sockets socketKey } }

/-! ## Loading the interview list -/

/-- The call `Object.fromEntries(pairs)`: properties are defined in order, a later pair with the
same name replaces the value of an earlier one. -/
def fromEntries {α : Type} (pairs : List (String × α)) : List (String × α) :=
  pairs.foldl (fun obj kv => objSet obj kv.1 kv.2) []

/-- Action `fetchInterviews`. The function `server` stands for the awaited call
`interviewsAPI.getInterviews()`: it gives the store state found when the call settles and how it
settled. A failure is recorded and thrown again. -/
def fetchInterviews (state : StoreState)
    (server : StoreState → StoreState × RestResult (List Interview)) :
    StoreState × Async Unit :=
  match server { state with loading := true, error := none } with
  | (later, .resolved data) =>
    ({ later with
       interviews := data
       pendingQuestions :=
         fromEntries (data.map (fun i => (i.id.toJsString, pendingOf i.transcript)))
       loading := false },
     .returned ())
  | (later, .rejected message) =>
    ({ later with error := some message, loading := false }, .thrown message)

/-! ## `store/jobChatStore.js` and `JobBuilderChat` -/

/-- The object `extractedData` of the job chat store; a property that holds `null` or is absent
is `none`. -/
structure ExtractedData where
  role : Option String
  seniority : Option String
  department : Option String
  location : Option String
  must_have_skills : Option (List String)
  preferred_skills : Option (List String)
  responsibilities : Option (List String)
  expectations : Option String
  team_context : Option String
  joining_timeline : Option String
  company_tone : Option String
  salary_range : Option String
  special_requirements : Option String
  additional_notes : Option String
deriving DecidableEq, Repr

/-- The object that `getFormData` returns. -/
structure JobFormData where
  role : String
  seniority : String
  department : String
  location : String
  must_have_skills : List String
  preferred_skills : List String
  responsibilities : List String
  expectations : String
  team_context : String
  joining_timeline : String
  company_tone : String
  salary_range : String
  special_requirements : String
  additional_notes : String
deriving DecidableEq, Repr

/-- The expression `x || fallback` on an optional string: the fallback replaces `null`,
`undefined` and the empty string. -/
def orText (x : Option String) (fallback : String) : String :=
  match x with
  | some s => if s = "" then fallback else s
  | none => fallback

/-- The expression `x || []` on an optional array; an array is always truthy. -/
def orList (x : Option (List String)) : List String :=
  x.getD []

/-- Selector `getFormData` of the job chat store. -/
def getFormData (data : ExtractedData) : JobFormData :=
  { role := orText data.role ""
    seniority := orText data.seniority ""
    department := orText data.department ""
    location := orText data.location ""
    must_have_skills := orList data.must_have_skills
    preferred_skills := orList data.preferred_skills
    responsibilities := orList data.responsibilities
    expectations := orText data.expectations ""
    team_context := orText data.team_context ""
    joining_timeline := orText data.joining_timeline ""
    company_tone := orText data.company_tone ""
    salary_range := orText data.salary_range ""
    special_requirements := orText data.special_requirements ""
    additional_notes := orText data.additional_notes "" }

/-- A property value of the request payload: a text or a list of texts. -/
inductive FieldValue where
  | text (s : String)
  | list (items : List String)
deriving DecidableEq, Repr

/-- The object literal `payload` of `handleGenerateJD`, as its own properties in order. The three
spreads add their property only when the guard before `&&` is truthy. -/
def generatePayload (formData : JobFormData) : List (String × FieldValue) :=
  [("role", .text (orText (some formData.role) "")),
   ("seniority", .text (orText (some formData.seniority) "Mid")),
   ("location", .text (orText (some formData.location) "")),
   ("must_have_skills", .list formData.must_have_skills),
   ("company_tone", .text "formal")]
  ++ (if formData.expectations = "" then [] else [("expectations", .text formData.expectations)])
  ++ (if formData.department = "" then [] else [("department", .text formData.department)])
  ++ (if formData.preferred_skills.length > 0
        then [("preferred_skills", .list formData.preferred_skills)] else [])

/-- A message shown in the chat; `isError` is false when the property is absent. -/
structure ChatMessage where
  role : String
  content : String
  timestamp : String
  isError : Bool
deriving DecidableEq, Repr

/-- An item of `conversationHistory`. -/
structure HistoryItem where
  role : String
  content : String
deriving DecidableEq, Repr

/-- The state held by `useJobChatStore`. -/
structure JobChatState where
  messages : List ChatMessage
  conversationHistory : List HistoryItem
  extractedData : ExtractedData
  completionPercentage : Int
  missingFields : List String
  isComplete : Bool
  isTyping : Bool
  error : Option String
  summary : Option String
deriving DecidableEq, Repr

/-- The body of the request to `/jobs/chat/interactive-builder`. -/
structure ChatRequest where
  message : String
  conversation_history : List HistoryItem
  current_data : ExtractedData
deriving DecidableEq, Repr

/-- The response of `/jobs/chat/interactive-builder`; `summary` is `none` when it is absent or
`null`. -/
structure ChatResponse where
  reply : String
  extracted_data : ExtractedData
  completion_percentage : Int
  missing_required : List String
  is_complete : Bool
  summary : Option String
deriving DecidableEq, Repr

/-- The loop of `includes` at one position: does `needle` start here. -/
def startsWithChars : List Char → List Char → Bool
  | [], _ => true
  | _ :: _, [] => false
  | a :: as, b :: bs => a == b && startsWithChars as bs

/-- The search of `includes` through the characters of the text. -/
def includesChars (needle : List Char) : List Char → Bool
  | [] => needle.isEmpty
  | c :: cs => startsWithChars needle (c :: cs) || includesChars needle cs

/-- The call `s.includes(needle)` for a text needle. -/
def jsIncludesText (s needle : String) : Bool :=
  includesChars needle.toList s.toList

/-- The text of the error bubble that the `catch` block of `sendMessage` picks from the message
of the error. -/
def errorContent (message : String) : String :=
  if jsIncludesText message "401" || jsIncludesText message "Unauthorized" then
    "Your session has expired. Please log in again."
  else if jsIncludesText message "403" || jsIncludesText message "Forbidden" then
    "You don\x27t have permission to use this feature."
  else if jsIncludesText message "Failed to fetch" || jsIncludesText message "Network" then
    "Unable to connect to the server. Please check your connection."
  else if message != "" then "Error: " ++ message
  else "I apologize, I\x27m having trouble processing that."

/-- Action `sendMessage` of the job chat store. The state read at the start is `state`; `sentAt`
and `settledAt` are the two readings of the clock. The function `server` stands for the awaited
call of `api.post`: for the request and the store state after the first `set` it gives the store
state found when the call settles and how it settled. The result is the final state and the
way the promise of the action ends: a failure of the call ends in the `catch` block, which
returns. -/
def sendMessage (state : JobChatState) (message : String) (sentAt settledAt : String)
    (server : ChatRequest → JobChatState → JobChatState × RestResult ChatResponse) :
    JobChatState × Async Unit :=
  let userMessage : ChatMessage :=
    { role := "user", content := message, timestamp := sentAt, isError := false }
  let waiting : JobChatState :=
    { state with messages := state.messages ++ [userMessage], isTyping := true, error := none }
  match server ⟨message, state.conversationHistory, state.extractedData⟩ waiting with
  | (later, .resolved response) =>
    ({ later with
      messages := later.messages ++
        [{ role := "assistant", content := response.reply, timestamp := settledAt,
           isError := false }]
      conversationHistory := state.conversationHistory ++
        [{ role := "user", content := message },
         { role := "assistant", content := response.reply }]
      extractedData := response.extracted_data
      completionPercentage := response.completion_percentage
      missingFields := response.missing_required
      isComplete := response.is_complete
      summary := if truthyText response.summary then response.summary else none
      isTyping := false }, .returned ())
  | (later, .rejected failure) =>
    ({ later with
      messages := later.messages ++
        [{ role := "assistant", content := errorContent failure, timestamp := settledAt,
           isError := true }]
      isTyping := false
      error := some (if failure = "" then "Failed to send message" else failure) },
     .returned ())

/-- The initial state of the job chat store. -/
def initialChat : JobChatState :=
  { messages := []
    conversationHistory := []
    extractedData :=
      ⟨none, none, none, none, some [], some [], some [], none, none, none, none, none, none,
        none⟩
    completionPercentage := 0
    missingFields :=
      ["role", "seniority", "location", "must_have_skills", "joining_timeline", "salary_range"]
    isComplete := false
    isTyping := false
    error := none
    summary := none }

/-! ## `matcherAPI.streamMatch` in `utils/api.js` -/

/-- Splitting a character list at every occurrence of two line feeds in a row, scanning from the
left and resuming after each occurrence, as `split` does with the separator `"\n\n"`. -/
def splitBlank : List Char → List (List Char)
  | [] => [[]]
  | [c] => [[c]]
  | c :: d :: rest =>
    if c = '\n' ∧ d = '\n' then [] :: splitBlank rest
    else
      match splitBlank (d :: rest) with
      | [] => [[c]]
      | seg :: more => (c :: seg) :: more

/-- The parts that `processBuffer` handles: all pieces of `buffer.split("\n\n")` but the last. -/
def completeParts (buffer : String) : List String :=
  ((splitBlank buffer.toList).map String.mk).dropLast

/-- The new buffer of `processBuffer`: `parts.pop() || ""`, the piece after the last blank
line. -/
def remainder (buffer : String) : String :=
  (((splitBlank buffer.toList).map String.mk).getLast?).getD ""

/-- The call `s.startsWith(pre)` for a text. -/
def jsStartsWithText (s pre : String) : Bool :=
  startsWithChars pre.toList s.toList

/-- Removing the first occurrence of `needle` from a character list. -/
def removeFirstChars (needle : List Char) : List Char → List Char
  | [] => []
  | c :: cs =>
    if startsWithChars needle (c :: cs) then (c :: cs).drop needle.length
    else c :: removeFirstChars needle cs

/-- The call `s.replace(needle, "")` for a text needle: only the first occurrence goes. -/
def jsRemoveFirst (s needle : String) : String :=
  String.mk (removeFirstChars needle.toList s.toList)

/-- The callback of `lines.forEach` in `processBuffer`, on the pair of the variables `event` and
`data`. -/
def lineStep (acc : String × String) (line : String) : String × String :=
  if jsStartsWithText line "event:" then (jsTrim (jsRemoveFirst line "event:"), acc.2)
  else if jsStartsWithText line "data:" then
    (acc.1, acc.2 ++ jsTrim (jsRemoveFirst line "data:"))
  else acc

/-- The variables `event` and `data` of `processBuffer` once all lines of a part are read. -/
def blockFields (part : String) : String × String :=
  (jsSplit part '\n').foldl lineStep ("message", "")

/-- An object `{ event, data }` handed to `onEvent`. -/
structure SseEvent (α : Type) where
  event : String
  data : α
deriving DecidableEq, Repr

/-- The callback of `parts.forEach` in `processBuffer`: the call of `onEvent` that a part gives
rise to, if any. The function `parse` stands for `JSON.parse`, with `none` for a thrown
`SyntaxError`, which the `catch` block logs. -/
def blockEvent {α : Type} (parse : String → Option α) (part : String) : Option (SseEvent α) :=
  let fields := blockFields part
  if fields.2 = "" then none
  else
    match parse fields.2 with
    | some parsed => some { event := fields.1, data := parsed }
    | none => none

/-- The variable `buffer` of `streamMatch` and the calls of `onEvent` made so far. -/
structure StreamState (α : Type) where
  buffer : String
  emitted : List (SseEvent α)

/-- Function `processBuffer`. -/
def processBuffer {α : Type} (parse : String → Option α) (s : StreamState α) : StreamState α :=
  { buffer := remainder s.buffer
    emitted := s.emitted ++ (completeParts s.buffer).filterMap (blockEvent parse) }

/-- The read loop of `streamMatch`: each decoded chunk is appended to the buffer, then
`processBuffer` runs. -/
def readLoop {α : Type} (parse : String → Option α) (s : StreamState α) (chunks : List String) :
    StreamState α :=
  chunks.foldl (fun st chunk => processBuffer parse { st with buffer := st.buffer ++ chunk }) s

/-- The part of `streamMatch` that follows a successful `fetch`: the read loop over the chunks
of the body, then one more `processBuffer`; the result is the list of the calls of `onEvent`. -/
def streamMatch {α : Type} (parse : String → Option α) (chunks : List String) :
    List (SseEvent α) :=
  (processBuffer parse (readLoop parse { buffer := "", emitted := [] } chunks)).emitted

/-- The text of one block as the server writes it (see the comment above `processBuffer`): its
lines, separated by line feeds. -/
def blockText (lines : List String) : String :=
  String.mk (List.intercalate ['\n'] (lines.map String.toList))

/-- The text that a list of chunks spells when they are read one after the other. -/
def concatText : List String → String
  | [] => ""
  | chunk :: rest => chunk ++ concatText rest

/-- The text of a stream of blocks, each closed by a blank line. -/
def streamText (blocks : List (List String)) : String :=
  concatText (blocks.map (fun lines => blockText lines ++ "\n\n"))


/-- A block in the format that the comment above `processBuffer` names,
`event: <type>\ndata: <json>\n\n`: the text after `event: `, when the block has an event line,
and the text after `data: `. -/
structure WireBlock where
  event : Option String
  data : String
deriving DecidableEq, Repr

/-- The lines of a block: the event line, if any, then the data line. -/
def WireBlock.lines (b : WireBlock) : List String :=
  match b.event with
  | some type => ["event: " ++ type, "data: " ++ b.data]
  | none => ["data: " ++ b.data]


/-! ## Navigation bar and route guard -/

/-- The array `allMenuItems` of the navigation bar (`components/organisms/Navbar`). -/
def allMenuItems : List MenuItem :=
  [{ id := "jobs", label := "Jobs",
     submenus :=
      [⟨"Job Description Generator", "AI-powered job description creation", "/jobs/generator",
          some "✨"⟩,
       ⟨"Profile Matcher", "Match candidates to job requirements", "/jobs/matcher", none⟩] },
   { id := "documents", label := "Documents",
     submenus :=
      [⟨"Document Agent", "Generate HR letters with guided flow", "/documents/agent",
          some "✨"⟩,
       ⟨"Document Library", "View and download generated documents", "/documents/library",
          none⟩] },
   { id := "interviews", label := "Interviews",
     submenus :=
      [⟨"Interview Dashboard", "Manage all interviews", "/interviews/dashboard", none⟩,
       ⟨"Schedule Interview", "Create new interview sessions", "/interviews/schedule",
          none⟩] }]

/-- What `ProtectedRoute` renders: a redirect to `/login`, a redirect to `/dashboard`, or its
children. -/
inductive RouteOutcome where
  | toLogin
  | toDashboard
  | children
deriving DecidableEq, Repr

/-- Component `ProtectedRoute`; `user` is the value parsed from local storage (an object without
a role when nothing is stored) and `pathname` is `location.pathname`. -/
def ProtectedRoute (user : Option User) (pathname : String) : Js RouteOutcome :=
  match truthyRole user with
  | none => .ok .toLogin
  | some _ =>
    (canAccessRoute user pathname).bind fun allowed =>
      .ok (if allowed then .children else .toDashboard)

/-- The `path` of every route of `AppRoutes` whose element is wrapped in `ProtectedRoute`, in
source order. -/
def protectedPaths : List String :=
  ["/dashboard", "/jobs/generator", "/jobs/create/chat", "/jobs/create/form",
   "/jobs/generator/legacy", "/jobs/results", "/jobs/matcher", "/documents",
   "/documents/agent", "/documents/generate", "/documents/library", "/documents/templates",
   "/documents/query", "/interviews/dashboard", "/interviews/schedule",
   "/interview/:interviewId/summary"]


/-! ## `CandidatePanel`: submitting an answer -/

/-- The part of the state of `CandidatePanel` that `handleSubmit` reads or writes; `ws` is
`wsRef.current` and `key` is `keyRef.current`. The memo `activeQuestion` is computed from the
transcript. -/
structure CandidatePanel where
  transcript : List Entry
  response : String
  ws : Option Socket
  key : Option String
deriving DecidableEq, Repr

/-- Handler `handleSubmit` of `CandidatePanel`: the new state and the one effect. -/
def handleSubmit (p : CandidatePanel) : CandidatePanel × PanelEffect :=
  match lastUnanswered p.transcript with
  | none => (p, .nothing)
  | some activeQuestion =>
    if jsTrim p.response = "" then (p, .nothing)
    else
      match p.ws with
      | none => (p, .nothing)
      | some ws =>
        ({ p with response := "" },
         .socketSendResponse ws p.key activeQuestion.id (jsTrim p.response))

/-! ## `pages/Jobs/JobFormReview` -/

/-- The state `formData` of `JobFormReview`. A property is `none` when the data handed over by
the chat flow leaves it `null` or `undefined`. -/
structure ReviewFormData where
  role : Option String
  seniority : Option String
  department : Option String
  location : Option String
  must_have_skills : Option (List String)
  preferred_skills : Option (List String)
  responsibilities : Option (List String)
  expectations : Option String
  team_context : Option String
  joining_timeline : Option String
  company_tone : Option String
  salary_range : Option String
  special_requirements : Option String
  additional_notes : Option String
deriving DecidableEq, Repr

/-- The test `!x?.trim()` of `validateForm`. -/
def blankText (x : Option String) : Bool :=
  !truthyText (x.map jsTrim)

/-- The test `!skills || skills.length < 2` of `validateForm`. -/
def tooFewSkills (skills : Option (List String)) : Bool :=
  match skills with
  | none => true
  | some items => items.length < 2

/-- Function `validateForm`: the object handed to `setErrors` and the value returned. -/
def validateForm (formData : ReviewFormData) : List (String × String) × Bool :=
  let e0 : List (String × String) := []
  let e1 := if blankText formData.role then objSet e0 "role" "Role is required" else e0
  let e2 := if blankText formData.seniority then
    objSet e1 "seniority" "Seniority is required" else e1
  let e3 := if blankText formData.location then
    objSet e2 "location" "Location is required" else e2
  let newErrors := if tooFewSkills formData.must_have_skills then
    objSet e3 "must_have_skills" "At least 2 must-have skills required" else e3
  (newErrors, (objKeys newErrors).length == 0)

/-! ## Comma-separated lists (`JobFormReview`, `ProfileMatcher`) -/

/-- The call `items.join(sep)`. -/
def jsJoin (items : List String) (sep : String) : String :=
  String.mk (List.intercalate sep.toList (items.map String.toList))

/-- Function `parseSkills` of `ProfileMatcher`:
`value.split(",").map((s) => s.trim()).filter(Boolean)`. -/
def parseSkills (value : String) : List String :=
  ((jsSplit value ',').map jsTrim).filter (fun s => s != "")

/-- The constant `arrayValue` of `handleArrayChange` in `JobFormReview`, which the handler stores
under the field: `value.split(",").map(item => item.trim()).filter(Boolean)`. -/
def arrayValue (value : String) : List String :=
  ((jsSplit value ',').map jsTrim).filter (fun item => item != "")


/-! ## `pages/Jobs/ProfileMatcher`: ordering the results -/

/-- A card of the list `matches`. The score is a finite number, as JSON delivers it, read as a
rational; it is `none` when the property is missing, `null` or not a number. The property `raw`
holds the event data the card was built from, here as its JSON text. -/
structure MatchCard where
  id : Option Int
  file : String
  name : String
  score : Option ℚ
  matchedSkills : List String
  missingSkills : List String
  highlights : List String
  rationale : String
  email : Option String
  phone : Option String
  aiSummary : String
  raw : String
deriving DecidableEq, Repr

/-- The expression `card.score || 0`. -/
def scoreOrZero (card : MatchCard) : ℚ :=
  card.score.getD 0

/-- The comparator `(a, b) => (b.score || 0) - (a.score || 0)`. On finite numbers the sign of the
rounded difference is the sign of the exact one. -/
def byScoreDescending (a b : MatchCard) : ℚ :=
  scoreOrZero b - scoreOrZero a

/-- Insertion of `a` in front of the first element that the comparator does not put before
it. -/
def insertSorted {α : Type} (compare : α → α → ℚ) (a : α) : List α → List α
  | [] => [a]
  | b :: rest => if compare a b ≤ 0 then a :: b :: rest else b :: insertSorted compare a rest

/-- The array `sort` method with a comparator that is a consistent ordering: the elements in
the order of the comparator, elements that compare equal staying in their original order. The
language fixes this result, not the algorithm; here each element is inserted into the sorted
rest of the array. -/
def jsSort {α : Type} (compare : α → α → ℚ) : List α → List α
  | [] => []
  | a :: rest => insertSorted compare a (jsSort compare rest)

/-- The updater `(prev) => [...prev].sort((a, b) => (b.score || 0) - (a.score || 0))`. -/
def sortByScore (prev : List MatchCard) : List MatchCard :=
  jsSort byScoreDescending prev

/-- The state of `ProfileMatcher` that the stream events write; `matchCards` is the state
variable `matches`. -/
structure MatcherState where
  matchCards : List MatchCard
  loading : Bool
deriving DecidableEq, Repr

/-- The branch of the stream callback of `handleMatch` for the event `done`. -/
def onDone (s : MatcherState) : MatcherState :=
  { matchCards := sortByScore s.matchCards, loading := false }

/-- The click handler of the button `Sort by score`. -/
def onSortByScore (s : MatcherState) : MatcherState :=
  { s with matchCards := sortByScore s.matchCards }

/-! ## `components/molecules/ChatMessage` -/

/-- The characters of the class `[.!?]`. -/
def isTerminator (c : Char) : Bool :=
  c = '.' || c = '!' || c = '?'

/-- Where the scan for `/[^.!?]+[.!?]+/g` stands: no match begun, inside the run `[^.!?]+`, or
inside the run `[.!?]+`. -/
inductive ScanPhase where
  | skipping
  | body
  | closing
deriving DecidableEq, Repr

/-- The matches of `/[^.!?]+[.!?]+/g`, left to right; `current` holds the characters of the
match begun, last first. A terminator cannot begin a match; a run of other characters that
reaches the end of the text without a terminator is no match. -/
def matchSentences : ScanPhase → List Char → List Char → List (List Char)
  | phase, current, [] =>
    match phase with
    | .closing => [current.reverse]
    | _ => []
  | phase, current, c :: rest =>
    if isTerminator c then
      match phase with
      | .skipping => matchSentences .skipping [] rest
      | _ => matchSentences .closing (c :: current) rest
    else
      match phase with
      | .closing => current.reverse :: matchSentences .body [c] rest
      | _ => matchSentences .body (c :: current) rest

/-- The property `type` of a message part. -/
inductive PartType where
  | statement
  | question
deriving DecidableEq, Repr

/-- An object `{ type, text }` of the array that `parseMessage` returns. -/
structure MessagePart where
  type : PartType
  text : String
deriving DecidableEq, Repr

/-- The call `s.endsWith(c)` for a one-character suffix. -/
def jsEndsWith (s : String) (c : Char) : Bool :=
  s.toList.getLast? == some c

/-- The callback of `sentences.forEach` in `parseMessage`, on the pair of the array `parts` and
the variable `currentStatement`. -/
def sentenceStep (acc : List MessagePart × String) (sentence : String) :
    List MessagePart × String :=
  let trimmed := jsTrim sentence
  if jsEndsWith trimmed '?' then
    let parts := if acc.2 ≠ "" then acc.1 ++ [⟨.statement, jsTrim acc.2⟩] else acc.1
    (parts ++ [⟨.question, trimmed⟩], "")
  else (acc.1, acc.2 ++ ((if acc.2 ≠ "" then " " else "") ++ trimmed))

/-- Function `parseMessage`; `none` stands for a message that is `null` or `undefined`. -/
def parseMessage (message : Option String) : List MessagePart :=
  match message with
  | none => []
  | some text =>
    if text = "" then []
    else
      let found := (matchSentences .skipping [] text.toList).map String.mk
      let sentences := if found.isEmpty then [text] else found
      let acc := sentences.foldl sentenceStep ([], "")
      let parts := if acc.2 ≠ "" then acc.1 ++ [⟨.statement, jsTrim acc.2⟩] else acc.1
      if parts.length > 0 then parts else [⟨.statement, text⟩]

end TalentConnect

/-! Theorems about the definitions above. -/

namespace TalentConnect

/-! ## Lookup lemmas -/

theorem Js.bind_eq_ok {α β : Type} (x : Js α) (f : α → Js β) (r : β) :
    x.bind f = .ok r ↔ ∃ a, x = .ok a ∧ f a = .ok r := by
  cases x with
  | ok a => simp [Js.bind]
  | typeError => simp [Js.bind]

theorem ownGet_some_mem {α : Type} (obj : List (String × α)) (key : String) (v : α)
    (h : ownGet obj key = some v) : (key, v) ∈ obj := by
  induction obj with
  | nil => simp [ownGet] at h
  | cons kv rest ih =>
    obtain ⟨k, w⟩ := kv
    by_cases hk : k = key
    · simp [ownGet, hk] at h
      simp [hk, h]
    · simp [ownGet, hk] at h
      exact List.mem_cons_of_mem _ (ih h)

theorem everyFrom_of_forall {α : Type} (p : α → Nat → Bool) (xs : List α) (s : Nat)
    (h : ∀ i x, xs[i]? = some x → p x (s + i) = true) : everyFrom p s xs = true := by
  induction xs generalizing s with
  | nil => rfl
  | cons x rest ih =>
    have h0 : p x s = true := by simpa using h 0 x (by simp)
    have hrest : everyFrom p (s + 1) rest = true := by
      apply ih
      intro i y hy
      have := h (i + 1) y (by simpa using hy)
      simpa [Nat.add_assoc, Nat.add_comm 1 i] using this
    simp [everyFrom, h0, hrest]

theorem find_skips_failing {α : Type} (p : α → Bool) (l1 : List α) (a : α) (l2 : List α)
    (h1 : ∀ x ∈ l1, p x = false) (ha : p a = true) :
    (l1 ++ a :: l2).find? p = some a := by
  induction l1 with
  | nil => simp [List.find?, ha]
  | cons x rest ih =>
    have hx : p x = false := h1 x (by simp)
    have := ih (fun y hy => h1 y (List.mem_cons_of_mem _ hy))
    simp [List.find?, hx, this]

/-! ## Route access -/

theorem truthyRole_some (user : Option User) (role : String) (h : truthyRole user = some role) :
    user.bind User.role = some role ∧ role ≠ "" := by
  cases user with
  | none => simp [truthyRole] at h
  | some u =>
    cases hr : u.role with
    | none => simp [truthyRole, hr] at h
    | some r =>
      by_cases he : r = ""
      · simp [truthyRole, hr, he] at h
      · simp [truthyRole, hr, he] at h
        subst h
        simp [hr, he]

theorem contains_false_of_not_mem (roles : List String) (role : String) (h : role ∉ roles) :
    roles.contains role = false := by
  simpa using h

theorem routeMatches_of_segments (r p : String) (hcolon : ':' ∈ r.toList)
    (hlen : (jsSplit p '/').length = (jsSplit r '/').length)
    (hseg : ∀ (i : Nat) (seg : String), (jsSplit r '/')[i]? = some seg →
      seg.toList.head? ≠ some ':' → (jsSplit p '/')[i]? = some seg) :
    routeMatches r p = true := by
  have hinc : jsIncludes r ':' = true := by simpa [jsIncludes] using hcolon
  have hevery : everyIdx
      (fun part index => jsStartsWith part ':' || (jsSplit p '/')[index]? == some part)
      (jsSplit r '/') = true := by
    apply everyFrom_of_forall
    intro i seg hi
    by_cases hs : seg.toList.head? = some ':'
    · have hs2 : jsStartsWith seg ':' = true := by
        simp only [jsStartsWith, hs, beq_self_eq_true]
      simp [hs2]
    · have := hseg i seg hi hs
      simp [this]
  simp [routeMatches, hinc, hlen, hevery]

theorem routeMatches_no_colon (r p : String) (h : jsIncludes r ':' = false) :
    routeMatches r p = false := by
  simp [routeMatches, h]

/-- The only parameterised entry of the route table. -/
theorem route_colon_unique (r : String) (roles : List String)
    (hr : (r, roles) ∈ ROUTE_PERMISSIONS) (hcolon : ':' ∈ r.toList) :
    r = "/interview/:interviewId/summary" ∧ roles = [ROLES.HR, ROLES.HIRING_MANAGER] := by
  simp only [ROUTE_PERMISSIONS, List.mem_cons, Prod.mk.injEq, List.mem_singleton,
    List.not_mem_nil, or_false] at hr
  casesm* _ ∨ _, _ ∧ _
  all_goals
    subst_vars
    first
      | exact ⟨rfl, rfl⟩
      | exact absurd hcolon (by decide)

theorem ownGet_route_of_mem (r : String) (roles : List String)
    (hr : (r, roles) ∈ ROUTE_PERMISSIONS) : ownGet ROUTE_PERMISSIONS r = some roles := by
  simp only [ROUTE_PERMISSIONS, List.mem_cons, Prod.mk.injEq, List.mem_singleton,
    List.not_mem_nil, or_false] at hr
  casesm* _ ∨ _, _ ∧ _
  all_goals
    subst_vars
    decide

/-- A path matched by the parameterised route is no other key of the table. -/
theorem route_key_of_param_match (p : String) (roles : List String)
    (hp : (p, roles) ∈ ROUTE_PERMISSIONS)
    (hm : routeMatches "/interview/:interviewId/summary" p = true) :
    roles = [ROLES.HR, ROLES.HIRING_MANAGER] := by
  simp only [ROUTE_PERMISSIONS, List.mem_cons, Prod.mk.injEq, List.mem_singleton,
    List.not_mem_nil, or_false] at hp
  casesm* _ ∨ _, _ ∧ _
  all_goals
    subst_vars
    first
      | rfl
      | exact absurd hm (by decide)

theorem find_param_route (p : String)
    (hm : routeMatches "/interview/:interviewId/summary" p = true) :
    (objKeys ROUTE_PERMISSIONS).find? (fun route => routeMatches route p)
      = some "/interview/:interviewId/summary" := by
  have hsplit : objKeys ROUTE_PERMISSIONS =
      (objKeys ROUTE_PERMISSIONS).take 17 ++ "/interview/:interviewId/summary" :: [] := by
    decide
  rw [hsplit]
  apply find_skips_failing
  · intro x hx
    apply routeMatches_no_colon
    have hall : ∀ y ∈ (objKeys ROUTE_PERMISSIONS).take 17, jsIncludes y ':' = false := by
      decide
    exact hall x hx
  · exact hm

/-- C1. For every entry (route pattern with its roles) of ROUTE_PERMISSIONS, every user whose role
is not among those roles, and every path that matches the pattern (the path is the pattern itself,
or the pattern has a colon parameter, the path has as many slash-separated segments and agrees
with the pattern on each segment that does not start with a colon), canAccessRoute returns
false. -/
theorem canAccessRoute_denies_unlisted_role (r : String) (roles : List String)
    (hr : (r, roles) ∈ ROUTE_PERMISSIONS) (user : Option User)
    (hrole : ∀ role, user.bind User.role = some role → role ∉ roles) (p : String)
    (hmatch : p = r ∨
      (':' ∈ r.toList ∧ (jsSplit p '/').length = (jsSplit r '/').length ∧
        ∀ (i : Nat) (seg : String), (jsSplit r '/')[i]? = some seg →
          seg.toList.head? ≠ some ':' → (jsSplit p '/')[i]? = some seg)) :
    canAccessRoute user p = .ok false := by
  cases ht : truthyRole user with
  | none => simp [canAccessRoute, ht]
  | some role =>
    have hnot : role ∉ roles := hrole role (truthyRole_some user role ht).1
    rcases hmatch with rfl | ⟨hcolon, hlen, hseg⟩
    · simp only [canAccessRoute, ht, objGet, ownGet_route_of_mem p roles hr,
        contains_false_of_not_mem roles role hnot]
    · have hm := routeMatches_of_segments r p hcolon hlen hseg
      obtain ⟨rfl, rfl⟩ := route_colon_unique r roles hr hcolon
      have hc := contains_false_of_not_mem _ role hnot
      cases hg : ownGet ROUTE_PERMISSIONS p with
      | some roles2 =>
        have := route_key_of_param_match p roles2 (ownGet_some_mem _ _ _ hg) hm
        subst this
        simp only [canAccessRoute, ht, objGet, hg, hc]
      | none =>
        have hmem : p ∉ objectMembers := by
          intro hmem
          simp only [objectMembers, List.mem_cons, List.mem_singleton, List.not_mem_nil,
            or_false] at hmem
          casesm* _ ∨ _
          all_goals
            subst_vars
            exact absurd hm (by decide)
        have hown : ownGet ROUTE_PERMISSIONS "/interview/:interviewId/summary"
            = some [ROLES.HR, ROLES.HIRING_MANAGER] := by decide
        simp only [canAccessRoute, ht, objGet, hg, hmem, find_param_route p hm, hown, hc,
          if_false]

/-- C1 at a concrete input: a recruiter is refused the summary page of interview 42. -/
theorem canAccessRoute_denies_unlisted_role_witness :
    canAccessRoute (some ⟨some "recruiter"⟩) "/interview/42/summary" = .ok false :=
  canAccessRoute_denies_unlisted_role "/interview/:interviewId/summary"
    [ROLES.HR, ROLES.HIRING_MANAGER] (by decide) (some ⟨some "recruiter"⟩)
    (by
      intro role h
      have : role = "recruiter" := by simpa using h.symm
      subst this
      decide)
    "/interview/42/summary"
    (Or.inr ⟨by decide, by decide, by
      intro i seg hi hs
      have h4 : (jsSplit "/interview/:interviewId/summary" '/') =
          ["", "interview", ":interviewId", "summary"] := by decide
      have h5 : (jsSplit "/interview/42/summary" '/') = ["", "interview", "42", "summary"] := by
        decide
      rw [h4] at hi
      rw [h5]
      match i, hi with
      | 0, hi => simpa using hi
      | 1, hi => simpa using hi
      | 2, hi =>
        have : seg = ":interviewId" := by simpa using hi.symm
        subst this
        exact absurd rfl hs
      | 3, hi => simpa using hi
      | (n + 4), hi => simp at hi⟩)

/-! ## Menu filtering -/

theorem filterJs_ok {α : Type} (p : α → Js Bool) (xs r : List α) (h : filterJs p xs = .ok r) :
    r = xs.filter (fun x => decide (p x = .ok true)) := by
  induction xs generalizing r with
  | nil =>
    simp only [filterJs, Js.ok.injEq] at h
    simp [← h]
  | cons x rest ih =>
    simp only [filterJs] at h
    cases hp : p x with
    | typeError => simp [hp] at h
    | ok b =>
      cases hrest : filterJs p rest with
      | typeError => simp [hp, hrest] at h
      | ok rest2 =>
        have hr2 := ih rest2 hrest
        simp only [hp, hrest, Js.ok.injEq] at h
        cases b with
        | true => simp [← h, hr2, List.filter, hp]
        | false => simp [← h, hr2, List.filter, hp]

theorem filterJs_total {α : Type} (p : α → Js Bool) (xs : List α)
    (h : ∀ x ∈ xs, p x ≠ .typeError) : ∃ r, filterJs p xs = .ok r := by
  induction xs with
  | nil => exact ⟨[], rfl⟩
  | cons x rest ih =>
    obtain ⟨r, hr⟩ := ih (fun y hy => h y (List.mem_cons_of_mem _ hy))
    cases hp : p x with
    | typeError => exact absurd hp (h x (by simp))
    | ok b => exact ⟨if b then x :: r else r, by simp [filterJs, hp, hr]⟩

theorem mapJs_ok {α β : Type} (f : α → Js β) (xs : List α) (r : List β)
    (h : mapJs f xs = .ok r) : List.Forall₂ (fun x y => f x = .ok y) xs r := by
  induction xs generalizing r with
  | nil =>
    simp only [mapJs, Js.ok.injEq] at h
    subst h
    exact List.Forall₂.nil
  | cons x rest ih =>
    simp only [mapJs] at h
    cases hf : f x with
    | typeError => simp [hf] at h
    | ok y =>
      cases hrest : mapJs f rest with
      | typeError => simp [hf, hrest] at h
      | ok rest2 =>
        simp only [hf, hrest, Js.ok.injEq] at h
        subst h
        exact List.Forall₂.cons hf (ih rest2 hrest)

theorem mapJs_total {α β : Type} (f : α → Js β) (xs : List α)
    (h : ∀ x ∈ xs, ∃ y, f x = .ok y) : ∃ r, mapJs f xs = .ok r := by
  induction xs with
  | nil => exact ⟨[], rfl⟩
  | cons x rest ih =>
    obtain ⟨r, hr⟩ := ih (fun y hy => h y (List.mem_cons_of_mem _ hy))
    obtain ⟨y, hy⟩ := h x (by simp)
    exact ⟨y :: r, by simp [mapJs, hy, hr]⟩

theorem canViewMenu_returns (user : Option User) (menuId : String)
    (h : menuId ∉ objectMembers) : canViewMenu user menuId ≠ .typeError := by
  unfold canViewMenu
  cases truthyRole user with
  | none => simp
  | some role =>
    cases hg : ownGet MENU_ACCESS menuId with
    | some m => simp [objGet, hg]
    | none => simp [objGet, hg, h]

theorem canViewSubmenu_returns (user : Option User) (menuId key : String)
    (h : key ∉ objectMembers) : canViewSubmenu user menuId key ≠ .typeError := by
  unfold canViewSubmenu
  cases truthyRole user with
  | none => simp
  | some role =>
    cases hg : objGet MENU_ACCESS menuId with
    | missing => simp
    | inherited => simp
    | own menu =>
      cases hs : ownGet menu.submenus key with
      | some roles => simp [objGet, hs]
      | none => simp [objGet, hs, h]

/-- Dropping elements after an element-wise rebuild keeps the original order. -/
theorem forall2_filter_sublist {α β : Type} (R : α → β → Prop) (q : β → Bool) (xs : List α)
    (ys : List β) (h : List.Forall₂ R xs ys) :
    ∃ kept, kept.Sublist xs ∧ List.Forall₂ (fun y x => R x y) (ys.filter q) kept := by
  induction h with
  | nil => exact ⟨[], List.Sublist.slnil, by simp⟩
  | @cons x y xs2 ys2 hxy _ ih =>
    obtain ⟨kept, hsub, hrel⟩ := ih
    by_cases hq : q y = true
    · refine ⟨x :: kept, hsub.cons₂ x, ?_⟩
      simp only [List.filter, hq]
      exact List.Forall₂.cons hxy hrel
    · refine ⟨kept, hsub.cons x, ?_⟩
      have hq2 : q y = false := by simpa using hq
      simp only [List.filter, hq2]
      exact hrel

theorem withVisibleSubmenus_ok (user : Option User) (m0 m : MenuItem)
    (h : withVisibleSubmenus user m0 = .ok m) :
    m.id = m0.id ∧ m.label = m0.label ∧
      m.submenus = m0.submenus.filter (fun s =>
        decide (canViewSubmenu user m0.id (submenuKeyOf s) = .ok true)) := by
  obtain ⟨subs, hsubs, hm⟩ := (Js.bind_eq_ok _ _ _).mp h
  simp only [Js.ok.injEq] at hm
  subst hm
  exact ⟨rfl, rfl, filterJs_ok _ _ _ hsubs⟩

theorem forall2_of_mem_right {α β : Type} (R : α → β → Prop) (xs : List α) (ys : List β)
    (h : List.Forall₂ R xs ys) (y : β) (hy : y ∈ ys) : ∃ x ∈ xs, R x y := by
  induction h with
  | nil => simp at hy
  | @cons x0 y0 xs2 ys2 hxy _ ih =>
    rcases List.mem_cons.mp hy with rfl | hy2
    · exact ⟨x0, by simp, hxy⟩
    · obtain ⟨x, hx, hr⟩ := ih hy2
      exact ⟨x, List.mem_cons_of_mem _ hx, hr⟩

/-- C2. Whenever filterMenuByRole returns a list, every menu in it has a non-empty submenus list,
is a menu the user may view (canViewMenu), holds only submenus the user may view (canViewSubmenu
on the last path segment of the link), and the menus and their submenus come from the input in
the original order. The call does return a list as soon as no menu id and no submenu key is the
name of a member that every object inherits. -/
theorem filterMenuByRole_nonempty_viewable (user : Option User) (menuItems : List MenuItem) :
    ((∀ m ∈ menuItems, m.id ∉ objectMembers) →
      (∀ m ∈ menuItems, ∀ s ∈ m.submenus, submenuKeyOf s ∉ objectMembers) →
      ∃ result, filterMenuByRole user menuItems = .ok result) ∧
    ∀ result, filterMenuByRole user menuItems = .ok result →
      (∀ m ∈ result, m.submenus ≠ [] ∧ canViewMenu user m.id = .ok true ∧
        ∀ s ∈ m.submenus, canViewSubmenu user m.id (submenuKeyOf s) = .ok true) ∧
      ∃ kept, kept.Sublist menuItems ∧
        List.Forall₂ (fun (m m0 : MenuItem) =>
          m.id = m0.id ∧ m.label = m0.label ∧ m.submenus.Sublist m0.submenus) result kept := by
  cases ht : truthyRole user with
  | none =>
    refine ⟨fun _ _ => ⟨[], by simp [filterMenuByRole, ht]⟩, ?_⟩
    intro result h
    simp only [filterMenuByRole, ht, Js.ok.injEq] at h
    subst h
    exact ⟨by simp, [], List.nil_sublist _, List.Forall₂.nil⟩
  | some role =>
    constructor
    · intro hid hkey
      obtain ⟨visible, hvis⟩ := filterJs_total (fun menu => canViewMenu user menu.id) menuItems
        (fun m hm => canViewMenu_returns user m.id (hid m hm))
      have hsub : visible.Sublist menuItems := by
        rw [filterJs_ok _ _ _ hvis]
        exact List.filter_sublist _
      obtain ⟨mapped, hmap⟩ := mapJs_total (withVisibleSubmenus user) visible
        (by
          intro m hm
          obtain ⟨subs, hsubs⟩ := filterJs_total
            (fun submenu => canViewSubmenu user m.id (submenuKeyOf submenu)) m.submenus
            (fun s hs => canViewSubmenu_returns user m.id _ (hkey m (hsub.subset hm) s hs))
          exact ⟨{ m with submenus := subs }, by simp [withVisibleSubmenus, hsubs, Js.bind]⟩)
      exact ⟨mapped.filter (fun menu => menu.submenus.length > 0), by
        simp [filterMenuByRole, ht, hvis, hmap, Js.bind]⟩
    · intro result h
      simp only [filterMenuByRole, ht] at h
      obtain ⟨visible, hvis, h⟩ := (Js.bind_eq_ok _ _ _).mp h
      obtain ⟨mapped, hmap, h⟩ := (Js.bind_eq_ok _ _ _).mp h
      simp only [Js.ok.injEq] at h
      have hvisEq := filterJs_ok _ _ _ hvis
      have hall : ∀ m0 ∈ visible, canViewMenu user m0.id = .ok true := by
        intro m0 hm0
        rw [hvisEq] at hm0
        simpa using (List.mem_filter.mp hm0).2
      have hrel := mapJs_ok _ _ _ hmap
      constructor
      · intro m hm
        rw [← h] at hm
        obtain ⟨hmm, hlen⟩ := List.mem_filter.mp hm
        obtain ⟨m0, hm0, hm0m⟩ := forall2_of_mem_right _ _ _ hrel m hmm
        obtain ⟨hid, _, hsubs⟩ := withVisibleSubmenus_ok user m0 m hm0m
        refine ⟨?_, ?_, ?_⟩
        · intro hnil
          simp [hnil] at hlen
        · rw [hid]
          exact hall m0 hm0
        · intro s hs
          rw [hsubs] at hs
          rw [hid]
          simpa using (List.mem_filter.mp hs).2
      · obtain ⟨kept, hk, hf⟩ := forall2_filter_sublist _
          (fun (menu : MenuItem) => decide (menu.submenus.length > 0)) visible mapped hrel
        refine ⟨kept, hk.trans (by rw [hvisEq]; exact List.filter_sublist _), ?_⟩
        rw [← h]
        refine hf.imp ?_
        intro m m0 hmm
        obtain ⟨hid, hlabel, hsubs⟩ := withVisibleSubmenus_ok user m0 m hmm
        exact ⟨hid, hlabel, by rw [hsubs]; exact List.filter_sublist _⟩

/-- C2 at a concrete input: for a recruiter the jobs menu keeps the matcher and loses the
generator, and the interviews menu is dropped. -/
theorem filterMenuByRole_nonempty_viewable_witness :
    (∃ result, filterMenuByRole (some ⟨some "recruiter"⟩)
        [⟨"jobs", "Jobs", [⟨"Job Description Generator", "", "/jobs/generator", none⟩,
            ⟨"Profile Matcher", "", "/jobs/matcher", none⟩]⟩,
          ⟨"interviews", "Interviews",
            [⟨"Interview Dashboard", "", "/interviews/dashboard", none⟩]⟩] = .ok result) ∧
      ∀ m ∈ [(⟨"jobs", "Jobs", [⟨"Profile Matcher", "", "/jobs/matcher", none⟩]⟩ : MenuItem)],
        m.submenus ≠ [] ∧ canViewMenu (some ⟨some "recruiter"⟩) m.id = .ok true ∧
          ∀ s ∈ m.submenus,
            canViewSubmenu (some ⟨some "recruiter"⟩) m.id (submenuKeyOf s) = .ok true :=
  ⟨(filterMenuByRole_nonempty_viewable _ _).1 (by decide) (by decide),
    ((filterMenuByRole_nonempty_viewable (some ⟨some "recruiter"⟩)
      [⟨"jobs", "Jobs", [⟨"Job Description Generator", "", "/jobs/generator", none⟩,
          ⟨"Profile Matcher", "", "/jobs/matcher", none⟩]⟩,
        ⟨"interviews", "Interviews",
          [⟨"Interview Dashboard", "", "/interviews/dashboard", none⟩]⟩]).2 _ (by decide)).1⟩

/-! ## Transcript merge -/

theorem findIndex_some_get {α : Type} (p : α → Bool) (l : List α) (i : Nat)
    (h : findIndex p l = some i) : ∃ x, l[i]? = some x ∧ p x = true := by
  induction l generalizing i with
  | nil => simp [findIndex] at h
  | cons x rest ih =>
    by_cases hp : p x = true
    · simp only [findIndex, hp, if_true, Option.some.injEq] at h
      subst h
      exact ⟨x, by simp, hp⟩
    · simp only [findIndex, hp, Bool.false_eq_true, if_false, Option.map_eq_some'] at h
      obtain ⟨j, hj, rfl⟩ := h
      obtain ⟨y, hy, hpy⟩ := ih j hj
      exact ⟨y, by simpa using hy, hpy⟩

theorem findIndex_none_iff {α : Type} (p : α → Bool) (l : List α) :
    findIndex p l = none ↔ ∀ x ∈ l, p x = false := by
  induction l with
  | nil => simp [findIndex]
  | cons x rest ih =>
    by_cases hp : p x = true
    · simp [findIndex, hp]
    · have hp2 : p x = false := by simpa using hp
      simp [findIndex, hp2, ih]

/-- Entries before the index returned by findIndex fail the test. -/
theorem findIndex_some_before {α : Type} (p : α → Bool) (l : List α) (i : Nat)
    (h : findIndex p l = some i) : ∀ j x, j < i → l[j]? = some x → p x = false := by
  induction l generalizing i with
  | nil => simp [findIndex] at h
  | cons y rest ih =>
    by_cases hp : p y = true
    · simp only [findIndex, hp, if_true, Option.some.injEq] at h
      subst h
      intro j x hj
      omega
    · simp only [findIndex, hp, Bool.false_eq_true, if_false, Option.map_eq_some'] at h
      obtain ⟨k, hk, rfl⟩ := h
      intro j x hj hx
      cases j with
      | zero =>
        simp only [List.getElem?_cons_zero, Option.some.injEq] at hx
        subst hx
        simpa using hp
      | succ j2 =>
        exact ih k hk j2 x (by omega) (by simpa using hx)

theorem findIndex_set_same {α : Type} (p : α → Bool) (l : List α) (i : Nat) (v : α)
    (h : findIndex p l = some i) (hv : p v = true) : findIndex p (l.set i v) = some i := by
  induction l generalizing i with
  | nil => simp [findIndex] at h
  | cons x rest ih =>
    by_cases hp : p x = true
    · simp only [findIndex, hp, if_true, Option.some.injEq] at h
      subst h
      simp [findIndex, hv]
    · simp only [findIndex, hp, Bool.false_eq_true, if_false, Option.map_eq_some'] at h
      obtain ⟨j, hj, rfl⟩ := h
      simp [findIndex, hp, ih j hj]

theorem findIndex_none_set {α : Type} (p : α → Bool) (l : List α) (i : Nat) (v : α)
    (h : findIndex p l = none) (hi : i < l.length) :
    findIndex p (l.set i v) = if p v then some i else none := by
  induction l generalizing i with
  | nil => simp at hi
  | cons x rest ih =>
    have hx : p x = false := (findIndex_none_iff p _).mp h x (by simp)
    have hrest : findIndex p rest = none :=
      (findIndex_none_iff p _).mpr (fun y hy => (findIndex_none_iff p _).mp h y
        (List.mem_cons_of_mem _ hy))
    cases i with
    | zero =>
      by_cases hv : p v = true
      · simp [findIndex, hv]
      · simp [findIndex, hv, hrest]
    | succ j =>
      have hj : j < rest.length := by simpa using hi
      by_cases hv : p v = true
      · simp [findIndex, hx, ih j hrest hj, hv]
      · simp [findIndex, hx, ih j hrest hj, hv]

theorem findIndex_none_append {α : Type} (p : α → Bool) (l : List α) (v : α)
    (h : findIndex p l = none) :
    findIndex p (l ++ [v]) = if p v then some l.length else none := by
  induction l with
  | nil =>
    by_cases hv : p v = true
    · simp [findIndex, hv]
    · simp [findIndex, hv]
  | cons x rest ih =>
    have hx : p x = false := (findIndex_none_iff p _).mp h x (by simp)
    have hrest : findIndex p rest = none :=
      (findIndex_none_iff p _).mpr (fun y hy => (findIndex_none_iff p _).mp h y
        (List.mem_cons_of_mem _ hy))
    by_cases hv : p v = true
    · simp [findIndex, hx, ih hrest, hv]
    · simp [findIndex, hx, ih hrest, hv]

theorem nullish_nullish (a b : Option String) : nullish (nullish a b) b = nullish a b := by
  cases a <;> cases b <;> rfl

theorem mergeQuestion_twice (prev inc : Entry) :
    mergeQuestion (mergeQuestion prev inc) inc = mergeQuestion prev inc := by
  simp [mergeQuestion, nullish_nullish]

theorem mergeQuestion_self (inc : Entry) : mergeQuestion inc inc = inc := by
  cases inc with
  | mk id q a => cases a <;> rfl

theorem mergeAt_of_get (list : List Entry) (i : Nat) (prev inc : Entry)
    (h : list[i]? = some prev) : mergeAt list i inc = list.set i (mergeQuestion prev inc) := by
  simp [mergeAt, h]

/-- Merging again at an index that already holds a merged entry changes nothing. -/
theorem mergeAt_set_merged (list : List Entry) (i : Nat) (prev inc : Entry)
    (h : list[i]? = some prev) :
    mergeAt (list.set i (mergeQuestion prev inc)) i inc = list.set i (mergeQuestion prev inc) := by
  have hi : i < list.length := by
    rcases Nat.lt_or_ge i list.length with hlt | hge
    · exact hlt
    · simp [List.getElem?_eq_none hge] at h
  have hget : (list.set i (mergeQuestion prev inc))[i]? = some (mergeQuestion prev inc) := by
    simp [List.getElem?_set, hi]
  rw [mergeAt_of_get _ _ _ _ hget, mergeQuestion_twice, List.set_set]

theorem mergeAt_append_self (list : List Entry) (inc : Entry) :
    mergeAt (list ++ [inc]) list.length inc = list ++ [inc] := by
  have hget : (list ++ [inc])[list.length]? = some inc := by simp
  rw [mergeAt_of_get _ _ _ _ hget, mergeQuestion_self]
  simp

theorem sameText_merge (prev inc : Entry) (hprev : sameTextUnanswered inc prev = true)
    (hinc : truthyText inc.answer = false) :
    sameTextUnanswered inc (mergeQuestion prev inc) = true := by
  simp only [sameTextUnanswered, Bool.and_eq_true, Bool.not_eq_true'] at hprev ⊢
  refine ⟨by simp [mergeQuestion, trimmedQuestion], ?_⟩
  cases hp : prev.answer with
  | none => simpa [mergeQuestion, nullish, hp] using hinc
  | some a => simpa [mergeQuestion, nullish, hp] using hprev.2

theorem get_lt_of_some {α : Type} (l : List α) (i : Nat) (x : α) (h : l[i]? = some x) :
    i < l.length := by
  rcases Nat.lt_or_ge i l.length with hlt | hge
  · exact hlt
  · simp [List.getElem?_eq_none hge] at h

/-- A second upsert of the same question leaves the list alone whenever the first one did not
turn an unanswered same-text entry into an answered one. -/
theorem upsertQuestion_twice_of_stable (list : List Entry) (inc : Entry)
    (hstable : ∀ i prev, findIndex (sameTextUnanswered inc) list = some i →
      list[i]? = some prev → sameTextUnanswered inc (mergeQuestion prev inc) = true) :
    upsertQuestion (upsertQuestion list (some inc)) (some inc) = upsertQuestion list (some inc) := by
  cases hP : findIndex (sameTextUnanswered inc) list with
  | some i =>
    obtain ⟨prev, hget, _⟩ := findIndex_some_get _ _ _ hP
    have hfirst : upsertQuestion list (some inc) = list.set i (mergeQuestion prev inc) := by
      simp [upsertQuestion, hP, mergeAt_of_get _ _ _ _ hget]
    have hP2 := findIndex_set_same _ list i (mergeQuestion prev inc) hP (hstable i prev hP hget)
    rw [hfirst]
    simp only [upsertQuestion, hP2]
    exact mergeAt_set_merged list i prev inc hget
  | none =>
    cases hQ : findIndex (fun q => q.id == inc.id) list with
    | some i =>
      obtain ⟨prev, hget, _⟩ := findIndex_some_get _ _ _ hQ
      have hi := get_lt_of_some _ _ _ hget
      have hfirst : upsertQuestion list (some inc) = list.set i (mergeQuestion prev inc) := by
        simp [upsertQuestion, hP, hQ, mergeAt_of_get _ _ _ _ hget]
      rw [hfirst]
      have hP2 := findIndex_none_set _ list i (mergeQuestion prev inc) hP hi
      have hQ2 := findIndex_set_same (fun q => q.id == inc.id) list i (mergeQuestion prev inc) hQ
        (by simp [mergeQuestion])
      by_cases hm : sameTextUnanswered inc (mergeQuestion prev inc) = true
      · simp only [hm, if_true] at hP2
        simp only [upsertQuestion, hP2]
        exact mergeAt_set_merged list i prev inc hget
      · simp only [hm, Bool.false_eq_true, if_false] at hP2
        simp only [upsertQuestion, hP2, hQ2]
        exact mergeAt_set_merged list i prev inc hget
    | none =>
      have hfirst : upsertQuestion list (some inc) = list ++ [inc] := by
        simp [upsertQuestion, hP, hQ]
      rw [hfirst]
      have hP2 := findIndex_none_append _ list inc hP
      have hQ2 := findIndex_none_append (fun q => q.id == inc.id) list inc hQ
      simp only [beq_self_eq_true, if_true] at hQ2
      by_cases hm : sameTextUnanswered inc inc = true
      · simp only [hm, if_true] at hP2
        simp only [upsertQuestion, hP2]
        exact mergeAt_append_self list inc
      · simp only [hm, Bool.false_eq_true, if_false] at hP2
        simp only [upsertQuestion, hP2, hQ2]
        exact mergeAt_append_self list inc

/-- C3, counterexample. Two unanswered entries share the text of an incoming question that
already carries an answer: the first upsert replaces the first entry, the second upsert replaces
the other one as well, so applying the event twice is not the same as applying it once. -/
theorem upsertQuestion_twice_differs :
    upsertQuestion
        (upsertQuestion
          [⟨.str "temp-1", some "Why Lean?", none⟩, ⟨.num 7, some "Why Lean?", none⟩]
          (some ⟨.num 5, some "Why Lean?", some "x"⟩))
        (some ⟨.num 5, some "Why Lean?", some "x"⟩)
      ≠ upsertQuestion
          [⟨.str "temp-1", some "Why Lean?", none⟩, ⟨.num 7, some "Why Lean?", none⟩]
          (some ⟨.num 5, some "Why Lean?", some "x"⟩) := by
  decide

/-- C3, amended. For every transcript list and every question event that carries no answer
(null, undefined or the empty string), and for a missing event, applying upsertQuestion twice
gives the same transcript as applying it once. -/
theorem upsertQuestion_idempotent_unanswered (list : List Entry) (incoming : Option Entry)
    (h : ∀ q, incoming = some q → truthyText q.answer = false) :
    upsertQuestion (upsertQuestion list incoming) incoming = upsertQuestion list incoming := by
  cases incoming with
  | none => rfl
  | some inc =>
    apply upsertQuestion_twice_of_stable
    intro i prev hP hget
    obtain ⟨x, hx, hpx⟩ := findIndex_some_get _ _ _ hP
    rw [hget] at hx
    cases hx
    exact sameText_merge prev inc hpx (h inc rfl)

/-- C3, amended, at a concrete input: the echo of an optimistic question applied twice. -/
theorem upsertQuestion_idempotent_unanswered_witness :
    upsertQuestion
        (upsertQuestion [⟨.str "temp-1", some "Why Lean?", none⟩]
          (some ⟨.num 5, some " Why Lean? ", none⟩))
        (some ⟨.num 5, some " Why Lean? ", none⟩)
      = upsertQuestion [⟨.str "temp-1", some "Why Lean?", none⟩]
          (some ⟨.num 5, some " Why Lean? ", none⟩) :=
  upsertQuestion_idempotent_unanswered _ _ (by decide)

/-! ## Interview store: dictionaries and deduplication -/

theorem ownGet_objSet_same {α : Type} (obj : List (String × α)) (key : String) (v : α) :
    ownGet (objSet obj key v) key = some v := by
  induction obj with
  | nil => simp [objSet, ownGet]
  | cons kv rest ih =>
    obtain ⟨k, w⟩ := kv
    by_cases hk : k = key
    · simp [objSet, ownGet, hk]
    · simp [objSet, ownGet, hk, ih]

theorem ownGet_objSet_other {α : Type} (obj : List (String × α)) (key other : String) (v : α)
    (h : other ≠ key) : ownGet (objSet obj key v) other = ownGet obj other := by
  induction obj with
  | nil =>
    have h2 : ¬ key = other := fun e => h e.symm
    simp [objSet, ownGet, h2]
  | cons kv rest ih =>
    obtain ⟨k, w⟩ := kv
    by_cases hk : k = key
    · subst hk
      have h2 : ¬ k = other := fun e => h e.symm
      simp [objSet, ownGet, h2]
    · by_cases hko : k = other
      · subst hko
        simp [objSet, ownGet, hk]
      · simp [objSet, ownGet, hk, hko, ih]

theorem objGet_objSet_same {α : Type} (obj : List (String × α)) (key : String) (v : α) :
    objGet (objSet obj key v) key = .own v := by
  simp [objGet, ownGet_objSet_same]

theorem objGet_objSet_other {α : Type} (obj : List (String × α)) (key other : String) (v : α)
    (h : other ≠ key) : objGet (objSet obj key v) other = objGet obj other := by
  simp [objGet, ownGet_objSet_other obj key other v h]

theorem objSet_objSet_same {α : Type} (obj : List (String × α)) (key : String) (v w : α) :
    objSet (objSet obj key v) key w = objSet obj key w := by
  induction obj with
  | nil => simp [objSet]
  | cons kv rest ih =>
    obtain ⟨k, u⟩ := kv
    by_cases hk : k = key
    · simp [objSet, hk]
    · simp [objSet, hk, ih]

theorem dedupeFrom_ids (seen : List JsId) (l : List Entry) :
    (∀ e ∈ dedupeFrom seen l, e.id.truthy = true ∧ e.id ∉ seen ∧ e ∈ l) ∧
      ((dedupeFrom seen l).map Entry.id).Nodup := by
  induction l generalizing seen with
  | nil => simp [dedupeFrom]
  | cons item rest ih =>
    by_cases ht : item.id.truthy = true
    · by_cases hs : item.id ∈ seen
      · have hc : seen.contains item.id = true := by simpa using hs
        simp only [dedupeFrom, ht, hc, Bool.not_true, Bool.false_eq_true, if_false, if_true]
        exact ⟨fun e he => ⟨((ih seen).1 e he).1, ((ih seen).1 e he).2.1,
          List.mem_cons_of_mem _ ((ih seen).1 e he).2.2⟩, (ih seen).2⟩
      · have hc : seen.contains item.id = false := by simpa using hs
        simp only [dedupeFrom, ht, hc, Bool.not_true, Bool.false_eq_true, if_false]
        constructor
        · intro e he
          rcases List.mem_cons.mp he with rfl | he2
          · exact ⟨ht, hs, by simp⟩
          · have := (ih (item.id :: seen)).1 e he2
            exact ⟨this.1, fun hmem => this.2.1 (List.mem_cons_of_mem _ hmem),
              List.mem_cons_of_mem _ this.2.2⟩
        · simp only [List.map_cons, List.nodup_cons]
          refine ⟨?_, (ih (item.id :: seen)).2⟩
          intro hmem
          obtain ⟨e, he, hid⟩ := List.mem_map.mp hmem
          have := ((ih (item.id :: seen)).1 e he).2.1
          exact this (by simp [hid])
    · have ht2 : item.id.truthy = false := by simpa using ht
      simp only [dedupeFrom, ht2, Bool.not_false, if_true]
      exact ⟨fun e he => ⟨((ih seen).1 e he).1, ((ih seen).1 e he).2.1,
        List.mem_cons_of_mem _ ((ih seen).1 e he).2.2⟩, (ih seen).2⟩

theorem dedupeFrom_fixed (seen : List JsId) (l : List Entry)
    (htruthy : ∀ e ∈ l, e.id.truthy = true) (hnodup : (l.map Entry.id).Nodup)
    (hfresh : ∀ e ∈ l, e.id ∉ seen) : dedupeFrom seen l = l := by
  induction l generalizing seen with
  | nil => rfl
  | cons item rest ih =>
    have ht := htruthy item (by simp)
    have hs : seen.contains item.id = false := by simpa using hfresh item (by simp)
    simp only [List.map_cons, List.nodup_cons] at hnodup
    simp only [dedupeFrom, ht, hs, Bool.not_true, Bool.false_eq_true, if_false]
    congr 1
    apply ih
    · exact fun e he => htruthy e (List.mem_cons_of_mem _ he)
    · exact hnodup.2
    · intro e he hmem
      rcases List.mem_cons.mp hmem with hid | hmem2
      · exact hnodup.1 (List.mem_map.mpr ⟨e, he, hid⟩)
      · exact hfresh e (List.mem_cons_of_mem _ he) hmem2

theorem dedupeFrom_append_singleton (seen : List JsId) (l : List Entry) (q : Entry) :
    dedupeFrom seen (l ++ [q]) = dedupeFrom seen l ++
      (if q.id.truthy = true ∧ q.id ∉ seen ∧ q.id ∉ (dedupeFrom seen l).map Entry.id
        then [q] else []) := by
  induction l generalizing seen with
  | nil =>
    by_cases ht : q.id.truthy = true
    · by_cases hs : q.id ∈ seen
      · simp [dedupeFrom, ht, hs]
      · simp [dedupeFrom, ht, hs]
    · simp [dedupeFrom, ht]
  | cons item rest ih =>
    by_cases ht : item.id.truthy = true
    · by_cases hs : item.id ∈ seen
      · have hc : seen.contains item.id = true := by simpa using hs
        rw [List.cons_append]
        simp only [dedupeFrom, ht, hc, Bool.not_true, Bool.false_eq_true, if_false, if_true]
        exact ih seen
      · have hc : seen.contains item.id = false := by simpa using hs
        rw [List.cons_append]
        simp only [dedupeFrom, ht, hc, Bool.not_true, Bool.false_eq_true, if_false]
        rw [ih (item.id :: seen)]
        simp only [List.mem_cons, not_or, List.map_cons]
        by_cases h1 : q.id.truthy = true
        · by_cases h2 : q.id = item.id
          · simp [h1, h2]
          · by_cases h3 : q.id ∈ seen
            · simp [h1, h2, h3]
            · simp [h1, h2, h3]
        · simp [h1]
    · have ht2 : item.id.truthy = false := by simpa using ht
      rw [List.cons_append]
      simp only [dedupeFrom, ht2, Bool.not_false, if_true]
      exact ih seen

/-- After one merge of a question, merging the same question again changes nothing. -/
theorem dedupeById_append_twice (l : List Entry) (q : Entry) :
    dedupeById (dedupeById (l ++ [q]) ++ [q]) = dedupeById (l ++ [q]) := by
  unfold dedupeById
  have hprops := dedupeFrom_ids [] (l ++ [q])
  rw [dedupeFrom_append_singleton [] (dedupeFrom [] (l ++ [q])) q]
  have hfix : dedupeFrom [] (dedupeFrom [] (l ++ [q])) = dedupeFrom [] (l ++ [q]) :=
    dedupeFrom_fixed [] _ (fun e he => (hprops.1 e he).1) hprops.2 (fun e _ => by simp)
  rw [hfix]
  by_cases ht : q.id.truthy = true
  · have hmem : q.id ∈ (dedupeFrom [] (l ++ [q])).map Entry.id := by
      rw [dedupeFrom_append_singleton [] l q]
      by_cases hin : q.id ∈ (dedupeFrom [] l).map Entry.id
      · simp only [List.map_append, List.mem_append]
        exact Or.inl hin
      · simp [ht, hin]
    simp [hmem]
  · simp [ht]

/-- A merged list holds exactly one entry with the id of a question whose id is truthy. -/
theorem dedupeById_append_count (l : List Entry) (q : Entry) (ht : q.id.truthy = true) :
    ((dedupeById (l ++ [q])).filter (fun e => e.id == q.id)).length = 1 := by
  have hprops := dedupeFrom_ids [] (l ++ [q])
  have hmem : q.id ∈ (dedupeById (l ++ [q])).map Entry.id := by
    unfold dedupeById
    rw [dedupeFrom_append_singleton [] l q]
    by_cases hin : q.id ∈ (dedupeFrom [] l).map Entry.id
    · simp only [List.map_append, List.mem_append]
      exact Or.inl hin
    · simp [ht, hin]
  have hnodup : ((dedupeById (l ++ [q])).map Entry.id).Nodup := hprops.2
  have hcount : ((dedupeById (l ++ [q])).map Entry.id).count q.id = 1 :=
    List.count_eq_one_of_mem hnodup hmem
  rw [List.count_eq_countP, List.countP_map, List.countP_eq_length_filter] at hcount
  exact hcount

/-! ## Interview store: question events -/

/-- The rebuilt interview list of applyQuestionEvent is stable under a second rebuild. -/
theorem questionMap_twice (interviews : List Interview) (interviewId : JsId) (question : Entry) :
    (interviews.map (questionInto interviewId question)).map (questionInto interviewId question)
      = interviews.map (questionInto interviewId question) := by
  rw [List.map_map]
  apply List.map_congr_left
  intro i _
  by_cases hs : sameId i.id interviewId = true
  · simp [Function.comp, questionInto, hs, dedupeById_append_twice]
  · simp [Function.comp, questionInto, hs]

/-- Outside C4. An interview id whose text names an inherited object member, such as
"constructor", never reaches applyQuestionEvent: the action is called from the message handler
that connectSocket installs, and for such an id connectSocket returns the inherited member of
the sockets object before it installs a handler. Were the action called with it on the initial
store, reading pendingQuestions would yield the inherited member and spreading it would
raise. -/
theorem applyQuestionEvent_inherited_key_raises :
    applyQuestionEvent (initialStore []) (.str "constructor") ⟨.str "q1", some "Why Lean?", none⟩
      = .typeError := by
  decide

/-- C4. For every store state, every interview id that the message handler can pass (one for
which the pendingQuestions object does not yield an inherited member, as for every id whose
text is not the name of such a member), and every question event with a truthy id:
applyQuestionEvent returns; a second call with the same arguments returns the state reached by
the first one; in that state every interview matching the id has a transcript with exactly one
entry carrying the question id, and the pending list of the id has exactly one such entry. -/
theorem applyQuestionEvent_idempotent (state : StoreState) (interviewId : JsId)
    (question : Entry) (hid : question.id.truthy = true)
    (hkey : objGet state.pendingQuestions interviewId.toJsString ≠ .inherited) :
    ∃ s1, applyQuestionEvent state interviewId question = .ok s1 ∧
      applyQuestionEvent s1 interviewId question = .ok s1 ∧
      (∀ i ∈ s1.interviews, sameId i.id interviewId = true →
        ∃ t, i.transcript = some t ∧ (t.filter (fun e => e.id == question.id)).length = 1) ∧
      ∃ pending, objGet s1.pendingQuestions interviewId.toJsString = .own pending ∧
        (pending.filter (fun e => e.id == question.id)).length = 1 := by
  have key : ∀ l : List Entry,
      (objGet state.pendingQuestions interviewId.toJsString = .own l ∨
        (objGet state.pendingQuestions interviewId.toJsString = .missing ∧ l = [])) →
      ∃ s1, applyQuestionEvent state interviewId question = .ok s1 ∧
        applyQuestionEvent s1 interviewId question = .ok s1 ∧
        (∀ i ∈ s1.interviews, sameId i.id interviewId = true →
          ∃ t, i.transcript = some t ∧ (t.filter (fun e => e.id == question.id)).length = 1) ∧
        ∃ pending, objGet s1.pendingQuestions interviewId.toJsString = .own pending ∧
          (pending.filter (fun e => e.id == question.id)).length = 1 := by
    intro l hl
    refine ⟨{ state with
        interviews := state.interviews.map (questionInto interviewId question)
        pendingQuestions := objSet state.pendingQuestions interviewId.toJsString
          (dedupeById (l ++ [question])) }, ?_, ?_, ?_, ?_⟩
    · rcases hl with hl | ⟨hl, rfl⟩
      · simp only [applyQuestionEvent, hl]
      · simp only [applyQuestionEvent, hl]
    · simp only [applyQuestionEvent, objGet_objSet_same, questionMap_twice,
        dedupeById_append_twice, objSet_objSet_same]
    · intro i hi hs
      simp only [List.mem_map] at hi
      obtain ⟨i0, _, rfl⟩ := hi
      by_cases hs0 : sameId i0.id interviewId = true
      · simp only [questionInto, hs0, Bool.not_true, Bool.false_eq_true, if_false]
        exact ⟨_, rfl, dedupeById_append_count _ question hid⟩
      · have hs1 : sameId i0.id interviewId = false := by simpa using hs0
        simp only [questionInto, hs1, Bool.not_false, if_true] at hs
        exact absurd hs (by decide)
    · exact ⟨_, objGet_objSet_same _ _ _, dedupeById_append_count _ question hid⟩
  cases hg : objGet state.pendingQuestions interviewId.toJsString with
  | own l => exact key l (Or.inl hg)
  | missing => exact key [] (Or.inr ⟨hg, rfl⟩)
  | inherited => exact absurd hg hkey

/-- C4 at a concrete input: the same question event applied to a store that holds interview 3,
addressed by the text of its id. -/
theorem applyQuestionEvent_idempotent_witness :
    ∃ s1, applyQuestionEvent
        { initialStore [] with
          interviews := [⟨.num 3, some [⟨.str "q1", some "Why Lean?", none⟩], none, none, none⟩] }
        (.str "3") ⟨.str "q1", some "Why Lean?", none⟩ = .ok s1 ∧
      applyQuestionEvent s1 (.str "3") ⟨.str "q1", some "Why Lean?", none⟩ = .ok s1 ∧
      (∀ i ∈ s1.interviews, sameId i.id (.str "3") = true →
        ∃ t, i.transcript = some t ∧ (t.filter (fun e => e.id == JsId.str "q1")).length = 1) ∧
      ∃ pending, objGet s1.pendingQuestions "3" = .own pending ∧
        (pending.filter (fun e => e.id == JsId.str "q1")).length = 1 :=
  applyQuestionEvent_idempotent _ (.str "3") ⟨.str "q1", some "Why Lean?", none⟩ (by decide)
    (by decide)

/-! ## Transcript merge: replacement in place -/

/-- C5, counterexample. The optimistic entry holds an empty string as answer, which counts as
unanswered; the incoming question with the same text carries an answer. The entry takes the id of
the incoming question but keeps its own empty answer, so it has not taken all incoming fields. -/
theorem upsertQuestion_keeps_empty_answer :
    sameTextUnanswered ⟨.num 5, some "Why Lean?", some "Because."⟩
        ⟨.str "temp-1", some "Why Lean?", some ""⟩ = true ∧
      upsertQuestion [⟨.str "temp-1", some "Why Lean?", some ""⟩]
          (some ⟨.num 5, some "Why Lean?", some "Because."⟩)
        = [⟨.num 5, some "Why Lean?", some ""⟩] ∧
      upsertQuestion [⟨.str "temp-1", some "Why Lean?", some ""⟩]
          (some ⟨.num 5, some "Why Lean?", some "Because."⟩)
        ≠ [⟨.num 5, some "Why Lean?", some "Because."⟩] := by
  decide

/-- C5, amended. For every transcript list that contains an unanswered entry whose trimmed
question text equals the trimmed text of the incoming question, upsertQuestion returns a list of
the same length in which the first such entry (lowest index) has taken the id and the question
text of the incoming question; its answer is the incoming answer when the entry held null or
undefined, and the answer it held (an empty string) otherwise; every entry at any other index is
unchanged. -/
theorem upsertQuestion_replaces_first_match (list : List Entry) (inc : Entry)
    (h : ∃ e ∈ list, sameTextUnanswered inc e = true) :
    ∃ (i : Nat) (prev : Entry), list[i]? = some prev ∧ sameTextUnanswered inc prev = true ∧
      (∀ (j : Nat) (e : Entry), j < i → list[j]? = some e →
        sameTextUnanswered inc e = false) ∧
      (upsertQuestion list (some inc)).length = list.length ∧
      (upsertQuestion list (some inc))[i]? =
        some (Entry.mk inc.id inc.question (nullish prev.answer inc.answer)) ∧
      (prev.answer = none → (upsertQuestion list (some inc))[i]? = some inc) ∧
      ∀ (j : Nat), j ≠ i → (upsertQuestion list (some inc))[j]? = list[j]? := by
  cases hP : findIndex (sameTextUnanswered inc) list with
  | none =>
    obtain ⟨e, he, hpe⟩ := h
    have := (findIndex_none_iff _ _).mp hP e he
    rw [this] at hpe
    exact absurd hpe (by decide)
  | some i =>
    obtain ⟨prev, hget, hprev⟩ := findIndex_some_get _ _ _ hP
    have hi := get_lt_of_some _ _ _ hget
    have hres : upsertQuestion list (some inc) = list.set i (mergeQuestion prev inc) := by
      simp [upsertQuestion, hP, mergeAt_of_get _ _ _ _ hget]
    refine ⟨i, prev, hget, hprev, findIndex_some_before _ _ _ hP, ?_, ?_, ?_, ?_⟩
    · simp [hres]
    · simp [hres, List.getElem?_set, hi, mergeQuestion]
    · intro hnone
      cases inc with
      | mk id q a => simp [hres, List.getElem?_set, hi, mergeQuestion, nullish, hnone]
    · intro j hj
      have hji : ¬ i = j := fun e => hj e.symm
      simp [hres, List.getElem?_set, hji]

/-- C5, amended, at a concrete input: the echo of an optimistic question replaces it in place
and leaves the answered entry before it alone. -/
theorem upsertQuestion_replaces_first_match_witness :
    ∃ (i : Nat) (prev : Entry),
      [(⟨.num 4, some "Intro?", some "Hi."⟩ : Entry), ⟨.str "temp-1", some "Why Lean?", none⟩][i]?
        = some prev ∧
      sameTextUnanswered ⟨.num 5, some "Why Lean? ", none⟩ prev = true ∧
      (∀ (j : Nat) (e : Entry), j < i →
        [(⟨.num 4, some "Intro?", some "Hi."⟩ : Entry),
          ⟨.str "temp-1", some "Why Lean?", none⟩][j]? = some e →
        sameTextUnanswered ⟨.num 5, some "Why Lean? ", none⟩ e = false) ∧
      (upsertQuestion
        [⟨.num 4, some "Intro?", some "Hi."⟩, ⟨.str "temp-1", some "Why Lean?", none⟩]
        (some ⟨.num 5, some "Why Lean? ", none⟩)).length = 2 ∧
      (upsertQuestion
        [⟨.num 4, some "Intro?", some "Hi."⟩, ⟨.str "temp-1", some "Why Lean?", none⟩]
        (some ⟨.num 5, some "Why Lean? ", none⟩))[i]? =
        some (Entry.mk (.num 5) (some "Why Lean? ") (nullish prev.answer none)) ∧
      (prev.answer = none →
        (upsertQuestion
          [⟨.num 4, some "Intro?", some "Hi."⟩, ⟨.str "temp-1", some "Why Lean?", none⟩]
          (some ⟨.num 5, some "Why Lean? ", none⟩))[i]? =
          some ⟨.num 5, some "Why Lean? ", none⟩) ∧
      ∀ (j : Nat), j ≠ i →
        (upsertQuestion
          [⟨.num 4, some "Intro?", some "Hi."⟩, ⟨.str "temp-1", some "Why Lean?", none⟩]
          (some ⟨.num 5, some "Why Lean? ", none⟩))[j]? =
        [(⟨.num 4, some "Intro?", some "Hi."⟩ : Entry),
          ⟨.str "temp-1", some "Why Lean?", none⟩][j]? :=
  upsertQuestion_replaces_first_match
    [⟨.num 4, some "Intro?", some "Hi."⟩, ⟨.str "temp-1", some "Why Lean?", none⟩]
    ⟨.num 5, some "Why Lean? ", none⟩
    ⟨⟨.str "temp-1", some "Why Lean?", none⟩, by decide, by decide⟩

/-! ## Response events -/

theorem map_getElem?_answerEntry (t : List Entry) (questionId : JsId) (answer : Option String)
    (m : Nat) (q : Entry) (h : t[m]? = some q) :
    (t.map (answerEntry questionId answer))[m]? =
      some (if q.id = questionId then { q with answer := answer } else q) := by
  simp [List.getElem?_map, h, answerEntry]

/-- Outside C6. The store below is built by hand: it holds an interview whose id is
"constructor" but no pending list for it, which syncInterview and fetchInterviews never leave
behind, and the message handler never passes such an id. On it the response event would read
the inherited member of pendingQuestions, call filter on it and raise. -/
theorem applyResponseEvent_inherited_key_raises :
    applyResponseEvent
        { initialStore [] with
          interviews :=
            [⟨.str "constructor", some [⟨.str "q1", some "Why Lean?", none⟩], none, none, none⟩] }
        (.str "constructor") (.str "q1") (some "Because.")
      = .typeError := by
  decide

/-- C6. For every store state and interview id as the store and its message handler produce
them (the pendingQuestions object does not yield an inherited member for the id, as for every
id whose text is not the name of such a member and for every id with a pending list of its
own), question id and answer: applyResponseEvent returns a state with as many interviews; an
interview that does not match the id is unchanged; in a matching one only the transcript
changes, keeping its length, and the entry at each index is the old entry, with the answer
replaced by the submitted one exactly when its id equals the question id. The response branch
of the socket handler of both panels does the same to the local transcript. -/
theorem applyResponseEvent_frame (state : StoreState) (interviewId questionId : JsId)
    (answer : Option String)
    (hkey : objGet state.pendingQuestions interviewId.toJsString ≠ .inherited) :
    (∃ s1, applyResponseEvent state interviewId questionId answer = .ok s1 ∧
      s1.interviews.length = state.interviews.length ∧
      ∀ (n : Nat) (i : Interview), state.interviews[n]? = some i →
        (sameId i.id interviewId = false → s1.interviews[n]? = some i) ∧
        (sameId i.id interviewId = true →
          ∃ t1, s1.interviews[n]? = some { i with transcript := some t1 } ∧
            t1.length = (i.transcript.getD []).length ∧
            ∀ (m : Nat) (q : Entry), (i.transcript.getD [])[m]? = some q →
              t1[m]? = some (if q.id = questionId then { q with answer := answer } else q))) ∧
    ∀ prev : List Entry,
      (panelOnMessage prev (.response questionId answer)).length = prev.length ∧
      ∀ (m : Nat) (q : Entry), prev[m]? = some q →
        (panelOnMessage prev (.response questionId answer))[m]? =
          some (if q.id = questionId then { q with answer := answer } else q) := by
  constructor
  · have hint : ∀ (n : Nat) (i : Interview), state.interviews[n]? = some i →
        (sameId i.id interviewId = false →
          (state.interviews.map (responseInto interviewId questionId answer))[n]? = some i) ∧
        (sameId i.id interviewId = true →
          ∃ t1, (state.interviews.map (responseInto interviewId questionId answer))[n]?
              = some { i with transcript := some t1 } ∧
            t1.length = (i.transcript.getD []).length ∧
            ∀ (m : Nat) (q : Entry), (i.transcript.getD [])[m]? = some q →
              t1[m]? = some (if q.id = questionId then { q with answer := answer } else q)) := by
      intro n i hn
      constructor
      · intro hs
        simp [List.getElem?_map, hn, responseInto, hs]
      · intro hs
        refine ⟨(i.transcript.getD []).map (answerEntry questionId answer), ?_, by simp, ?_⟩
        · simp [List.getElem?_map, hn, responseInto, hs]
        · intro m q hq
          exact map_getElem?_answerEntry _ _ _ m q hq
    cases hg : objGet state.pendingQuestions interviewId.toJsString with
    | inherited => exact absurd hg hkey
    | own l =>
      simp only [applyResponseEvent, hg]
      exact ⟨_, rfl, by simp, hint⟩
    | missing =>
      simp only [applyResponseEvent, hg]
      exact ⟨_, rfl, by simp, hint⟩
  · intro prev
    refine ⟨by simp [panelOnMessage], ?_⟩
    intro m q hq
    exact map_getElem?_answerEntry _ _ _ m q hq

/-- C6 at a concrete input: the answer to question q1 of interview 3 arrives. -/
theorem applyResponseEvent_frame_witness :
    (∃ s1, applyResponseEvent
        { initialStore [] with
          interviews := [⟨.num 3, some [⟨.str "q1", some "Why Lean?", none⟩], none, none, none⟩]
          pendingQuestions := [("3", [⟨.str "q1", some "Why Lean?", none⟩])] }
        (.str "3") (.str "q1") (some "Because.") = .ok s1 ∧
      s1.interviews.length = 1 ∧
      ∀ (n : Nat) (i : Interview),
        [(⟨.num 3, some [⟨.str "q1", some "Why Lean?", none⟩], none, none, none⟩ : Interview)][n]?
          = some i →
        (sameId i.id (.str "3") = false → s1.interviews[n]? = some i) ∧
        (sameId i.id (.str "3") = true →
          ∃ t1, s1.interviews[n]? = some { i with transcript := some t1 } ∧
            t1.length = (i.transcript.getD []).length ∧
            ∀ (m : Nat) (q : Entry), (i.transcript.getD [])[m]? = some q →
              t1[m]? = some (if q.id = JsId.str "q1" then { q with answer := some "Because." }
                else q))) ∧
    ∀ prev : List Entry,
      (panelOnMessage prev (.response (.str "q1") (some "Because."))).length = prev.length ∧
      ∀ (m : Nat) (q : Entry), prev[m]? = some q →
        (panelOnMessage prev (.response (.str "q1") (some "Because.")))[m]? =
          some (if q.id = JsId.str "q1" then { q with answer := some "Because." } else q) :=
  applyResponseEvent_frame
    { initialStore [] with
      interviews := [⟨.num 3, some [⟨.str "q1", some "Why Lean?", none⟩], none, none, none⟩]
      pendingQuestions := [("3", [⟨.str "q1", some "Why Lean?", none⟩])] }
    (.str "3") (.str "q1") (some "Because.") (by decide)

/-! ## REST fallback of the store -/

theorem syncInterview_sockets (state : StoreState) (interview : Interview) :
    (syncInterview state interview).sockets = state.sockets := by
  simp [syncInterview]

theorem lastEntry_append (t : List Entry) (q : Entry) : lastEntry (some (t ++ [q])) = some q := by
  simp [lastEntry]

/-- C7. For every interview id for which a participant key resolves and every interview with
which the REST call settles, the store action sendQuestion issues one request that carries the
id, the key and the question text, ends in the state that syncInterview gives for the returned
interview, and returns the last entry of the returned transcript (nothing when the transcript is
empty or absent); the sockets of the store are not touched. Hence, when the server has appended
the sent question last, the returned entry is that question. -/
theorem sendQuestion_returns_last_entry (state : StoreState) (interviewId : JsId)
    (questionText : String) (server : QuestionRequest → StoreState × RestResult Interview)
    (later : StoreState) (interview : Interview)
    (hkey : (getKeyForInterview state interviewId).truthy = true)
    (hserver : server ⟨interviewId.toJsString, getKeyForInterview state interviewId,
      questionText⟩ = (later, .resolved interview)) :
    sendQuestion state interviewId questionText server
        = (syncInterview later interview, .returned (lastEntry interview.transcript)) ∧
      (sendQuestion state interviewId questionText server).1.sockets = later.sockets ∧
      (interview.transcript = none → lastEntry interview.transcript = none) ∧
      (interview.transcript = some [] → lastEntry interview.transcript = none) ∧
      ∀ (t : List Entry) (q : Entry), interview.transcript = some (t ++ [q]) →
        q.question = some questionText →
        ∃ r, (sendQuestion state interviewId questionText server).2 = .returned (some r) ∧
          r.question = some questionText := by
  have hmain : sendQuestion state interviewId questionText server
      = (syncInterview later interview, .returned (lastEntry interview.transcript)) := by
    simp [sendQuestion, hkey, hserver]
  refine ⟨hmain, ?_, ?_, ?_, ?_⟩
  · rw [hmain]
    exact syncInterview_sockets later interview
  · intro h
    simp [h, lastEntry]
  · intro h
    simp [h, lastEntry]
  · intro t q ht hq
    refine ⟨q, ?_, hq⟩
    rw [hmain, ht, lastEntry_append]

/-- C7 at a concrete input: the key of interview 3 is stored, the server answers with the
transcript that ends in the question just sent. -/
theorem sendQuestion_returns_last_entry_witness :
    sendQuestion { initialStore [("3", "k-int")] with sockets := [] } (.num 3)
        "Describe your last project."
        (fun _ => ({ initialStore [("3", "k-int")] with sockets := [] },
          .resolved ⟨.num 3, some [⟨.str "q1", some "Describe your last project.", none⟩],
            none, none, none⟩))
      = (syncInterview { initialStore [("3", "k-int")] with sockets := [] }
          ⟨.num 3, some [⟨.str "q1", some "Describe your last project.", none⟩],
            none, none, none⟩,
         .returned (lastEntry (some [⟨.str "q1", some "Describe your last project.", none⟩]))) :=
  (sendQuestion_returns_last_entry _ (.num 3) "Describe your last project." _ _
    ⟨.num 3, some [⟨.str "q1", some "Describe your last project.", none⟩], none, none, none⟩
    (by decide) rfl).1

/-! ## At most one unanswered entry -/

theorem lastUnanswered_none_iff (t : List Entry) :
    lastUnanswered t = none ↔ ∀ e ∈ t, noAnswer e = false := by
  simp [lastUnanswered, List.find?_eq_none]

theorem upsertQuestion_fresh_append (t : List Entry) (inc : Entry)
    (hnone : lastUnanswered t = none) (hfresh : ∀ e ∈ t, e.id ≠ inc.id) :
    upsertQuestion t (some inc) = t ++ [inc] := by
  have hall := (lastUnanswered_none_iff t).mp hnone
  have hP : findIndex (sameTextUnanswered inc) t = none := by
    rw [findIndex_none_iff]
    intro e he
    have := hall e he
    simp only [noAnswer] at this
    simp [sameTextUnanswered, this]
  have hQ : findIndex (fun q => q.id == inc.id) t = none := by
    rw [findIndex_none_iff]
    intro e he
    simpa using hfresh e he
  simp [upsertQuestion, hP, hQ]

/-- Outside C8. The handler has a REST branch for a socket that is not ready, which the send
button does not let it reach. Were it to run there, its continuation would replace the
transcript by the one the server returns, whatever it holds, here two unanswered entries. -/
theorem handleSendQuestion_rest_breaks_invariant :
    handleSendQuestion
        { interview := some ⟨.num 3, some [], none, none, none⟩, transcript := [],
          message := "Why Lean?", socketReady := false, ws := some ⟨0, "3", .text "k"⟩,
          key := some "k" } 1700000000000
      = .ok ({ interview := some ⟨.num 3, some [], none, none, none⟩, transcript := [],
               message := "Why Lean?", socketReady := false, ws := some ⟨0, "3", .text "k"⟩,
               key := some "k" },
             .restSendQuestion (.num 3) "Why Lean?" (some "k")) ∧
      ((handleSendQuestionSettled
          { interview := some ⟨.num 3, some [], none, none, none⟩, transcript := [],
            message := "Why Lean?", socketReady := false, ws := some ⟨0, "3", .text "k"⟩,
            key := some "k" }
          (.resolved ⟨.num 3, some [⟨.num 1, some "Intro?", none⟩,
            ⟨.num 2, some "Why Lean?", none⟩], none, none, none⟩)).1.transcript.filter
        noAnswer).length = 2 := by
  decide

theorem upsertQuestion_answered_le_one (t : List Entry) (inc : Entry)
    (hnone : lastUnanswered t = none) :
    ((upsertQuestion t (some inc)).filter noAnswer).length ≤ 1 := by
  have hall := (lastUnanswered_none_iff t).mp hnone
  have hold : t.filter noAnswer = [] := by
    rw [List.filter_eq_nil_iff]
    intro e he
    simp [hall e he]
  have hP : findIndex (sameTextUnanswered inc) t = none := by
    rw [findIndex_none_iff]
    intro e he
    have := hall e he
    simp only [noAnswer] at this
    simp [sameTextUnanswered, this]
  cases hQ : findIndex (fun q => q.id == inc.id) t with
  | none =>
    simp only [upsertQuestion, hP, hQ, List.filter_append, hold, List.nil_append]
    by_cases hi : noAnswer inc = true
    · simp [List.filter_cons, hi]
    · simp [List.filter_cons, hi]
  | some idx =>
    obtain ⟨prev, hprev, _⟩ := findIndex_some_get _ t idx hQ
    have hmem : prev ∈ t := List.getElem?_mem hprev
    have hans : noAnswer (mergeQuestion prev inc) = false := by
      have hp := hall prev hmem
      simp only [noAnswer, Bool.not_eq_false'] at hp
      cases ha : prev.answer with
      | none => simp [ha, truthyText] at hp
      | some a =>
        rw [ha] at hp
        simp [noAnswer, mergeQuestion, nullish, ha, hp]
    have hempty : (t.set idx (mergeQuestion prev inc)).filter noAnswer = [] := by
      rw [List.filter_eq_nil_iff]
      intro e he
      rcases List.mem_or_eq_of_mem_set he with h | h
      · simp [hall e h]
      · simp [h, hans]
    simp only [upsertQuestion, hP, hQ, mergeAt_of_get t idx prev inc hprev, hempty]
    simp

/-- C8. The handler handleSendQuestion of InterviewerPanel runs only from the send button, which
is disabled while the socket is not ready, so the socket is ready whenever it runs. It then
returns, and when the local transcript has at most one entry without an answer before, it has
at most one after. When the transcript already has an unanswered entry, the handler sends
nothing and leaves the state unchanged. When it has none, the message is not blank and a socket
object exists, the handler sends one question and the optimistic insert appends exactly one
entry, which is then the only unanswered one (no entry carrying the temporary id already). -/
theorem handleSendQuestion_keeps_single_unanswered (p : InterviewerPanel) (now : Nat)
    (hready : p.socketReady = true) :
    (∃ p1 effect, handleSendQuestion p now = .ok (p1, effect) ∧
      ((p.transcript.filter noAnswer).length ≤ 1 →
        (p1.transcript.filter noAnswer).length ≤ 1)) ∧
    (∀ e, lastUnanswered p.transcript = some e →
      ∃ effect, handleSendQuestion p now = .ok (p, effect) ∧
        (effect = .nothing ∨ ∃ text, effect = .alert text)) ∧
    (∀ ws, lastUnanswered p.transcript = none → p.ws = some ws → jsTrim p.message ≠ "" →
      (∀ e ∈ p.transcript, e.id ≠ (tempEntry now (jsTrim p.message)).id) →
      ∃ p1, handleSendQuestion p now = .ok (p1, .socketSend ws p.key (jsTrim p.message)) ∧
        p1.transcript = p.transcript ++ [tempEntry now (jsTrim p.message)] ∧
        p1.transcript.filter noAnswer = [tempEntry now (jsTrim p.message)]) := by
  refine ⟨?_, ?_, ?_⟩
  · cases hws : p.ws with
    | none => exact ⟨p, .nothing, by simp [handleSendQuestion, hws], fun h => h⟩
    | some ws =>
      by_cases ht : jsTrim p.message = ""
      · exact ⟨p, .nothing, by simp [handleSendQuestion, hws, ht], fun h => h⟩
      · cases hq : lastUnanswered p.transcript with
        | some e =>
          exact ⟨p, .alert
              "Please wait for the previous question to be answered before sending a new one.",
            by simp only [handleSendQuestion, hws, ht, hq, if_false], fun h => h⟩
        | none =>
          refine ⟨{ p with
              transcript := upsertQuestion p.transcript (some (tempEntry now (jsTrim p.message)))
              message := "" },
            .socketSend ws p.key (jsTrim p.message),
            by simp [handleSendQuestion, hws, ht, hq, hready], ?_⟩
          intro _
          exact upsertQuestion_answered_le_one p.transcript _ hq
  · intro e he
    cases hws : p.ws with
    | none => exact ⟨.nothing, by simp [handleSendQuestion, hws], Or.inl rfl⟩
    | some ws =>
      by_cases ht : jsTrim p.message = ""
      · exact ⟨.nothing, by simp [handleSendQuestion, hws, ht], Or.inl rfl⟩
      · exact ⟨.alert
            "Please wait for the previous question to be answered before sending a new one.",
          by simp only [handleSendQuestion, hws, ht, he, if_false], Or.inr ⟨_, rfl⟩⟩
  · intro ws hnone hws ht hfresh
    have hup := upsertQuestion_fresh_append p.transcript (tempEntry now (jsTrim p.message))
      hnone hfresh
    refine ⟨{ p with
        transcript := upsertQuestion p.transcript (some (tempEntry now (jsTrim p.message)))
        message := "" },
      by simp [handleSendQuestion, hws, ht, hnone, hready], hup, ?_⟩
    show (upsertQuestion p.transcript (some (tempEntry now (jsTrim p.message)))).filter noAnswer
      = [tempEntry now (jsTrim p.message)]
    rw [hup, List.filter_append]
    have hall := (lastUnanswered_none_iff p.transcript).mp hnone
    have h1 : p.transcript.filter noAnswer = [] := by
      rw [List.filter_eq_nil_iff]
      intro e he
      simp [hall e he]
    rw [h1]
    simp [tempEntry, noAnswer, truthyText]

/-- C8 at a concrete input: one answered entry, a ready socket, a new question. -/
theorem handleSendQuestion_keeps_single_unanswered_witness :
    ∃ p1, handleSendQuestion
        { interview := some ⟨.num 3, none, none, none, none⟩,
          transcript := [⟨.num 1, some "Intro?", some "Hi."⟩],
          message := " Why Lean? ", socketReady := true, ws := some ⟨0, "3", .text "k"⟩,
          key := some "k" } 1700000000000
        = .ok (p1, .socketSend ⟨0, "3", .text "k"⟩ (some "k") (jsTrim " Why Lean? ")) ∧
      p1.transcript = [⟨.num 1, some "Intro?", some "Hi."⟩] ++
        [tempEntry 1700000000000 (jsTrim " Why Lean? ")] ∧
      p1.transcript.filter noAnswer = [tempEntry 1700000000000 (jsTrim " Why Lean? ")] :=
  (handleSendQuestion_keeps_single_unanswered
    { interview := some ⟨.num 3, none, none, none, none⟩,
      transcript := [⟨.num 1, some "Intro?", some "Hi."⟩],
      message := " Why Lean? ", socketReady := true, ws := some ⟨0, "3", .text "k"⟩,
      key := some "k" } 1700000000000 rfl).2.2 ⟨0, "3", .text "k"⟩ (by decide) rfl (by decide)
    (by decide)

/-! ## Reconnect after a close -/

/-- C9, counterexample. Two sockets of a panel close 400 ms apart: the second close cancels the
timer set by the first, and after five more seconds only one reconnect attempt has been made. -/
theorem two_quick_closes_one_attempt :
    (advance (onClose (advance (onClose mounted) 400)) 5000).attempts = 1 := by
  decide

/-- C9, amended. In a panel whose only pending reconnect timer, if any, is the one held in
reconnectRef (as is the case after mounting and after every close or clock step), a close event
leaves exactly one pending reconnect timer, the new one, due 1000 ms later whatever happened
before, and makes no attempt by itself; the property is kept by closes and clock steps. Two
closes each followed by at least 1000 ms produce two reconnect attempts; when the second close
comes less than 1000 ms after the first, the two closes produce one attempt only. -/
theorem onClose_schedules_one_attempt (s : ReconnectState)
    (href : s.nextTimer ≠ 0 ∧ (s.pending = [] ∨
      ∃ t, s.pending = [t] ∧ s.reconnectRef = some t.id ∧ t.id ≠ 0)) :
    ((onClose s).pending = [{ id := s.nextTimer, due := s.now + 1000 }] ∧
      (onClose s).reconnectRef = some s.nextTimer ∧ (onClose s).attempts = s.attempts) ∧
    ((onClose s).nextTimer ≠ 0 ∧ ((onClose s).pending = [] ∨
      ∃ t, (onClose s).pending = [t] ∧ (onClose s).reconnectRef = some t.id ∧ t.id ≠ 0)) ∧
    (∀ dt, (advance s dt).nextTimer ≠ 0 ∧ ((advance s dt).pending = [] ∨
      ∃ t, (advance s dt).pending = [t] ∧ (advance s dt).reconnectRef = some t.id ∧ t.id ≠ 0)) ∧
    (∀ dt1 dt2, 1000 ≤ dt1 → 1000 ≤ dt2 →
      (advance (onClose (advance (onClose s) dt1)) dt2).attempts = s.attempts + 2) ∧
    ∀ dt1 dt2, dt1 < 1000 → 1000 ≤ dt2 →
      (advance (onClose (advance (onClose s) dt1)) dt2).attempts = s.attempts + 1 := by
  obtain ⟨hnext, hpend⟩ := href
  have hclose : ∀ r : ReconnectState, (r.pending = [] ∨
      ∃ t, r.pending = [t] ∧ r.reconnectRef = some t.id ∧ t.id ≠ 0) →
      (onClose r).pending = [{ id := r.nextTimer, due := r.now + 1000 }] := by
    intro r hr
    rcases hr with hnil | ⟨t, ht, href, hid⟩
    · cases hrr : r.reconnectRef with
      | none => simp [onClose, hnil, hrr]
      | some id =>
        by_cases h0 : id = 0
        · simp [onClose, hnil, hrr, h0]
        · simp [onClose, hnil, hrr, h0, clearTimeout]
    · simp [onClose, ht, href, hid, clearTimeout]
  have hstep : ∀ (r : ReconnectState) (dt : Nat), 1000 ≤ dt →
      (r.pending = [] ∨ ∃ t, r.pending = [t] ∧ r.reconnectRef = some t.id ∧ t.id ≠ 0) →
      (advance (onClose r) dt).attempts = r.attempts + 1 ∧
        (advance (onClose r) dt).pending = [] := by
    intro r dt hdt hr
    have hp := hclose r hr
    have hle : r.now + 1000 ≤ r.now + dt := by omega
    constructor
    · simp only [advance, hp]
      have : (onClose r).now = r.now := rfl
      have ha : (onClose r).attempts = r.attempts := rfl
      simp [this, ha, hle]
    · simp only [advance, hp]
      have : (onClose r).now = r.now := rfl
      have hlt : ¬ r.now + dt < r.now + 1000 := by omega
      simp [this, hlt]
  refine ⟨⟨hclose s hpend, rfl, rfl⟩, ⟨?_, ?_⟩, ?_, ?_, ?_⟩
  · show s.nextTimer + 1 ≠ 0
    omega
  · exact Or.inr ⟨_, hclose s hpend, rfl, hnext⟩
  · intro dt
    refine ⟨hnext, ?_⟩
    rcases hpend with hnil | ⟨t, ht, href, hid⟩
    · exact Or.inl (by simp [advance, hnil])
    · by_cases hd : s.now + dt < t.due
      · exact Or.inr ⟨t, by simp [advance, ht, hd], href, hid⟩
      · exact Or.inl (by simp [advance, ht, hd])
  · intro dt1 dt2 h1 h2
    obtain ⟨ha1, hp1⟩ := hstep s dt1 h1 hpend
    obtain ⟨ha2, _⟩ := hstep (advance (onClose s) dt1) dt2 h2 (Or.inl hp1)
    rw [ha2, ha1]
  · intro dt1 dt2 h1 h2
    have hp := hclose s hpend
    have hnow : (onClose s).now = s.now := rfl
    have hatt : (onClose s).attempts = s.attempts := rfl
    have href1 : (onClose s).reconnectRef = some s.nextTimer := rfl
    have hnt : (onClose s).nextTimer = s.nextTimer + 1 := rfl
    have hlt : s.now + dt1 < s.now + 1000 := by omega
    have hnle : ¬ s.now + 1000 ≤ s.now + dt1 := by omega
    have hmid : advance (onClose s) dt1
        = { now := s.now + dt1, nextTimer := s.nextTimer + 1,
            pending := [{ id := s.nextTimer, due := s.now + 1000 }],
            reconnectRef := some s.nextTimer, attempts := s.attempts } := by
      simp [advance, hp, hnow, hatt, href1, hnt, hlt, hnle]
    rw [hmid]
    have hle : s.now + dt1 + 1000 ≤ s.now + dt1 + dt2 := by omega
    simp [advance, onClose, clearTimeout, hnext, hle]

/-- C9, amended, at a concrete input: on a freshly mounted panel a close sets one timer for 1000
ms later, two closes 1000 ms and more apart give two attempts, and two closes 999 ms apart give
one. -/
theorem onClose_schedules_one_attempt_witness :
    (onClose mounted).pending = [{ id := 1, due := 1000 }] ∧
      (advance (onClose (advance (onClose mounted) 1000)) 2500).attempts = 2 ∧
      (advance (onClose (advance (onClose mounted) 999)) 2500).attempts = 1 :=
  ⟨(onClose_schedules_one_attempt mounted ⟨by decide, Or.inl rfl⟩).1.1,
    (onClose_schedules_one_attempt mounted ⟨by decide, Or.inl rfl⟩).2.2.2.1 1000 2500
      (by decide) (by decide),
    (onClose_schedules_one_attempt mounted ⟨by decide, Or.inl rfl⟩).2.2.2.2 999 2500
      (by decide) (by decide)⟩

/-! ## One socket per interview -/

theorem objDelete_cons {α : Type} (k : String) (w : α) (rest : List (String × α))
    (key : String) :
    objDelete ((k, w) :: rest) key
      = if k = key then objDelete rest key else (k, w) :: objDelete rest key := by
  by_cases hk : k = key
  · simp [objDelete, List.filter_cons, hk]
  · simp [objDelete, List.filter_cons, hk]

theorem ownGet_objDelete_same {α : Type} (obj : List (String × α)) (key : String) :
    ownGet (objDelete obj key) key = none := by
  induction obj with
  | nil => simp [objDelete, ownGet]
  | cons kv rest ih =>
    obtain ⟨k, w⟩ := kv
    rw [objDelete_cons]
    by_cases hk : k = key
    · simp [hk, ih]
    · simp [hk, ownGet, ih]

theorem ownGet_objDelete_other {α : Type} (obj : List (String × α)) (key other : String)
    (h : other ≠ key) : ownGet (objDelete obj key) other = ownGet obj other := by
  induction obj with
  | nil => simp [objDelete, ownGet]
  | cons kv rest ih =>
    obtain ⟨k, w⟩ := kv
    rw [objDelete_cons]
    by_cases hk : k = key
    · subst hk
      have hko : ¬ k = other := fun e => h e.symm
      simp [ownGet, hko, ih]
    · by_cases hko : k = other
      · subst hko
        simp [hk, ownGet]
      · simp [hk, ownGet, hko, ih]

theorem objKeys_objSet_mem {α : Type} (obj : List (String × α)) (key : String) (v : α)
    (x : String) : x ∈ objKeys (objSet obj key v) ↔ x ∈ objKeys obj ∨ x = key := by
  induction obj with
  | nil => simp [objSet, objKeys]
  | cons kv rest ih =>
    obtain ⟨k, w⟩ := kv
    by_cases hk : k = key
    · subst hk
      simp only [objSet, if_true, objKeys, List.map_cons, List.mem_cons]
      tauto
    · simp only [objKeys] at ih
      simp only [objSet, hk, if_false, objKeys, List.map_cons, List.mem_cons, ih]
      tauto

theorem objKeys_objSet_nodup {α : Type} (obj : List (String × α)) (key : String) (v : α)
    (h : (objKeys obj).Nodup) : (objKeys (objSet obj key v)).Nodup := by
  induction obj with
  | nil => simp [objSet, objKeys]
  | cons kv rest ih =>
    obtain ⟨k, w⟩ := kv
    have hcons : k ∉ objKeys rest ∧ (objKeys rest).Nodup := by
      simpa [objKeys] using h
    by_cases hk : k = key
    · subst hk
      simpa [objSet, objKeys] using h
    · have hrest := ih hcons.2
      have hnot : k ∉ objKeys (objSet rest key v) := by
        rw [objKeys_objSet_mem]
        intro hor
        rcases hor with h1 | h2
        · exact hcons.1 h1
        · exact hk h2
      simp only [objSet, hk, if_false]
      simp only [objKeys, List.map_cons, List.nodup_cons]
      exact ⟨by simpa [objKeys] using hnot, by simpa [objKeys] using hrest⟩

/-- Outside C10. Interview ids are the ids that the server issues, and no caller passes the name
of an inherited object member. Were connectSocket called with the id "constructor" on the
initial store, it would find the inherited member of the empty sockets object and return it
without creating or registering a socket. -/
theorem connectSocket_inherited_key_returns_member :
    ownGet (initialStore []).sockets "constructor" = none ∧
      connectSocket ⟨initialStore [], [], []⟩ (.str "constructor")
        = (⟨initialStore [], [], []⟩, .member) := by
  decide

/-- C10. The sockets map holds at most one socket per interview id. For every interview id (its
text is not the name of an inherited object member, which no caller passes): when a socket is
registered under the text of the id, connectSocket returns it and changes nothing; when none is
registered and no key resolves, it returns null and changes nothing; when none is registered
and a key resolves, it constructs exactly one socket, registers it under the text of the id,
leaves every other entry as it was and keeps the property names distinct; disconnectSocket
removes the entry of the id and no other. -/
theorem connectSocket_one_per_interview (env : StoreEnv) (interviewId : JsId)
    (hkey : interviewId.toJsString ∉ objectMembers) :
    (∀ ws, ownGet env.store.sockets interviewId.toJsString = some ws →
      connectSocket env interviewId = (env, .socket ws)) ∧
    (ownGet env.store.sockets interviewId.toJsString = none →
      (getKeyForInterview env.store interviewId).truthy = false →
      connectSocket env interviewId = (env, .null)) ∧
    (ownGet env.store.sockets interviewId.toJsString = none →
      (getKeyForInterview env.store interviewId).truthy = true →
      ∃ env1 ws, connectSocket env interviewId = (env1, .socket ws) ∧
        env1.opened = env.opened ++ [ws] ∧
        ownGet env1.store.sockets interviewId.toJsString = some ws ∧
        (∀ other, other ≠ interviewId.toJsString →
          ownGet env1.store.sockets other = ownGet env.store.sockets other) ∧
        ((objKeys env.store.sockets).Nodup → (objKeys env1.store.sockets).Nodup)) ∧
    ∃ env2, disconnectSocket env interviewId = .ok env2 ∧
      ownGet env2.store.sockets interviewId.toJsString = none ∧
      (∀ other, other ≠ interviewId.toJsString →
        ownGet env2.store.sockets other = ownGet env.store.sockets other) ∧
      env2.opened = env.opened := by
  refine ⟨?_, ?_, ?_, ?_⟩
  · intro ws hws
    simp [connectSocket, objGet, hws]
  · intro hnone hk
    simp [connectSocket, objGet, hnone, hkey, hk]
  · intro hnone hk
    refine ⟨_, _, by simp only [connectSocket, objGet, hnone, hkey, hk]; rfl, rfl,
      ownGet_objSet_same _ _ _, ?_, ?_⟩
    · intro other hother
      exact ownGet_objSet_other _ _ _ _ hother
    · intro hnodup
      exact objKeys_objSet_nodup _ _ _ hnodup
  · cases hg : ownGet env.store.sockets interviewId.toJsString with
    | some ws =>
      simp only [disconnectSocket, objGet, hg]
      refine ⟨_, rfl, ownGet_objDelete_same _ _, ?_, rfl⟩
      intro other hother
      exact ownGet_objDelete_other _ _ _ hother
    | none =>
      simp only [disconnectSocket, objGet, hg, hkey, if_false]
      refine ⟨_, rfl, ownGet_objDelete_same _ _, ?_, rfl⟩
      intro other hother
      exact ownGet_objDelete_other _ _ _ hother

/-- C10 at a concrete input: the first connect for interview 3 registers a socket, and a second
connect returns that same socket. -/
theorem connectSocket_one_per_interview_witness :
    (∃ env1 ws, connectSocket ⟨initialStore [("3", "k-int")], [], []⟩ (.num 3)
        = (env1, .socket ws) ∧
      env1.opened = [] ++ [ws] ∧
      ownGet env1.store.sockets "3" = some ws ∧
      (∀ other, other ≠ "3" → ownGet env1.store.sockets other = none) ∧
      ((objKeys (initialStore [("3", "k-int")]).sockets).Nodup →
        (objKeys env1.store.sockets).Nodup)) ∧
    connectSocket
        ⟨{ initialStore [("3", "k-int")] with sockets := [("3", ⟨0, "3", .text "k-int"⟩)] },
          [⟨0, "3", .text "k-int"⟩], []⟩ (.num 3)
      = (⟨{ initialStore [("3", "k-int")] with sockets := [("3", ⟨0, "3", .text "k-int"⟩)] },
          [⟨0, "3", .text "k-int"⟩], []⟩, .socket ⟨0, "3", .text "k-int"⟩) :=
  ⟨(connectSocket_one_per_interview ⟨initialStore [("3", "k-int")], [], []⟩ (.num 3)
      (by decide)).2.2.1 (by decide) (by decide),
    (connectSocket_one_per_interview
      ⟨{ initialStore [("3", "k-int")] with sockets := [("3", ⟨0, "3", .text "k-int"⟩)] },
        [⟨0, "3", .text "k-int"⟩], []⟩ (.num 3) (by decide)).1 _ (by decide)⟩

/-! ## Answers survive a merge -/

theorem mergeAt_answer (list : List Entry) (idx : Nat) (inc : Entry) (i : Nat) (e : Entry)
    (hget : list[i]? = some e) (hans : e.answer ≠ none) :
    ∃ e1, (mergeAt list idx inc)[i]? = some e1 ∧ e1.answer = e.answer := by
  cases hprev : list[idx]? with
  | none => exact ⟨e, by simp [mergeAt, hprev, hget], rfl⟩
  | some prev =>
    have hidx := get_lt_of_some _ _ _ hprev
    by_cases hii : idx = i
    · subst hii
      rw [hget] at hprev
      cases hprev
      refine ⟨mergeQuestion e inc, by simp [mergeAt, hget, List.getElem?_set, hidx], ?_⟩
      cases ha : e.answer with
      | none => exact absurd ha hans
      | some a => simp [mergeQuestion, nullish, ha]
    · exact ⟨e, by simp [mergeAt, hprev, List.getElem?_set, hii, hget], rfl⟩

/-- C14. For every transcript list and every incoming question (or none), every entry of the
list whose answer is not null or undefined is found at the same index of the result of
upsertQuestion with the same answer, whether the incoming question is merged by text, merged by
id or appended. -/
theorem upsertQuestion_keeps_answers (list : List Entry) (incoming : Option Entry) (i : Nat)
    (e : Entry) (hget : list[i]? = some e) (hans : e.answer ≠ none) :
    ∃ e1, (upsertQuestion list incoming)[i]? = some e1 ∧ e1.answer = e.answer := by
  cases incoming with
  | none => exact ⟨e, hget, rfl⟩
  | some inc =>
    cases hP : findIndex (sameTextUnanswered inc) list with
    | some idx =>
      simp only [upsertQuestion, hP]
      exact mergeAt_answer list idx inc i e hget hans
    | none =>
      cases hQ : findIndex (fun q => q.id == inc.id) list with
      | some idx =>
        simp only [upsertQuestion, hP, hQ]
        exact mergeAt_answer list idx inc i e hget hans
      | none =>
        have hi := get_lt_of_some _ _ _ hget
        exact ⟨e, by simp [upsertQuestion, hP, hQ, List.getElem?_append_left hi, hget], rfl⟩

/-- C14 at a concrete input: the answered entry with the id of the incoming question keeps its
answer when the question is merged into it. -/
theorem upsertQuestion_keeps_answers_witness :
    ∃ e1, (upsertQuestion [⟨.num 5, some "Why Lean?", some "Because."⟩]
        (some ⟨.num 5, some "Why Lean 4?", some "Other."⟩))[0]? = some e1 ∧
      e1.answer = some "Because." :=
  upsertQuestion_keeps_answers [⟨.num 5, some "Why Lean?", some "Because."⟩]
    (some ⟨.num 5, some "Why Lean 4?", some "Other."⟩) 0
    ⟨.num 5, some "Why Lean?", some "Because."⟩ rfl (by decide)

/-! ## Frame of syncInterview -/

theorem find?_isSome_iff_exists {α : Type} (p : α → Bool) (l : List α) :
    (l.find? p).isSome = true ↔ ∃ x ∈ l, p x = true := by
  simp

/-- C19. For every store state and interview x: when some stored interview has the id of x
under string comparison, syncInterview keeps the length of the list and puts x at the index of
every such interview, every other interview staying where it is with its value; when none has,
the new list is x followed by the old list. The pending list under every other key is
unchanged, a non-empty participant key already recorded for x is kept, and the participant keys
under every other key are unchanged. -/
theorem syncInterview_frame (state : StoreState) (x : Interview) :
    ((∃ i ∈ state.interviews, sameId i.id x.id = true) →
      (syncInterview state x).interviews.length = state.interviews.length ∧
      ∀ (n : Nat) (i : Interview), state.interviews[n]? = some i →
        (syncInterview state x).interviews[n]? = some (if sameId i.id x.id then x else i)) ∧
    ((∀ i ∈ state.interviews, sameId i.id x.id = false) →
      (syncInterview state x).interviews = x :: state.interviews) ∧
    (∀ other, other ≠ x.id.toJsString →
      ownGet (syncInterview state x).pendingQuestions other
        = ownGet state.pendingQuestions other) ∧
    (∀ k, ownGet state.participantKeys x.id.toJsString = some k → k ≠ "" →
      ownGet (syncInterview state x).participantKeys x.id.toJsString = some k) ∧
    (∀ other, other ≠ x.id.toJsString →
      ownGet (syncInterview state x).participantKeys other
        = ownGet state.participantKeys other) := by
  refine ⟨?_, ?_, ?_, ?_, ?_⟩
  · intro hex
    have hfound : (state.interviews.find? (fun item => sameId item.id x.id)).isSome = true :=
      (find?_isSome_iff_exists _ _).mpr hex
    have hlist : (syncInterview state x).interviews
        = state.interviews.map (fun item => if sameId item.id x.id then x else item) := by
      simp only [syncInterview, hfound, if_true]
    rw [hlist]
    refine ⟨by simp, ?_⟩
    intro n i hn
    simp [List.getElem?_map, hn]
  · intro hall
    have hfound : (state.interviews.find? (fun item => sameId item.id x.id)).isSome = false := by
      rw [Bool.eq_false_iff]
      intro h
      obtain ⟨i, hi, hs⟩ := (find?_isSome_iff_exists _ _).mp h
      rw [hall i hi] at hs
      exact absurd hs (by decide)
    simp only [syncInterview, hfound, Bool.false_eq_true, if_false]
  · intro other hother
    simp only [syncInterview]
    exact ownGet_objSet_other _ _ _ _ hother
  · intro k hk hne
    have hstored : objGet state.participantKeys x.id.toJsString = .own k := by
      simp [objGet, hk]
    cases hik : x.interviewer_key with
    | none => simp [syncInterview, hik, hk]
    | some key => simp [syncInterview, hik, hstored, hne, hk]
  · intro other hother
    cases hik : x.interviewer_key with
    | none => simp [syncInterview, hik]
    | some key =>
      simp only [syncInterview, hik]
      split
      · exact ownGet_objSet_other _ _ _ _ hother
      · rfl

/-- C19 at a concrete input: interview 3 is stored as a number and arrives again with its id as
text; it is replaced in place, and its recorded key is kept. -/
theorem syncInterview_frame_witness :
    (syncInterview
        { initialStore [("3", "k-old")] with
          interviews := [⟨.num 2, none, none, none, none⟩, ⟨.num 3, none, none, none, none⟩] }
        ⟨.str "3", some [], some "ongoing", some "k-new", none⟩).interviews.length = 2 ∧
      ∀ (n : Nat) (i : Interview),
        [(⟨.num 2, none, none, none, none⟩ : Interview), ⟨.num 3, none, none, none, none⟩][n]?
          = some i →
        (syncInterview
          { initialStore [("3", "k-old")] with
            interviews := [⟨.num 2, none, none, none, none⟩, ⟨.num 3, none, none, none, none⟩] }
          ⟨.str "3", some [], some "ongoing", some "k-new", none⟩).interviews[n]?
          = some (if sameId i.id (.str "3") then
              ⟨.str "3", some [], some "ongoing", some "k-new", none⟩ else i) :=
  (syncInterview_frame
    { initialStore [("3", "k-old")] with
      interviews := [⟨.num 2, none, none, none, none⟩, ⟨.num 3, none, none, none, none⟩] }
    ⟨.str "3", some [], some "ongoing", some "k-new", none⟩).1
    ⟨⟨.num 3, none, none, none, none⟩, by decide, by decide⟩

/-! ## Pending questions -/

theorem mem_objSet {α : Type} (obj : List (String × α)) (key : String) (v : α) (k : String)
    (w : α) (h : (k, w) ∈ objSet obj key v) : (k, w) ∈ obj ∨ (k = key ∧ w = v) := by
  induction obj with
  | nil =>
    simp only [objSet, List.mem_singleton, Prod.mk.injEq] at h
    exact Or.inr h
  | cons kv rest ih =>
    obtain ⟨k0, w0⟩ := kv
    by_cases hk : k0 = key
    · simp only [objSet, hk, if_true, List.mem_cons, Prod.mk.injEq] at h
      rcases h with h | h
      · exact Or.inr h
      · exact Or.inl (List.mem_cons_of_mem _ h)
    · simp only [objSet, hk, if_false, List.mem_cons, Prod.mk.injEq] at h
      rcases h with h | h
      · exact Or.inl (by simp [h.1, h.2])
      · rcases ih h with h2 | h2
        · exact Or.inl (List.mem_cons_of_mem _ h2)
        · exact Or.inr h2

theorem mem_fromEntries_aux {α : Type} (pairs : List (String × α)) (acc : List (String × α))
    (k : String) (w : α)
    (h : (k, w) ∈ pairs.foldl (fun obj kv => objSet obj kv.1 kv.2) acc) :
    (k, w) ∈ acc ∨ (k, w) ∈ pairs := by
  induction pairs generalizing acc with
  | nil => exact Or.inl h
  | cons kv rest ih =>
    rcases ih (objSet acc kv.1 kv.2) h with h1 | h1
    · rcases mem_objSet _ _ _ _ _ h1 with h2 | ⟨h2, h3⟩
      · exact Or.inl h2
      · refine Or.inr (List.mem_cons.mpr (Or.inl ?_))
        obtain ⟨k0, w0⟩ := kv
        simp only at h2 h3
        rw [h2, h3]
    · exact Or.inr (List.mem_cons_of_mem _ h1)

theorem mem_fromEntries {α : Type} (pairs : List (String × α)) (k : String) (w : α)
    (h : (k, w) ∈ fromEntries pairs) : (k, w) ∈ pairs := by
  rcases mem_fromEntries_aux pairs [] k w h with h1 | h1
  · simp at h1
  · exact h1

theorem pendingOf_clean (transcript : Option (List Entry)) :
    (∀ e ∈ pendingOf transcript, truthyText e.answer = false ∧ e.id.truthy = true) ∧
      ((pendingOf transcript).map Entry.id).Nodup := by
  have hprops := dedupeFrom_ids []
    ((transcript.getD []).filter (fun q => !truthyText q.answer))
  refine ⟨?_, hprops.2⟩
  intro e he
  have h := hprops.1 e he
  refine ⟨?_, h.1⟩
  have hmem := (List.mem_filter.mp h.2.2).2
  simpa using hmem

/-- C20, failing input. On the initial store a question event for interview 3 carries a question
that already has an answer: applyQuestionEvent returns, and the pending list of the interview
then holds that answered entry. -/
theorem applyQuestionEvent_answered_goes_pending :
    (applyQuestionEvent (initialStore []) (.num 3)
        ⟨.str "q1", some "Why Lean?", some "Because."⟩).bind
      (fun s => .ok (ownGet s.pendingQuestions "3"))
      = .ok (some [⟨.str "q1", some "Why Lean?", some "Because."⟩]) := by
  decide

/-- Support for C20: the three other actions keep the property that every pending entry has no
answer and that the entries of one list have distinct truthy ids; fetchInterviews and the list
written by syncInterview establish it, and applyQuestionEvent keeps it when the question has no
answer. -/
theorem pending_clean_preserved (state : StoreState)
    (hinv : ∀ key l, (key, l) ∈ state.pendingQuestions →
      (∀ e ∈ l, truthyText e.answer = false ∧ e.id.truthy = true) ∧ (l.map Entry.id).Nodup) :
    (∀ x key l, (key, l) ∈ (syncInterview state x).pendingQuestions →
      (∀ e ∈ l, truthyText e.answer = false ∧ e.id.truthy = true) ∧ (l.map Entry.id).Nodup) ∧
    (∀ interviewId questionId answer s1,
      applyResponseEvent state interviewId questionId answer = .ok s1 →
      ∀ key l, (key, l) ∈ s1.pendingQuestions →
        (∀ e ∈ l, truthyText e.answer = false ∧ e.id.truthy = true) ∧ (l.map Entry.id).Nodup) ∧
    (∀ interviewId question s1, truthyText question.answer = false →
      applyQuestionEvent state interviewId question = .ok s1 →
      ∀ key l, (key, l) ∈ s1.pendingQuestions →
        (∀ e ∈ l, truthyText e.answer = false ∧ e.id.truthy = true) ∧ (l.map Entry.id).Nodup) ∧
    (∀ server later data, server { state with loading := true, error := none }
        = (later, .resolved data) →
      ∀ key l, (key, l) ∈ (fetchInterviews state server).1.pendingQuestions →
        (∀ e ∈ l, truthyText e.answer = false ∧ e.id.truthy = true) ∧ (l.map Entry.id).Nodup) := by
  refine ⟨?_, ?_, ?_, ?_⟩
  · intro x key l hmem
    simp only [syncInterview] at hmem
    rcases mem_objSet _ _ _ _ _ hmem with h | ⟨_, h⟩
    · exact hinv key l h
    · rw [h]
      exact pendingOf_clean x.transcript
  · intro interviewId questionId answer s1 hs key l hmem
    cases hg : ownGet state.pendingQuestions interviewId.toJsString with
    | some l0 =>
      simp only [applyResponseEvent, objGet, hg, Js.ok.injEq] at hs
      subst hs
      rcases mem_objSet _ _ _ _ _ hmem with h | ⟨_, h⟩
      · exact hinv key l h
      · have h0 := hinv _ l0 (ownGet_some_mem _ _ _ hg)
        rw [h]
        refine ⟨fun e he => h0.1 e (List.mem_filter.mp he).1, ?_⟩
        exact (h0.2.sublist ((List.filter_sublist _).map Entry.id))
    | none =>
      by_cases hm : interviewId.toJsString ∈ objectMembers
      · simp [applyResponseEvent, objGet, hg, hm] at hs
      · simp only [applyResponseEvent, objGet, hg, hm, if_false, Js.ok.injEq] at hs
        subst hs
        exact hinv key l hmem
  · intro interviewId question s1 hq hs key l hmem
    have hclean : ∀ l0 : List Entry,
        (∀ e ∈ l0, truthyText e.answer = false ∧ e.id.truthy = true) →
        (∀ e ∈ dedupeById (l0 ++ [question]),
          truthyText e.answer = false ∧ e.id.truthy = true) ∧
        ((dedupeById (l0 ++ [question])).map Entry.id).Nodup := by
      intro l0 h0
      have hprops := dedupeFrom_ids [] (l0 ++ [question])
      refine ⟨?_, hprops.2⟩
      intro e he
      have h := hprops.1 e he
      refine ⟨?_, h.1⟩
      rcases List.mem_append.mp h.2.2 with h1 | h1
      · exact (h0 e h1).1
      · have : e = question := by simpa using h1
        rw [this]
        exact hq
    cases hg : ownGet state.pendingQuestions interviewId.toJsString with
    | some l0 =>
      simp only [applyQuestionEvent, objGet, hg, Js.ok.injEq] at hs
      subst hs
      rcases mem_objSet _ _ _ _ _ hmem with h | ⟨_, h⟩
      · exact hinv key l h
      · rw [h]
        exact hclean l0 (hinv _ l0 (ownGet_some_mem _ _ _ hg)).1
    | none =>
      by_cases hm : interviewId.toJsString ∈ objectMembers
      · simp [applyQuestionEvent, objGet, hg, hm] at hs
      · simp only [applyQuestionEvent, objGet, hg, hm, if_false, Js.ok.injEq] at hs
        subst hs
        rcases mem_objSet _ _ _ _ _ hmem with h | ⟨_, h⟩
        · exact hinv key l h
        · rw [h]
          exact hclean [] (by simp)
  · intro server later data hserver key l hmem
    simp only [fetchInterviews, hserver] at hmem
    have h := mem_fromEntries _ _ _ hmem
    obtain ⟨i, _, hi⟩ := List.mem_map.mp h
    simp only [Prod.mk.injEq] at hi
    rw [← hi.2]
    exact pendingOf_clean i.transcript

/-! ## From the chat data to the generation request -/

theorem orText_some_empty (s : String) : orText (some s) "" = s := by
  by_cases h : s = ""
  · simp [orText, h]
  · simp [orText, h]

/-- C12, counterexample. The chat has extracted a joining timeline and no seniority: getFormData
returns them (the seniority as an empty text), but the payload carries the seniority Mid and no
joining timeline. -/
theorem generatePayload_rewrites_fields :
    (getFormData ⟨some "Engineer", none, none, some "Bonn", some ["Lean"], none, none, none, none,
        some "Immediate", none, none, none, none⟩).seniority = "" ∧
      (getFormData ⟨some "Engineer", none, none, some "Bonn", some ["Lean"], none, none, none,
        none, some "Immediate", none, none, none, none⟩).joining_timeline = "Immediate" ∧
      ownGet (generatePayload (getFormData ⟨some "Engineer", none, none, some "Bonn",
        some ["Lean"], none, none, none, none, some "Immediate", none, none, none,
        none⟩)) "seniority" = some (.text "Mid") ∧
      ownGet (generatePayload (getFormData ⟨some "Engineer", none, none, some "Bonn",
        some ["Lean"], none, none, none, none, some "Immediate", none, none, none,
        none⟩)) "joining_timeline" = none := by
  decide

/-- C12, amended. For every extractedData, the payload built from getFormData carries role,
location and must_have_skills with the values of getFormData; seniority with that value, or Mid
when it is empty; expectations, department and preferred_skills with the values of getFormData
when these are not empty, and not at all otherwise; and no property besides these and
company_tone, of whose value nothing is said here. -/
theorem generatePayload_fields (data : ExtractedData) :
    ownGet (generatePayload (getFormData data)) "role" = some (.text (getFormData data).role) ∧
    ownGet (generatePayload (getFormData data)) "location"
      = some (.text (getFormData data).location) ∧
    ownGet (generatePayload (getFormData data)) "must_have_skills"
      = some (.list (getFormData data).must_have_skills) ∧
    ownGet (generatePayload (getFormData data)) "seniority"
      = some (.text (if (getFormData data).seniority = "" then "Mid"
          else (getFormData data).seniority)) ∧
    ownGet (generatePayload (getFormData data)) "expectations"
      = (if (getFormData data).expectations = "" then none
          else some (.text (getFormData data).expectations)) ∧
    ownGet (generatePayload (getFormData data)) "department"
      = (if (getFormData data).department = "" then none
          else some (.text (getFormData data).department)) ∧
    ownGet (generatePayload (getFormData data)) "preferred_skills"
      = (if (getFormData data).preferred_skills = [] then none
          else some (.list (getFormData data).preferred_skills)) ∧
    ∀ key, key ∈ objKeys (generatePayload (getFormData data)) →
      key ∈ ["role", "seniority", "location", "must_have_skills", "company_tone",
        "expectations", "department", "preferred_skills"] := by
  generalize getFormData data = fd
  have hlen : (fd.preferred_skills.length > 0) ↔ fd.preferred_skills ≠ [] := by
    cases fd.preferred_skills <;> simp
  refine ⟨?_, ?_, ?_, ?_, ?_, ?_, ?_, ?_⟩
  · simp [generatePayload, ownGet, orText_some_empty]
  · simp [generatePayload, ownGet, orText_some_empty]
  · simp [generatePayload, ownGet]
  · by_cases h : fd.seniority = ""
    · simp [generatePayload, ownGet, orText, h]
    · simp [generatePayload, ownGet, orText, h]
  · by_cases h : fd.expectations = ""
    · by_cases h2 : fd.department = ""
      · by_cases h3 : fd.preferred_skills = []
        · simp [generatePayload, ownGet, h, h2, h3]
        · simp [generatePayload, ownGet, h, h2, h3, hlen.mpr h3]
      · by_cases h3 : fd.preferred_skills = []
        · simp [generatePayload, ownGet, h, h2, h3]
        · simp [generatePayload, ownGet, h, h2, h3, hlen.mpr h3]
    · simp [generatePayload, ownGet, h]
  · by_cases h : fd.expectations = ""
    · by_cases h2 : fd.department = ""
      · by_cases h3 : fd.preferred_skills = []
        · simp [generatePayload, ownGet, h, h2, h3]
        · simp [generatePayload, ownGet, h, h2, h3, hlen.mpr h3]
      · simp [generatePayload, ownGet, h, h2]
    · by_cases h2 : fd.department = ""
      · by_cases h3 : fd.preferred_skills = []
        · simp [generatePayload, ownGet, h, h2, h3]
        · simp [generatePayload, ownGet, h, h2, h3, hlen.mpr h3]
      · simp [generatePayload, ownGet, h, h2]
  · by_cases h : fd.expectations = ""
    · by_cases h2 : fd.department = ""
      · by_cases h3 : fd.preferred_skills = []
        · simp [generatePayload, ownGet, h, h2, h3]
        · simp [generatePayload, ownGet, h, h2, h3, hlen.mpr h3]
      · by_cases h3 : fd.preferred_skills = []
        · simp [generatePayload, ownGet, h, h2, h3]
        · simp [generatePayload, ownGet, h, h2, h3, hlen.mpr h3]
    · by_cases h2 : fd.department = ""
      · by_cases h3 : fd.preferred_skills = []
        · simp [generatePayload, ownGet, h, h2, h3]
        · simp [generatePayload, ownGet, h, h2, h3, hlen.mpr h3]
      · by_cases h3 : fd.preferred_skills = []
        · simp [generatePayload, ownGet, h, h2, h3]
        · simp [generatePayload, ownGet, h, h2, h3, hlen.mpr h3]
  · intro key hkey
    simp only [generatePayload, objKeys, List.map_append, List.map_cons, List.map_nil,
      List.mem_append, List.mem_cons] at hkey
    simp only [List.mem_cons, List.mem_singleton]
    rcases hkey with ((hk | hk) | hk) | hk
    · simp only [List.not_mem_nil, or_false] at hk
      tauto
    · split at hk
      · simp at hk
      · simp only [List.map_cons, List.map_nil, List.mem_singleton] at hk
        tauto
    · split at hk
      · simp at hk
      · simp only [List.map_cons, List.map_nil, List.mem_singleton] at hk
        tauto
    · split at hk
      · simp only [List.map_cons, List.map_nil, List.mem_singleton] at hk
        tauto
      · simp at hk

/-! ## Job chat: a message and its reply -/

/-- C13. When the call of sendMessage settles with a response, the final extractedData,
completionPercentage, missingFields and isComplete are those of the response, whatever the
state at the start of the call and the state found when the call settled were, so two runs with
the same response agree on them; conversationHistory is the history read at the start of the
call followed by the user message and the reply. -/
theorem sendMessage_takes_response (state : JobChatState) (message sentAt settledAt : String)
    (server : ChatRequest → JobChatState → JobChatState × RestResult ChatResponse)
    (later : JobChatState) (response : ChatResponse)
    (hserver : server ⟨message, state.conversationHistory, state.extractedData⟩
      { state with
        messages := state.messages ++ [⟨"user", message, sentAt, false⟩]
        isTyping := true
        error := none } = (later, .resolved response)) :
    ((sendMessage state message sentAt settledAt server).1.extractedData
        = response.extracted_data ∧
      (sendMessage state message sentAt settledAt server).1.completionPercentage
        = response.completion_percentage ∧
      (sendMessage state message sentAt settledAt server).1.missingFields
        = response.missing_required ∧
      (sendMessage state message sentAt settledAt server).1.isComplete
        = response.is_complete) ∧
    (sendMessage state message sentAt settledAt server).1.conversationHistory
      = state.conversationHistory ++ [⟨"user", message⟩, ⟨"assistant", response.reply⟩] ∧
    (sendMessage state message sentAt settledAt server).2 = .returned () ∧
    ∀ (state2 : JobChatState) (message2 sentAt2 settledAt2 : String)
      (server2 : ChatRequest → JobChatState → JobChatState × RestResult ChatResponse)
      (later2 : JobChatState),
      server2 ⟨message2, state2.conversationHistory, state2.extractedData⟩
        { state2 with
          messages := state2.messages ++ [⟨"user", message2, sentAt2, false⟩]
          isTyping := true
          error := none } = (later2, .resolved response) →
      (sendMessage state2 message2 sentAt2 settledAt2 server2).1.extractedData
          = (sendMessage state message sentAt settledAt server).1.extractedData ∧
        (sendMessage state2 message2 sentAt2 settledAt2 server2).1.completionPercentage
          = (sendMessage state message sentAt settledAt server).1.completionPercentage ∧
        (sendMessage state2 message2 sentAt2 settledAt2 server2).1.missingFields
          = (sendMessage state message sentAt settledAt server).1.missingFields ∧
        (sendMessage state2 message2 sentAt2 settledAt2 server2).1.isComplete
          = (sendMessage state message sentAt settledAt server).1.isComplete := by
  have h1 : ∀ (st : JobChatState) (msg t1 t2 : String)
      (srv : ChatRequest → JobChatState → JobChatState × RestResult ChatResponse)
      (lt : JobChatState),
      srv ⟨msg, st.conversationHistory, st.extractedData⟩
        { st with
          messages := st.messages ++ [⟨"user", msg, t1, false⟩]
          isTyping := true
          error := none } = (lt, .resolved response) →
      (sendMessage st msg t1 t2 srv).1.extractedData = response.extracted_data ∧
      (sendMessage st msg t1 t2 srv).1.completionPercentage = response.completion_percentage ∧
      (sendMessage st msg t1 t2 srv).1.missingFields = response.missing_required ∧
      (sendMessage st msg t1 t2 srv).1.isComplete = response.is_complete := by
    intro st msg t1 t2 srv lt h
    simp [sendMessage, h]
  refine ⟨h1 state message sentAt settledAt server later hserver, ?_, ?_, ?_⟩
  · simp only [sendMessage, hserver]
  · simp only [sendMessage, hserver]
  · intro state2 message2 sentAt2 settledAt2 server2 later2 h2
    have a := h1 state message sentAt settledAt server later hserver
    have b := h1 state2 message2 sentAt2 settledAt2 server2 later2 h2
    exact ⟨b.1.trans a.1.symm, b.2.1.trans a.2.1.symm, b.2.2.1.trans a.2.2.1.symm,
      b.2.2.2.trans a.2.2.2.symm⟩

/-- C13 at a concrete input: the first message of a chat and its reply. -/
theorem sendMessage_takes_response_witness :
    (sendMessage initialChat "A Lean engineer" "t0" "t1"
        (fun _ waiting => (waiting, .resolved
          ⟨"Which seniority?", ⟨some "Lean engineer", none, none, none, some [], some [],
            some [], none, none, none, none, none, none, none⟩, 10, ["seniority"], false,
            none⟩))).1.conversationHistory
      = [] ++ [⟨"user", "A Lean engineer"⟩, ⟨"assistant", "Which seniority?"⟩] :=
  (sendMessage_takes_response initialChat "A Lean engineer" "t0" "t1"
    (fun _ waiting => (waiting, .resolved
      ⟨"Which seniority?", ⟨some "Lean engineer", none, none, none, some [], some [],
        some [], none, none, none, none, none, none, none⟩, 10, ["seniority"], false, none⟩))
    _ _ rfl).2.1

/-! ## Job chat: a failed call -/

/-- C18. When the call inside sendMessage fails with a non-empty message, the action returns
without throwing; conversationHistory, extractedData, completionPercentage, missingFields,
isComplete and summary are those found when the call settled; one assistant message flagged as
error is appended to the messages found then; isTyping is false and error is the failure
message. When nothing else changed the store meanwhile, the six fields are those of the state at
the start of the call and the messages are the old ones, the user message and the error
message. -/
theorem sendMessage_failure_keeps_data (state : JobChatState)
    (message sentAt settledAt : String)
    (server : ChatRequest → JobChatState → JobChatState × RestResult ChatResponse)
    (later : JobChatState) (failure : String) (hfailure : failure ≠ "")
    (hserver : server ⟨message, state.conversationHistory, state.extractedData⟩
      { state with
        messages := state.messages ++ [⟨"user", message, sentAt, false⟩]
        isTyping := true
        error := none } = (later, .rejected failure)) :
    (sendMessage state message sentAt settledAt server).2 = .returned () ∧
    ((sendMessage state message sentAt settledAt server).1.conversationHistory
        = later.conversationHistory ∧
      (sendMessage state message sentAt settledAt server).1.extractedData
        = later.extractedData ∧
      (sendMessage state message sentAt settledAt server).1.completionPercentage
        = later.completionPercentage ∧
      (sendMessage state message sentAt settledAt server).1.missingFields
        = later.missingFields ∧
      (sendMessage state message sentAt settledAt server).1.isComplete = later.isComplete ∧
      (sendMessage state message sentAt settledAt server).1.summary = later.summary) ∧
    (sendMessage state message sentAt settledAt server).1.messages
      = later.messages ++ [⟨"assistant", errorContent failure, settledAt, true⟩] ∧
    (sendMessage state message sentAt settledAt server).1.isTyping = false ∧
    (sendMessage state message sentAt settledAt server).1.error = some failure ∧
    (later = { state with
        messages := state.messages ++ [⟨"user", message, sentAt, false⟩]
        isTyping := true
        error := none } →
      (sendMessage state message sentAt settledAt server).1.messages
          = state.messages ++ [⟨"user", message, sentAt, false⟩,
              ⟨"assistant", errorContent failure, settledAt, true⟩] ∧
        (sendMessage state message sentAt settledAt server).1.conversationHistory
          = state.conversationHistory ∧
        (sendMessage state message sentAt settledAt server).1.extractedData
          = state.extractedData ∧
        (sendMessage state message sentAt settledAt server).1.completionPercentage
          = state.completionPercentage ∧
        (sendMessage state message sentAt settledAt server).1.missingFields
          = state.missingFields ∧
        (sendMessage state message sentAt settledAt server).1.isComplete = state.isComplete ∧
        (sendMessage state message sentAt settledAt server).1.summary = state.summary) := by
  have hres : sendMessage state message sentAt settledAt server
      = ({ later with
            messages := later.messages ++
              [⟨"assistant", errorContent failure, settledAt, true⟩]
            isTyping := false
            error := some failure }, .returned ()) := by
    simp [sendMessage, hserver, hfailure]
  rw [hres]
  refine ⟨rfl, ⟨rfl, rfl, rfl, rfl, rfl, rfl⟩, rfl, rfl, rfl, ?_⟩
  intro hlater
  subst hlater
  simp

/-- C18 at a concrete input: the first message of a chat, and the server refuses the login. -/
theorem sendMessage_failure_keeps_data_witness :
    (sendMessage initialChat "A Lean engineer" "t0" "t1"
        (fun _ waiting => (waiting, .rejected "401 Unauthorized"))).1.messages
      = [] ++ [⟨"user", "A Lean engineer", "t0", false⟩,
          ⟨"assistant", errorContent "401 Unauthorized", "t1", true⟩] :=
  ((sendMessage_failure_keeps_data initialChat "A Lean engineer" "t0" "t1"
    (fun _ waiting => (waiting, .rejected "401 Unauthorized")) _ "401 Unauthorized"
    (by decide) rfl).2.2.2.2.2 rfl).1

/-! ## Stream of matcher events: splitting at blank lines -/

theorem splitBlank_ne_nil (l : List Char) : splitBlank l ≠ [] := by
  induction l using splitBlank.induct with
  | case1 => simp [splitBlank]
  | case2 c => simp [splitBlank]
  | case3 c d rest h ih => simp [splitBlank, h]
  | case4 c d rest h hs ih => simp [splitBlank, h, hs]
  | case5 c d rest h seg more hs ih => simp [splitBlank, h, hs]

/-- A text that splits into one piece is that piece. -/
theorem splitBlank_single (l seg : List Char) (h : splitBlank l = [seg]) : seg = l := by
  induction l using splitBlank.induct generalizing seg with
  | case1 =>
    simp only [splitBlank, List.cons.injEq, and_true] at h
    exact h.symm
  | case2 c =>
    simp only [splitBlank, List.cons.injEq, and_true] at h
    exact h.symm
  | case3 c d rest hnn ih =>
    simp only [splitBlank, hnn, and_self, if_true, List.cons.injEq] at h
    exact absurd h.2 (splitBlank_ne_nil rest)
  | case4 c d rest hnn hs ih => exact absurd hs (splitBlank_ne_nil _)
  | case5 c d rest hnn seg0 more hs ih =>
    simp only [splitBlank, hnn, if_false, hs, List.cons.injEq] at h
    obtain ⟨h1, h2⟩ := h
    subst h2
    have := ih seg0 hs
    rw [← h1, this]

theorem dropLast_append_ne_nil {α : Type} (xs ys : List α) (h : ys ≠ []) :
    (xs ++ ys).dropLast = xs ++ ys.dropLast := by
  induction xs with
  | nil => rfl
  | cons x rest ih =>
    cases hr : rest ++ ys with
    | nil =>
      have : ys = [] := (List.append_eq_nil.mp hr).2
      exact absurd this h
    | cons z zs =>
      rw [List.cons_append, hr, List.dropLast_cons₂, ← hr, ih]
      rfl

theorem getLast?_append_ne_nil {α : Type} (xs ys : List α) (h : ys ≠ []) :
    (xs ++ ys).getLast? = ys.getLast? := by
  cases ys with
  | nil => exact absurd rfl h
  | cons y rest =>
    rw [List.getLast?_append,
      List.getLast?_eq_getLast (y :: rest) (List.cons_ne_nil y rest)]
    rfl

/-- Splitting a text that arrives in two pieces: the pieces completed within the first part stay
as they are, and the scan goes on from the piece left open. -/
theorem splitBlank_append (a b : List Char) :
    splitBlank (a ++ b)
      = (splitBlank a).dropLast ++ splitBlank (((splitBlank a).getLast?).getD [] ++ b) := by
  induction a using splitBlank.induct with
  | case1 => simp [splitBlank]
  | case2 c => simp [splitBlank]
  | case3 c d rest hnn ih =>
    have hne := splitBlank_ne_nil rest
    cases hx : splitBlank rest with
    | nil => exact absurd hx hne
    | cons x xs =>
      rw [hx] at ih
      have hl : splitBlank (c :: d :: rest ++ b) = [] :: splitBlank (rest ++ b) := by
        simp [splitBlank, hnn]
      have hr : splitBlank (c :: d :: rest) = [] :: x :: xs := by
        simp [splitBlank, hnn, hx]
      rw [hl, hr, ih]
      simp [List.getLast?_cons_cons]
  | case4 c d rest hnn hs ih => exact absurd hs (splitBlank_ne_nil _)
  | case5 c d rest hnn seg more hs ih =>
    rw [hs] at ih
    have hr : splitBlank (c :: d :: rest) = (c :: seg) :: more := by
      simp [splitBlank, hnn, hs]
    cases more with
    | nil =>
      have hseg := splitBlank_single _ _ hs
      subst hseg
      rw [hr]
      simp
    | cons m ms =>
      have hl : splitBlank (c :: d :: rest ++ b)
          = (c :: seg) :: ((m :: ms).dropLast ++
              splitBlank (((seg :: m :: ms).getLast?).getD [] ++ b)) := by
        have hcons : c :: d :: rest ++ b = c :: d :: (rest ++ b) := rfl
        have ih2 : splitBlank (d :: (rest ++ b))
            = seg :: ((m :: ms).dropLast ++
                splitBlank (((seg :: m :: ms).getLast?).getD [] ++ b)) := by
          have : d :: (rest ++ b) = d :: rest ++ b := rfl
          rw [this, ih]
          simp
        rw [hcons]
        simp only [splitBlank, hnn, if_false, ih2]
      rw [hl, hr]
      simp [List.getLast?_cons_cons]

theorem remainder_toList (a : String) :
    (remainder a).toList = ((splitBlank a.toList).getLast?).getD [] := by
  unfold remainder
  cases hx : splitBlank a.toList with
  | nil => exact absurd hx (splitBlank_ne_nil _)
  | cons x xs =>
    rw [List.getLast?_map]
    cases hl : (x :: xs).getLast? with
    | none => simp at hl
    | some z => simp

theorem completeParts_append (a b : String) :
    completeParts (a ++ b) = completeParts a ++ completeParts (remainder a ++ b) := by
  have e : ∀ s : String,
      completeParts s = ((splitBlank s.toList).map String.mk).dropLast := fun _ => rfl
  rw [e (a ++ b), e (remainder a ++ b), e a]
  have h1 : (a ++ b).toList = a.toList ++ b.toList := by simp
  have h2 : (remainder a ++ b).toList
      = ((splitBlank a.toList).getLast?).getD [] ++ b.toList := by
    rw [← remainder_toList]
    simp
  rw [h1, h2, splitBlank_append, List.map_append,
    dropLast_append_ne_nil _ _ (by simpa using splitBlank_ne_nil _)]
  simp [List.map_dropLast]

theorem remainder_append (a b : String) :
    remainder (a ++ b) = remainder (remainder a ++ b) := by
  have h1 : (a ++ b).toList = a.toList ++ b.toList := by simp
  have h2 : (remainder a ++ b).toList
      = ((splitBlank a.toList).getLast?).getD [] ++ b.toList := by
    rw [← remainder_toList]
    simp
  have e : ∀ s : String,
      remainder s = (((splitBlank s.toList).map String.mk).getLast?).getD "" := fun _ => rfl
  rw [e (a ++ b), e (remainder a ++ b), h1, h2, splitBlank_append, List.map_append,
    getLast?_append_ne_nil _ _ (by simpa using splitBlank_ne_nil _)]

/-- The piece left open holds no blank line: nothing in it is complete, and it is its own
remainder. -/
theorem remainder_is_open (a : String) :
    completeParts (remainder a) = [] ∧ remainder (remainder a) = remainder a := by
  have hc := completeParts_append a ""
  have hr := remainder_append a ""
  simp only [String.append_empty] at hc hr
  refine ⟨?_, hr.symm⟩
  have := congrArg List.length hc
  simp only [List.length_append] at this
  exact List.eq_nil_of_length_eq_zero (by omega)

/-! ## Stream of matcher events: the read loop -/

/-- After the read loop the buffer is the open piece of the whole text read, and the events
emitted are those of its complete pieces, in order. -/
theorem readLoop_eq {α : Type} (parse : String → Option α) (s : StreamState α)
    (chunks : List String)
    (hopen : completeParts s.buffer = [] ∧ remainder s.buffer = s.buffer) :
    readLoop parse s chunks
      = { buffer := remainder (s.buffer ++ concatText chunks)
          emitted := s.emitted ++
            (completeParts (s.buffer ++ concatText chunks)).filterMap (blockEvent parse) } := by
  induction chunks generalizing s with
  | nil =>
    cases s with
    | mk buffer emitted =>
      simp only [readLoop, List.foldl_nil, concatText, String.append_empty] at hopen ⊢
      simp [hopen.1, hopen.2]
  | cons c cs ih =>
    have hstep : readLoop parse s (c :: cs)
        = readLoop parse (processBuffer parse { s with buffer := s.buffer ++ c }) cs := rfl
    rw [hstep, ih _ (remainder_is_open _)]
    have hassoc : s.buffer ++ concatText (c :: cs) = (s.buffer ++ c) ++ concatText cs := by
      simp [concatText, String.append_assoc]
    rw [hassoc, remainder_append (s.buffer ++ c), completeParts_append (s.buffer ++ c)]
    simp [processBuffer, List.filterMap_append, List.append_assoc]

theorem streamMatch_eq {α : Type} (parse : String → Option α) (chunks : List String) :
    streamMatch parse chunks
      = (completeParts (concatText chunks)).filterMap (blockEvent parse) := by
  have hempty : completeParts "" = [] ∧ remainder "" = "" := by decide
  have h := readLoop_eq parse { buffer := "", emitted := [] } chunks hempty
  simp only [String.empty_append, List.nil_append] at h
  have hopen := remainder_is_open (concatText chunks)
  simp [streamMatch, h, processBuffer, hopen.1]

/-- C15. For every stream text and every way of cutting it into consecutive chunks, the events
that streamMatch emits are those it emits when the whole text arrives as a single chunk, in the
same order: no block is emitted twice and none is lost by the cutting. -/
theorem streamMatch_chunking (α : Type) (parse : String → Option α) (chunks : List String) :
    streamMatch parse chunks = streamMatch parse [concatText chunks] := by
  rw [streamMatch_eq, streamMatch_eq]
  simp [concatText]


/-- C16. The call of processBuffer that follows the read loop emits nothing, whatever was read:
it takes the last piece out of the buffer again and handles only the pieces before it, of which
there are none. In the stream of the single chunk "event: result\ndata: 1" the block is not
followed by a blank line; the block alone would give the event result with data 1, and it does
so when the blank line is there, yet streamMatch emits no event for it. -/
theorem streamMatch_drops_last_block :
    (∀ (α : Type) (parse : String → Option α) (chunks : List String),
      (processBuffer parse (readLoop parse { buffer := "", emitted := [] } chunks)).emitted
        = (readLoop parse { buffer := "", emitted := [] } chunks).emitted)
    ∧ blockEvent (fun s => if s = "1" then some 1 else none) "event: result\ndata: 1"
        = some { event := "result", data := 1 }
    ∧ streamMatch (fun s => if s = "1" then some 1 else none) ["event: result\ndata: 1"] = []
    ∧ streamMatch (fun s => if s = "1" then some 1 else none) ["event: result\ndata: 1\n\n"]
        = [{ event := "result", data := 1 }] := by
  refine ⟨?_, by decide, by decide, by decide⟩
  intro α parse chunks
  have hempty : completeParts "" = [] ∧ remainder "" = "" := by decide
  have h := readLoop_eq parse { buffer := "", emitted := [] } chunks hempty
  have hopen := remainder_is_open (concatText chunks)
  rw [h]
  simp [processBuffer, hopen.1]


/-! ## Stream of matcher events: blocks in the wire format -/

theorem splitBlank_cons_of_ne (c : Char) (x : List Char) (h : c ≠ '\n') :
    splitBlank (c :: x)
      = match splitBlank x with
        | [] => [[c]]
        | seg :: more => (c :: seg) :: more := by
  cases x with
  | nil => rfl
  | cons d rest =>
    rw [splitBlank]
    simp [h]

theorem splitBlank_line_end (l rest : List Char) (h : '\n' ∉ l) :
    splitBlank (l ++ '\n' :: '\n' :: rest) = l :: splitBlank rest := by
  induction l with
  | nil => simp [splitBlank]
  | cons c l ih =>
    have hc : c ≠ '\n' := fun e => h (by simp [e])
    have hl : '\n' ∉ l := fun e => h (List.mem_cons_of_mem _ e)
    rw [List.cons_append, splitBlank_cons_of_ne c _ hc, ih hl]

theorem splitBlank_line_more (l m : List Char) (d : Char) (h : '\n' ∉ l) (hd : d ≠ '\n')
    (seg : List Char) (more : List (List Char)) (hm : splitBlank (d :: m) = seg :: more) :
    splitBlank (l ++ '\n' :: d :: m) = (l ++ '\n' :: seg) :: more := by
  induction l with
  | nil =>
    rw [List.nil_append, splitBlank]
    simp [hd, hm]
  | cons c l ih =>
    have hc : c ≠ '\n' := fun e => h (by simp [e])
    have hl : '\n' ∉ l := fun e => h (List.mem_cons_of_mem _ e)
    rw [List.cons_append, splitBlank_cons_of_ne c _ hc, ih hl]
    rfl

theorem splitChars_line (l : List Char) (h : '\n' ∉ l) : splitChars '\n' l = [l] := by
  induction l with
  | nil => rfl
  | cons c l ih =>
    have hc : c ≠ '\n' := fun e => h (by simp [e])
    have hl : '\n' ∉ l := fun e => h (List.mem_cons_of_mem _ e)
    simp [splitChars, hc, ih hl]

theorem splitChars_line_more (l m : List Char) (h : '\n' ∉ l) :
    splitChars '\n' (l ++ '\n' :: m) = l :: splitChars '\n' m := by
  induction l with
  | nil => simp [splitChars]
  | cons c l ih =>
    have hc : c ≠ '\n' := fun e => h (by simp [e])
    have hl : '\n' ∉ l := fun e => h (List.mem_cons_of_mem _ e)
    simp [splitChars, hc, ih hl]

theorem jsTrim_space (l : List Char) : jsTrim (String.mk (' ' :: l)) = jsTrim (String.mk l) := by
  have hs : isJsWhitespace ' ' = true := by decide
  simp [jsTrim, List.dropWhile, hs]


theorem blockText_event_chars (t d : String) :
    (blockText (WireBlock.lines { event := some t, data := d })).toList
      = ('e' :: 'v' :: 'e' :: 'n' :: 't' :: ':' :: ' ' :: t.toList)
          ++ '\n' :: 'd' :: 'a' :: 't' :: 'a' :: ':' :: ' ' :: d.toList := by
  have he : ("event: " : String).data = ['e', 'v', 'e', 'n', 't', ':', ' '] := rfl
  have hd : ("data: " : String).data = ['d', 'a', 't', 'a', ':', ' '] := rfl
  simp [blockText, WireBlock.lines, List.intercalate, List.intersperse, he, hd]

theorem blockText_data_chars (d : String) :
    (blockText (WireBlock.lines { event := none, data := d })).toList
      = 'd' :: 'a' :: 't' :: 'a' :: ':' :: ' ' :: d.toList := by
  have hd : ("data: " : String).data = ['d', 'a', 't', 'a', ':', ' '] := rfl
  simp [blockText, WireBlock.lines, List.intercalate, List.intersperse, hd]

theorem splitBlank_block (b : WireBlock) (rest : List Char)
    (hdata : '\n' ∉ b.data.toList) (hevent : ∀ t, b.event = some t → '\n' ∉ t.toList) :
    splitBlank ((blockText b.lines).toList ++ '\n' :: '\n' :: rest)
      = (blockText b.lines).toList :: splitBlank rest := by
  obtain ⟨event, data⟩ := b
  have hl2 : '\n' ∉ 'd' :: 'a' :: 't' :: 'a' :: ':' :: ' ' :: data.toList := by
    simp only [List.mem_cons, not_or]
    exact ⟨by decide, by decide, by decide, by decide, by decide, by decide, hdata⟩
  cases event with
  | none =>
    rw [blockText_data_chars]
    exact splitBlank_line_end _ rest hl2
  | some t =>
    have hl1 : '\n' ∉ 'e' :: 'v' :: 'e' :: 'n' :: 't' :: ':' :: ' ' :: t.toList := by
      simp only [List.mem_cons, not_or]
      exact ⟨by decide, by decide, by decide, by decide, by decide, by decide, by decide,
        hevent t rfl⟩
    rw [blockText_event_chars, List.append_assoc, List.cons_append]
    exact splitBlank_line_more _ _ 'd' hl1 (by decide) _ _ (splitBlank_line_end _ rest hl2)

theorem completeParts_block (b : WireBlock) (rest : String)
    (hdata : '\n' ∉ b.data.toList) (hevent : ∀ t, b.event = some t → '\n' ∉ t.toList) :
    completeParts (blockText b.lines ++ "\n\n" ++ rest)
      = blockText b.lines :: completeParts rest := by
  have hnl : ("\n\n" : String).data = ['\n', '\n'] := rfl
  have hchars : (blockText b.lines ++ "\n\n" ++ rest).toList
      = (blockText b.lines).toList ++ '\n' :: '\n' :: rest.toList := by
    simp [String.toList, hnl]
  have hne : (splitBlank rest.toList).map String.mk ≠ [] := by
    simp [splitBlank_ne_nil]
  have e : ∀ s : String, completeParts s = ((splitBlank s.toList).map String.mk).dropLast :=
    fun _ => rfl
  rw [e (blockText b.lines ++ "\n\n" ++ rest), e rest, hchars,
    splitBlank_block b _ hdata hevent, List.map_cons]
  cases hrest : (splitBlank rest.toList).map String.mk with
  | nil => exact absurd hrest hne
  | cons x xs => rfl

theorem completeParts_streamText (blocks : List WireBlock)
    (hlines : ∀ b ∈ blocks,
      '\n' ∉ b.data.toList ∧ ∀ t, b.event = some t → '\n' ∉ t.toList) :
    completeParts (streamText (blocks.map WireBlock.lines))
      = blocks.map (fun b => blockText b.lines) := by
  induction blocks with
  | nil => decide
  | cons b bs ih =>
    have hb := hlines b (List.mem_cons_self b bs)
    have hbs := ih (fun x hx => hlines x (List.mem_cons_of_mem b hx))
    have hstep : streamText ((b :: bs).map WireBlock.lines)
        = blockText b.lines ++ "\n\n" ++ streamText (bs.map WireBlock.lines) := rfl
    rw [hstep, completeParts_block b _ hb.1 hb.2, hbs]
    rfl


theorem jsSplit_block_event (t d : String)
    (hd : '\n' ∉ d.toList) (ht : '\n' ∉ t.toList) :
    jsSplit (blockText (WireBlock.lines { event := some t, data := d })) '\n'
      = [String.mk ('e' :: 'v' :: 'e' :: 'n' :: 't' :: ':' :: ' ' :: t.toList),
         String.mk ('d' :: 'a' :: 't' :: 'a' :: ':' :: ' ' :: d.toList)] := by
  have hl2 : '\n' ∉ 'd' :: 'a' :: 't' :: 'a' :: ':' :: ' ' :: d.toList := by
    simp only [List.mem_cons, not_or]
    exact ⟨by decide, by decide, by decide, by decide, by decide, by decide, hd⟩
  have hl1 : '\n' ∉ 'e' :: 'v' :: 'e' :: 'n' :: 't' :: ':' :: ' ' :: t.toList := by
    simp only [List.mem_cons, not_or]
    exact ⟨by decide, by decide, by decide, by decide, by decide, by decide, by decide, ht⟩
  have e : ∀ s : String, jsSplit s '\n' = (splitChars '\n' s.toList).map String.mk :=
    fun _ => rfl
  rw [e, blockText_event_chars, splitChars_line_more _ _ hl1, splitChars_line _ hl2]
  rfl

theorem jsSplit_block_data (d : String) (hd : '\n' ∉ d.toList) :
    jsSplit (blockText (WireBlock.lines { event := none, data := d })) '\n'
      = [String.mk ('d' :: 'a' :: 't' :: 'a' :: ':' :: ' ' :: d.toList)] := by
  have hl2 : '\n' ∉ 'd' :: 'a' :: 't' :: 'a' :: ':' :: ' ' :: d.toList := by
    simp only [List.mem_cons, not_or]
    exact ⟨by decide, by decide, by decide, by decide, by decide, by decide, hd⟩
  have e : ∀ s : String, jsSplit s '\n' = (splitChars '\n' s.toList).map String.mk :=
    fun _ => rfl
  rw [e, blockText_data_chars, splitChars_line _ hl2]
  rfl

theorem lineStep_event_line (acc : String × String) (t : List Char) :
    lineStep acc (String.mk ('e' :: 'v' :: 'e' :: 'n' :: 't' :: ':' :: ' ' :: t))
      = (jsTrim (String.mk t), acc.2) := by
  have he : ("event:" : String).toList = ['e', 'v', 'e', 'n', 't', ':'] := rfl
  have hstart : jsStartsWithText
      (String.mk ('e' :: 'v' :: 'e' :: 'n' :: 't' :: ':' :: ' ' :: t)) "event:" = true := by
    simp [jsStartsWithText, he, startsWithChars]
  have hrem : jsRemoveFirst
      (String.mk ('e' :: 'v' :: 'e' :: 'n' :: 't' :: ':' :: ' ' :: t)) "event:"
        = String.mk (' ' :: t) := by
    simp [jsRemoveFirst, he, removeFirstChars, startsWithChars]
  simp only [lineStep, hstart, hrem, if_true, jsTrim_space]

theorem lineStep_data_line (acc : String × String) (d : List Char) :
    lineStep acc (String.mk ('d' :: 'a' :: 't' :: 'a' :: ':' :: ' ' :: d))
      = (acc.1, acc.2 ++ jsTrim (String.mk d)) := by
  have he : ("event:" : String).toList = ['e', 'v', 'e', 'n', 't', ':'] := rfl
  have hd : ("data:" : String).toList = ['d', 'a', 't', 'a', ':'] := rfl
  have hnot : jsStartsWithText
      (String.mk ('d' :: 'a' :: 't' :: 'a' :: ':' :: ' ' :: d)) "event:" = false := by
    simp [jsStartsWithText, he, startsWithChars]
  have hstart : jsStartsWithText
      (String.mk ('d' :: 'a' :: 't' :: 'a' :: ':' :: ' ' :: d)) "data:" = true := by
    simp [jsStartsWithText, hd, startsWithChars]
  have hrem : jsRemoveFirst
      (String.mk ('d' :: 'a' :: 't' :: 'a' :: ':' :: ' ' :: d)) "data:"
        = String.mk (' ' :: d) := by
    simp [jsRemoveFirst, hd, removeFirstChars, startsWithChars]
  simp [lineStep, hnot, hstart, hrem, jsTrim_space]

theorem blockFields_block (b : WireBlock)
    (hdata : '\n' ∉ b.data.toList) (hevent : ∀ t, b.event = some t → '\n' ∉ t.toList) :
    blockFields (blockText b.lines) = ((b.event.map jsTrim).getD "message", jsTrim b.data) := by
  obtain ⟨event, data⟩ := b
  have e : ∀ s : String, blockFields s = (jsSplit s '\n').foldl lineStep ("message", "") :=
    fun _ => rfl
  cases event with
  | none =>
    rw [e, jsSplit_block_data data hdata]
    simp [lineStep_data_line]
  | some t =>
    rw [e, jsSplit_block_event t data hdata (hevent t rfl)]
    simp [lineStep_event_line, lineStep_data_line]

theorem blockEvent_block {α : Type} (parse : String → Option α)
    (htrim : ∀ s v, parse s = some v → parse (jsTrim s) = some v)
    (hempty : parse "" = none) (b : WireBlock) (v : α)
    (hdata : '\n' ∉ b.data.toList) (hevent : ∀ t, b.event = some t → '\n' ∉ t.toList)
    (hjson : parse b.data = some v) :
    blockEvent parse (blockText b.lines)
      = some { event := (b.event.map jsTrim).getD "message", data := v } := by
  have hv := htrim _ _ hjson
  have hne : jsTrim b.data ≠ "" := by
    intro h
    rw [h, hempty] at hv
    exact Option.noConfusion hv
  simp [blockEvent, blockFields_block b hdata hevent, hne, hv]


theorem filterMap_blockEvent_blocks {α : Type} (parse : String → Option α)
    (htrim : ∀ s v, parse s = some v → parse (jsTrim s) = some v)
    (hempty : parse "" = none) (blocks : List WireBlock)
    (hlines : ∀ b ∈ blocks,
      '\n' ∉ b.data.toList ∧ ∀ t, b.event = some t → '\n' ∉ t.toList)
    (hjson : ∀ b ∈ blocks, (parse b.data).isSome = true) :
    ((blocks.map (fun b => blockText b.lines)).filterMap (blockEvent parse)).map
        (fun e => (e.event, some e.data))
      = blocks.map (fun b => ((b.event.map jsTrim).getD "message", parse b.data)) := by
  induction blocks with
  | nil => rfl
  | cons b bs ih =>
    have hb := hlines b (List.mem_cons_self b bs)
    have hbs := ih (fun x hx => hlines x (List.mem_cons_of_mem b hx))
      (fun x hx => hjson x (List.mem_cons_of_mem b hx))
    obtain ⟨v, hv⟩ := Option.isSome_iff_exists.mp (hjson b (List.mem_cons_self b bs))
    have hblock := blockEvent_block parse htrim hempty b v hb.1 hb.2 hv
    rw [List.map_cons, List.filterMap_cons_some hblock, List.map_cons, hbs, List.map_cons, hv]

/-- C11. For every stream text made of blocks, each an optional line "event: T", a line
"data: J" with J a text that the parser accepts, and a terminating blank line, and for every way
the text arrives in chunks, streamMatch calls onEvent exactly once per block, in stream order,
with event equal to T trimmed, or "message" when the block has no event line, and data equal to
the parsed J. The parser stands for JSON.parse: it rejects the empty text and accepts the
trimmed text of every text it accepts, with the same value. -/
theorem streamMatch_emits_each_block (α : Type) (parse : String → Option α)
    (htrim : ∀ s v, parse s = some v → parse (jsTrim s) = some v)
    (hempty : parse "" = none) (blocks : List WireBlock)
    (hlines : ∀ b ∈ blocks,
      '\n' ∉ b.data.toList ∧ ∀ t, b.event = some t → '\n' ∉ t.toList)
    (hjson : ∀ b ∈ blocks, (parse b.data).isSome = true)
    (chunks : List String)
    (hchunks : concatText chunks = streamText (blocks.map WireBlock.lines)) :
    (streamMatch parse chunks).map (fun e => (e.event, some e.data))
      = blocks.map (fun b => ((b.event.map jsTrim).getD "message", parse b.data)) := by
  rw [streamMatch_eq, hchunks, completeParts_streamText blocks hlines]
  exact filterMap_blockEvent_blocks parse htrim hempty blocks hlines hjson

/-- Witness for C11: a stream of two blocks, the second without an event line, cut between the
two line feeds that close the first block; the parser accepts the text 1 only. -/
theorem streamMatch_emits_each_block_witness :
    (streamMatch (fun s => if s = "1" then some 1 else none)
        ["event:  progress \ndata: 1\n", "\ndata: 1\n\n"]).map (fun e => (e.event, some e.data))
      = [("progress", some 1), ("message", some 1)] :=
  streamMatch_emits_each_block Nat (fun s => if s = "1" then some 1 else none)
    (fun s v h => by
      by_cases hs : s = "1"
      · subst hs
        exact h
      · simp [hs] at h)
    (by decide)
    [{ event := some " progress ", data := "1" }, { event := none, data := "1" }]
    (fun b hb => by
      simp only [List.mem_cons, List.mem_singleton, List.not_mem_nil, or_false] at hb
      rcases hb with rfl | rfl
      · refine ⟨by decide, fun t ht => ?_⟩
        cases ht
        decide
      · exact ⟨by decide, fun t ht => Option.noConfusion ht⟩)
    (fun b hb => by
      simp only [List.mem_cons, List.mem_singleton, List.not_mem_nil, or_false] at hb
      rcases hb with rfl | rfl <;> rfl)
    ["event:  progress \ndata: 1\n", "\ndata: 1\n\n"]
    (by decide)


/-! ## Stream of matcher events: blocks that give no event -/

theorem lineStep_keeps_data (acc : String × String) (line : String)
    (h : jsStartsWithText line "data:" = false) : (lineStep acc line).2 = acc.2 := by
  unfold lineStep
  by_cases he : jsStartsWithText line "event:" = true
  · simp [he]
  · simp [he, h]

theorem foldl_lineStep_keeps_data (lines : List String) (acc : String × String)
    (h : ∀ line ∈ lines, jsStartsWithText line "data:" = false) :
    (lines.foldl lineStep acc).2 = acc.2 := by
  induction lines generalizing acc with
  | nil => rfl
  | cons l ls ih =>
    rw [List.foldl_cons, ih _ (fun x hx => h x (List.mem_cons_of_mem l hx)),
      lineStep_keeps_data acc l (h l (List.mem_cons_self l ls))]

/-- C17. In streamMatch, a block whose data is not a text that the parser accepts gives no call
of onEvent and does not stop the processing: the events emitted are those of the blocks before
it followed by those of the blocks after it, in stream order. The same holds for a block with
no data line and for a block whose data is empty. -/
theorem streamMatch_skips_bad_block (α : Type) (parse : String → Option α)
    (chunks : List String) (before after : List String) (bad : String)
    (hparts : completeParts (concatText chunks) = before ++ bad :: after)
    (hbad : (∀ line ∈ jsSplit bad '\n', jsStartsWithText line "data:" = false)
      ∨ (blockFields bad).2 = "" ∨ parse (blockFields bad).2 = none) :
    blockEvent parse bad = none
      ∧ streamMatch parse chunks
          = before.filterMap (blockEvent parse) ++ after.filterMap (blockEvent parse) := by
  have hnone : blockEvent parse bad = none := by
    have hcases : (blockFields bad).2 = "" ∨ parse (blockFields bad).2 = none := by
      rcases hbad with h | h | h
      · exact Or.inl (foldl_lineStep_keeps_data _ _ h)
      · exact Or.inl h
      · exact Or.inr h
    unfold blockEvent
    rcases hcases with h | h
    · simp [h]
    · simp [h]
  refine ⟨hnone, ?_⟩
  rw [streamMatch_eq, hparts, List.filterMap_append, List.filterMap_cons_none hnone]

/-- Witness for C17: the first block carries data that the parser rejects (the parser accepts
the text 1 only), the second block is well formed and is cut in two by the chunking. -/
theorem streamMatch_skips_bad_block_witness :
    blockEvent (fun s => if s = "1" then some 1 else none) "data: oops" = none
      ∧ streamMatch (fun s => if s = "1" then some 1 else none)
          ["data: oops\n\nevent: a\nda", "ta: 1\n\n"] = [{ event := "a", data := 1 }] :=
  streamMatch_skips_bad_block Nat (fun s => if s = "1" then some 1 else none)
    ["data: oops\n\nevent: a\nda", "ta: 1\n\n"] [] ["event: a\ndata: 1"] "data: oops"
    (by decide) (Or.inr (Or.inr (by decide)))


/-! ## Deny by default -/

theorem truthyRole_none_of_no_role (user : Option User)
    (h : user = none ∨ user = some ⟨none⟩ ∨ user = some ⟨some ""⟩) : truthyRole user = none := by
  rcases h with rfl | rfl | rfl <;> rfl

/-- C27, failing input. The key constructor has no entry in any table, yet for an HR user
hasPermission, canAccessRoute, canViewMenu and canViewSubmenu (under the menu jobs) do not
return false on it: the lookup finds the member that every object inherits, and calling
includes on it raises a TypeError. -/
theorem permission_checks_raise_on_inherited_key :
    ownGet PERMISSIONS "constructor" = none
      ∧ hasPermission (some ⟨some "hr"⟩) "constructor" = .typeError
      ∧ ownGet ROUTE_PERMISSIONS "constructor" = none
      ∧ (objKeys ROUTE_PERMISSIONS).find? (fun route => routeMatches route "constructor") = none
      ∧ canAccessRoute (some ⟨some "hr"⟩) "constructor" = .typeError
      ∧ ownGet MENU_ACCESS "constructor" = none
      ∧ canViewMenu (some ⟨some "hr"⟩) "constructor" = .typeError
      ∧ canViewSubmenu (some ⟨some "hr"⟩) "jobs" "constructor" = .typeError := by
  decide

/-- Support for C27: where the checks do deny by default. For a null user, a user without a role
and a user with an empty role, the four checks return false and filterMenuByRole returns the
empty list, whatever the other arguments are. For every user, hasPermission, canAccessRoute and
canViewMenu return false for a permission, path or menu id that has no entry in the table and
is not the name of an inherited object member (for a path: that also matches no parameterised
pattern); canViewSubmenu returns false for a menu id without an entry of its own, and for a
submenu key that has no entry under the menu and is not the name of an inherited object
member. -/
theorem permission_checks_deny_by_default :
    (∀ (user : Option User) (permission path menuId submenuKey : String)
        (menuItems : List MenuItem),
      (user = none ∨ user = some ⟨none⟩ ∨ user = some ⟨some ""⟩) →
      hasPermission user permission = .ok false ∧ canAccessRoute user path = .ok false ∧
        canViewMenu user menuId = .ok false ∧
        canViewSubmenu user menuId submenuKey = .ok false ∧
        filterMenuByRole user menuItems = .ok []) ∧
    (∀ (user : Option User) (permission : String),
      ownGet PERMISSIONS permission = none → permission ∉ objectMembers →
      hasPermission user permission = .ok false) ∧
    (∀ (user : Option User) (path : String),
      ownGet ROUTE_PERMISSIONS path = none → path ∉ objectMembers →
      (∀ route ∈ objKeys ROUTE_PERMISSIONS, routeMatches route path = false) →
      canAccessRoute user path = .ok false) ∧
    (∀ (user : Option User) (menuId : String),
      ownGet MENU_ACCESS menuId = none → menuId ∉ objectMembers →
      canViewMenu user menuId = .ok false) ∧
    (∀ (user : Option User) (menuId submenuKey : String),
      ownGet MENU_ACCESS menuId = none → canViewSubmenu user menuId submenuKey = .ok false) ∧
    (∀ (user : Option User) (menuId submenuKey : String) (menu : MenuAccess),
      ownGet MENU_ACCESS menuId = some menu → ownGet menu.submenus submenuKey = none →
      submenuKey ∉ objectMembers → canViewSubmenu user menuId submenuKey = .ok false) := by
  refine ⟨?_, ?_, ?_, ?_, ?_, ?_⟩
  · intro user permission path menuId submenuKey menuItems huser
    have h := truthyRole_none_of_no_role user huser
    simp [hasPermission, canAccessRoute, canViewMenu, canViewSubmenu, filterMenuByRole, h]
  · intro user permission hown hmember
    unfold hasPermission
    cases truthyRole user with
    | none => rfl
    | some role => simp [objGet, hown, hmember]
  · intro user path hown hmember hroutes
    have hfind : (objKeys ROUTE_PERMISSIONS).find? (fun route => routeMatches route path)
        = none := by
      rw [List.find?_eq_none]
      intro route hroute
      simp [hroutes route hroute]
    unfold canAccessRoute
    cases truthyRole user with
    | none => rfl
    | some role => simp [objGet, hown, hmember, hfind]
  · intro user menuId hown hmember
    unfold canViewMenu
    cases truthyRole user with
    | none => rfl
    | some role => simp [objGet, hown, hmember]
  · intro user menuId submenuKey hown
    unfold canViewSubmenu
    cases truthyRole user with
    | none => rfl
    | some role =>
      by_cases hmember : menuId ∈ objectMembers
      · simp [objGet, hown, hmember]
      · simp [objGet, hown, hmember]
  · intro user menuId submenuKey menu hown hsub hmember
    unfold canViewSubmenu
    cases truthyRole user with
    | none => rfl
    | some role => simp [objGet, hown, hsub, hmember]

/-- Support for C27 at concrete inputs: a null user asking for a listed route, and an HR user
asking for a permission, a path, a menu and a submenu that the tables do not list. -/
theorem permission_checks_deny_by_default_witness :
    canAccessRoute none "/dashboard" = .ok false
      ∧ filterMenuByRole (some ⟨some ""⟩) allMenuItems = .ok []
      ∧ hasPermission (some ⟨some "hr"⟩) "jobs.jd.delete" = .ok false
      ∧ canAccessRoute (some ⟨some "hr"⟩) "/settings" = .ok false
      ∧ canViewMenu (some ⟨some "hr"⟩) "settings" = .ok false
      ∧ canViewSubmenu (some ⟨some "hr"⟩) "settings" "generator" = .ok false
      ∧ canViewSubmenu (some ⟨some "hr"⟩) "jobs" "results" = .ok false :=
  ⟨(permission_checks_deny_by_default.1 none "" "/dashboard" "" "" [] (Or.inl rfl)).2.1,
   (permission_checks_deny_by_default.1 (some ⟨some ""⟩) "" "" "" "" allMenuItems
      (Or.inr (Or.inr rfl))).2.2.2.2,
   permission_checks_deny_by_default.2.1 (some ⟨some "hr"⟩) "jobs.jd.delete"
      (by decide) (by decide),
   permission_checks_deny_by_default.2.2.1 (some ⟨some "hr"⟩) "/settings"
      (by decide) (by decide) (by decide),
   permission_checks_deny_by_default.2.2.2.1 (some ⟨some "hr"⟩) "settings"
      (by decide) (by decide),
   permission_checks_deny_by_default.2.2.2.2.1 (some ⟨some "hr"⟩) "settings" "generator"
      (by decide),
   permission_checks_deny_by_default.2.2.2.2.2 (some ⟨some "hr"⟩) "jobs" "results"
      ⟨[ROLES.HR, ROLES.RECRUITER, ROLES.HIRING_MANAGER],
       [("generator", [ROLES.HR, ROLES.HIRING_MANAGER]),
        ("matcher", [ROLES.HR, ROLES.RECRUITER, ROLES.HIRING_MANAGER])]⟩
      (by decide) (by decide) (by decide)⟩


/-! ## Menu and route tables agree -/

theorem menu_tables_agree_check :
    MENU_ACCESS.all (fun entry => entry.2.submenus.all (fun sub => sub.2.all (fun role =>
      entry.2.visible.contains role &&
        ((ownGet ROUTE_PERMISSIONS ("/" ++ entry.1 ++ "/" ++ sub.1)).getD []).contains role)))
      = true := by
  decide

theorem filterMenuByRole_other_role (role : String) (hne : role ≠ "")
    (hhr : role ≠ "hr") (hrec : role ≠ "recruiter") (hhm : role ≠ "hiring_manager") :
    filterMenuByRole (some ⟨some role⟩) allMenuItems = .ok [] := by
  have hrole : truthyRole (some ⟨some role⟩) = some role := by simp [truthyRole, hne]
  have hjobs : canViewMenu (some ⟨some role⟩) "jobs" = .ok false := by
    simp [canViewMenu, hrole, objGet, ownGet, MENU_ACCESS, ROLES.HR, ROLES.RECRUITER,
      ROLES.HIRING_MANAGER, hhr, hrec, hhm]
  have hdocs : canViewMenu (some ⟨some role⟩) "documents" = .ok false := by
    simp [canViewMenu, hrole, objGet, ownGet, MENU_ACCESS, ROLES.HR, ROLES.RECRUITER,
      ROLES.HIRING_MANAGER, hhr, hrec, hhm]
  have hint : canViewMenu (some ⟨some role⟩) "interviews" = .ok false := by
    simp [canViewMenu, hrole, objGet, ownGet, MENU_ACCESS, ROLES.HR, ROLES.RECRUITER,
      ROLES.HIRING_MANAGER, hhr, hrec, hhm]
  simp [filterMenuByRole, hrole, allMenuItems, filterJs, hjobs, hdocs, hint, Js.bind, mapJs]

/-- C26. Menu and route tables agree: for every menu m and submenu key k of MENU_ACCESS, every
role allowed for k is in the visible list of m and in the entry of ROUTE_PERMISSIONS for the
path /m/k. Hence, for every user, filterMenuByRole returns on the menu definition of the
navigation bar, and every submenu it keeps links to a path for which canAccessRoute returns true
for that user. -/
theorem menu_and_route_tables_agree :
    (∀ (m : String) (access : MenuAccess), (m, access) ∈ MENU_ACCESS →
      ∀ (k : String) (roles : List String), (k, roles) ∈ access.submenus →
      ∀ role ∈ roles, role ∈ access.visible ∧
        ∃ allowed, ownGet ROUTE_PERMISSIONS ("/" ++ m ++ "/" ++ k) = some allowed ∧
          role ∈ allowed) ∧
    (∀ user : Option User, ∃ kept, filterMenuByRole user allMenuItems = .ok kept ∧
      ∀ menu ∈ kept, ∀ submenu ∈ menu.submenus, canAccessRoute user submenu.link = .ok true) := by
  constructor
  · intro m access hm k roles hk role hrole
    have hcheck := menu_tables_agree_check
    rw [List.all_eq_true] at hcheck
    have h1 := hcheck (m, access) hm
    rw [List.all_eq_true] at h1
    have h2 := h1 (k, roles) hk
    rw [List.all_eq_true] at h2
    have h3 := h2 role hrole
    simp only [Bool.and_eq_true] at h3
    refine ⟨by simpa using h3.1, ?_⟩
    cases hget : ownGet ROUTE_PERMISSIONS ("/" ++ m ++ "/" ++ k) with
    | none =>
      rw [hget] at h3
      simp at h3
    | some allowed =>
      rw [hget] at h3
      exact ⟨allowed, rfl, by simpa using h3.2⟩
  · intro user
    cases hrole : truthyRole user with
    | none => exact ⟨[], by simp [filterMenuByRole, hrole], by simp⟩
    | some role =>
      obtain ⟨huser, hne⟩ := truthyRole_some user role hrole
      have hu : user = some ⟨some role⟩ := by
        cases user with
        | none => simp at huser
        | some u =>
          cases u with
          | mk r =>
            simp only [Option.bind] at huser
            rw [huser]
      subst hu
      by_cases hhr : role = "hr"
      · subst hhr
        exact ⟨_, rfl, by decide⟩
      · by_cases hrec : role = "recruiter"
        · subst hrec
          exact ⟨_, rfl, by decide⟩
        · by_cases hhm : role = "hiring_manager"
          · subst hhm
            exact ⟨_, rfl, by decide⟩
          · exact ⟨[], filterMenuByRole_other_role role hne hhr hrec hhm, by simp⟩


/-! ## The redirect of the route guard -/

/-- C28, counterexample. A stored user whose role is the non-empty text admin, which no table
lists: canAccessRoute returns false for /dashboard, so ProtectedRoute at /dashboard renders the
redirect to /dashboard and not its children. -/
theorem protectedRoute_unlisted_role_redirects :
    canAccessRoute (some ⟨some "admin"⟩) "/dashboard" = .ok false
      ∧ ProtectedRoute (some ⟨some "admin"⟩) "/dashboard" = .ok .toDashboard := by
  decide

/-- C28, amended. For every stored user whose role is one of the three roles of ROLES,
canAccessRoute returns true for /dashboard and ProtectedRoute at /dashboard renders its
children; and every path wrapped in ProtectedRoute in the router has an entry of its own in
ROUTE_PERMISSIONS. -/
theorem protectedRoute_dashboard_renders (role : String)
    (hrole : role ∈ [ROLES.HR, ROLES.HIRING_MANAGER, ROLES.RECRUITER]) :
    canAccessRoute (some ⟨some role⟩) "/dashboard" = .ok true
      ∧ ProtectedRoute (some ⟨some role⟩) "/dashboard" = .ok .children
      ∧ ∀ path ∈ protectedPaths, (ownGet ROUTE_PERMISSIONS path).isSome = true := by
  refine ⟨?_, ?_, by decide⟩
  · simp only [List.mem_cons, List.mem_singleton, List.not_mem_nil, or_false] at hrole
    rcases hrole with rfl | rfl | rfl <;> decide
  · simp only [List.mem_cons, List.mem_singleton, List.not_mem_nil, or_false] at hrole
    rcases hrole with rfl | rfl | rfl <;> decide

/-- C28, amended, at a concrete input: a recruiter at the dashboard. -/
theorem protectedRoute_dashboard_renders_witness :
    canAccessRoute (some ⟨some "recruiter"⟩) "/dashboard" = .ok true
      ∧ ProtectedRoute (some ⟨some "recruiter"⟩) "/dashboard" = .ok .children
      ∧ ∀ path ∈ protectedPaths, (ownGet ROUTE_PERMISSIONS path).isSome = true :=
  protectedRoute_dashboard_renders "recruiter" (by decide)


/-! ## Ordering the match results -/

theorem insertSorted_perm {α : Type} (compare : α → α → ℚ) (a : α) (l : List α) :
    (insertSorted compare a l).Perm (a :: l) := by
  induction l with
  | nil => exact List.Perm.refl _
  | cons b rest ih =>
    by_cases h : compare a b ≤ 0
    · simp only [insertSorted, h, if_true]
      exact List.Perm.refl _
    · simp only [insertSorted, h, if_false]
      exact ((List.Perm.cons b ih).trans (List.Perm.swap a b rest))

theorem jsSort_perm {α : Type} (compare : α → α → ℚ) (l : List α) :
    (jsSort compare l).Perm l := by
  induction l with
  | nil => exact List.Perm.refl _
  | cons a rest ih =>
    exact (insertSorted_perm compare a (jsSort compare rest)).trans (List.Perm.cons a ih)

theorem insertSorted_pairwise (a : MatchCard) (l : List MatchCard)
    (h : l.Pairwise (fun x y => scoreOrZero y ≤ scoreOrZero x)) :
    (insertSorted byScoreDescending a l).Pairwise (fun x y => scoreOrZero y ≤ scoreOrZero x) := by
  induction l with
  | nil => simp [insertSorted]
  | cons b rest ih =>
    have hb := (List.pairwise_cons.mp h).1
    have hrest := (List.pairwise_cons.mp h).2
    by_cases hab : byScoreDescending a b ≤ 0
    · simp only [insertSorted, hab, if_true]
      have hle : scoreOrZero b ≤ scoreOrZero a := by
        simpa [byScoreDescending] using hab
      refine List.Pairwise.cons ?_ h
      intro y hy
      rcases List.mem_cons.mp hy with rfl | hy
      · exact hle
      · exact le_trans (hb y hy) hle
    · simp only [insertSorted, hab, if_false]
      have hlt : scoreOrZero a ≤ scoreOrZero b := by
        have : ¬ scoreOrZero b ≤ scoreOrZero a := by
          simpa [byScoreDescending] using hab
        exact le_of_lt (lt_of_not_le this)
      refine List.Pairwise.cons ?_ (ih hrest)
      intro y hy
      have hy2 := (insertSorted_perm byScoreDescending a rest).subset hy
      rcases List.mem_cons.mp hy2 with rfl | hy2
      · exact hlt
      · exact hb y hy2

theorem sortByScore_pairwise (l : List MatchCard) :
    (sortByScore l).Pairwise (fun x y => scoreOrZero y ≤ scoreOrZero x) := by
  induction l with
  | nil => exact List.Pairwise.nil
  | cons a rest ih => exact insertSorted_pairwise a _ ih

/-- C21. Handling the done event and clicking the button Sort by score both turn the list of
matches into a permutation of itself (no card is added, removed or altered) in which the scores
do not increase from the front to the back, a missing score counting as 0; the done event also
ends the loading state. -/
theorem onDone_sorts_by_score (s : MatcherState) :
    (onDone s).matchCards.Perm s.matchCards
      ∧ (onDone s).matchCards.Pairwise (fun x y => scoreOrZero y ≤ scoreOrZero x)
      ∧ (onDone s).loading = false
      ∧ (onSortByScore s).matchCards = (onDone s).matchCards
      ∧ (onSortByScore s).loading = s.loading := by
  exact ⟨jsSort_perm byScoreDescending s.matchCards, sortByScore_pairwise s.matchCards, rfl, rfl,
    rfl⟩


/-! ## Validation of the review form -/

theorem validateForm_keys (formData : ReviewFormData) :
    objKeys (validateForm formData).1
      = (if blankText formData.role then ["role"] else [])
        ++ (if blankText formData.seniority then ["seniority"] else [])
        ++ (if blankText formData.location then ["location"] else [])
        ++ (if tooFewSkills formData.must_have_skills then ["must_have_skills"] else []) := by
  unfold validateForm
  cases blankText formData.role <;> cases blankText formData.seniority <;>
    cases blankText formData.location <;> cases tooFewSkills formData.must_have_skills <;>
    decide

/-- C22. The function validateForm returns true exactly when role, seniority and location are
each present and non-blank after trimming and must_have_skills is present with at least two
entries. The errors object has exactly one key per failing check, in the order role, seniority,
location, must_have_skills, and two forms that agree on these four fields give the same errors
and the same result, whatever joining_timeline, salary_range and the other fields hold. -/
theorem validateForm_checks (formData : ReviewFormData) :
    ((validateForm formData).2 = true ↔
      (∃ role, formData.role = some role ∧ jsTrim role ≠ "") ∧
      (∃ seniority, formData.seniority = some seniority ∧ jsTrim seniority ≠ "") ∧
      (∃ location, formData.location = some location ∧ jsTrim location ≠ "") ∧
      (∃ skills, formData.must_have_skills = some skills ∧ 2 ≤ skills.length)) ∧
    objKeys (validateForm formData).1
      = (if blankText formData.role then ["role"] else [])
        ++ (if blankText formData.seniority then ["seniority"] else [])
        ++ (if blankText formData.location then ["location"] else [])
        ++ (if tooFewSkills formData.must_have_skills then ["must_have_skills"] else []) ∧
    (∀ other : ReviewFormData, other.role = formData.role →
      other.seniority = formData.seniority → other.location = formData.location →
      other.must_have_skills = formData.must_have_skills →
      validateForm other = validateForm formData) := by
  have hblank : ∀ x : Option String,
      blankText x = false ↔ ∃ s, x = some s ∧ jsTrim s ≠ "" := by
    intro x
    cases x with
    | none => simp [blankText, truthyText]
    | some s => simp [blankText, truthyText]
  have hfew : ∀ x : Option (List String),
      tooFewSkills x = false ↔ ∃ l, x = some l ∧ 2 ≤ l.length := by
    intro x
    cases x with
    | none => simp [tooFewSkills]
    | some l => simp [tooFewSkills]
  refine ⟨?_, validateForm_keys formData, ?_⟩
  · rw [← hblank, ← hblank, ← hblank, ← hfew]
    have hret : (validateForm formData).2 = ((objKeys (validateForm formData).1).length == 0) :=
      rfl
    rw [hret, validateForm_keys]
    cases blankText formData.role <;> cases blankText formData.seniority <;>
      cases blankText formData.location <;> cases tooFewSkills formData.must_have_skills <;>
      decide
  · intro other h1 h2 h3 h4
    simp only [validateForm, h1, h2, h3, h4]


/-! ## Comma-separated lists -/

theorem dropWhile_head?_not {α : Type} (p : α → Bool) (l : List α) (c : α)
    (h : (l.dropWhile p).head? = some c) : p c = false := by
  induction l with
  | nil => simp at h
  | cons a rest ih =>
    by_cases ha : p a = true
    · rw [List.dropWhile_cons_of_pos ha] at h
      exact ih h
    · rw [List.dropWhile_cons_of_neg ha] at h
      simp only [List.head?_cons, Option.some.injEq] at h
      rw [← h]
      simpa using ha

theorem dropWhile_of_head?_not {α : Type} (p : α → Bool) (l : List α)
    (h : ∀ c, l.head? = some c → p c = false) : l.dropWhile p = l := by
  cases l with
  | nil => rfl
  | cons a rest =>
    have ha : ¬ p a = true := by simp [h a rfl]
    exact List.dropWhile_cons_of_neg ha

theorem trim_head?_not (l : List Char) (c : Char)
    (h : ((l.dropWhile isJsWhitespace).rdropWhile isJsWhitespace).head? = some c) :
    isJsWhitespace c = false := by
  obtain ⟨r, hr⟩ := List.rdropWhile_prefix isJsWhitespace (l := l.dropWhile isJsWhitespace)
  apply dropWhile_head?_not isJsWhitespace l c
  rw [← hr]
  cases ht : (l.dropWhile isJsWhitespace).rdropWhile isJsWhitespace with
  | nil => rw [ht] at h; simp at h
  | cons a t =>
    rw [ht] at h
    simpa using h

theorem trim_getLast?_not (l : List Char) (c : Char)
    (h : ((l.dropWhile isJsWhitespace).rdropWhile isJsWhitespace).getLast? = some c) :
    isJsWhitespace c = false := by
  have hne : (l.dropWhile isJsWhitespace).rdropWhile isJsWhitespace ≠ [] := by
    intro e
    rw [e] at h
    simp at h
  have hnot := List.rdropWhile_last_not isJsWhitespace (l.dropWhile isJsWhitespace) hne
  rw [List.getLast?_eq_getLast _ hne] at h
  simp only [Option.some.injEq] at h
  rw [← h]
  simpa using hnot

theorem trim_of_trimmed (t : List Char)
    (hhead : ∀ c, t.head? = some c → isJsWhitespace c = false)
    (hlast : ∀ c, t.getLast? = some c → isJsWhitespace c = false) :
    (t.dropWhile isJsWhitespace).rdropWhile isJsWhitespace = t := by
  rw [dropWhile_of_head?_not isJsWhitespace t hhead, List.rdropWhile_eq_self_iff]
  intro hl
  simp [hlast _ (List.getLast?_eq_getLast t hl)]

theorem trim_not_mem (l : List Char) (c : Char) (h : c ∉ l) :
    c ∉ (l.dropWhile isJsWhitespace).rdropWhile isJsWhitespace := by
  intro hc
  have h1 := (List.rdropWhile_prefix isJsWhitespace
    (l := l.dropWhile isJsWhitespace)).sublist.subset hc
  exact h ((List.dropWhile_sublist isJsWhitespace).subset h1)

theorem trim_space (l : List Char) :
    ((' ' :: l).dropWhile isJsWhitespace).rdropWhile isJsWhitespace
      = (l.dropWhile isJsWhitespace).rdropWhile isJsWhitespace := by
  have hs : isJsWhitespace ' ' = true := by decide
  rw [List.dropWhile_cons_of_pos hs]

theorem splitChars_ne_nil (sep : Char) (l : List Char) : splitChars sep l ≠ [] := by
  induction l with
  | nil => simp [splitChars]
  | cons c rest ih =>
    unfold splitChars
    by_cases hc : c = sep
    · simp [hc]
    · simp only [hc, if_false]
      cases splitChars sep rest with
      | nil => simp
      | cons seg more => simp

theorem splitChars_pieces_free (sep : Char) (l : List Char) :
    ∀ piece ∈ splitChars sep l, sep ∉ piece := by
  induction l with
  | nil => simp [splitChars]
  | cons c rest ih =>
    unfold splitChars
    by_cases hc : c = sep
    · simp only [hc, if_true]
      intro piece hp
      rcases List.mem_cons.mp hp with rfl | hp
      · simp
      · exact ih piece hp
    · simp only [hc, if_false]
      cases hs : splitChars sep rest with
      | nil => exact absurd hs (splitChars_ne_nil sep rest)
      | cons seg more =>
        rw [hs] at ih
        intro piece hp
        rcases List.mem_cons.mp hp with rfl | hp
        · intro hmem
          rcases List.mem_cons.mp hmem with h1 | h1
          · exact hc h1.symm
          · exact ih seg (List.mem_cons_self seg more) h1
        · exact ih piece (List.mem_cons_of_mem seg hp)

theorem splitChars_free (sep : Char) (l : List Char) (h : sep ∉ l) :
    splitChars sep l = [l] := by
  induction l with
  | nil => rfl
  | cons c rest ih =>
    have hc : c ≠ sep := fun e => h (by simp [e])
    have hl : sep ∉ rest := fun e => h (List.mem_cons_of_mem _ e)
    simp [splitChars, hc, ih hl]

theorem splitChars_append_sep (sep : Char) (l m : List Char) (h : sep ∉ l) :
    splitChars sep (l ++ sep :: m) = l :: splitChars sep m := by
  induction l with
  | nil => simp [splitChars]
  | cons c rest ih =>
    have hc : c ≠ sep := fun e => h (by simp [e])
    have hl : sep ∉ rest := fun e => h (List.mem_cons_of_mem _ e)
    simp [splitChars, hc, ih hl]

theorem splitChars_space (l : List Char) :
    (splitChars ',' (' ' :: l)).map
        (fun x => (x.dropWhile isJsWhitespace).rdropWhile isJsWhitespace)
      = (splitChars ',' l).map
        (fun x => (x.dropWhile isJsWhitespace).rdropWhile isJsWhitespace) := by
  cases hs : splitChars ',' l with
  | nil => exact absurd hs (splitChars_ne_nil ',' l)
  | cons seg more =>
    have hstep : splitChars ',' (' ' :: l) = (' ' :: seg) :: more := by
      rw [splitChars, if_neg (by decide), hs]
    rw [hstep]
    simp only [List.map_cons]
    rw [trim_space]

theorem commaPieces_join (es : List (List Char))
    (h : ∀ e ∈ es, e ≠ [] ∧ ',' ∉ e ∧
      (e.dropWhile isJsWhitespace).rdropWhile isJsWhitespace = e) :
    ((splitChars ',' (List.intercalate [',', ' '] es)).map
        (fun x => (x.dropWhile isJsWhitespace).rdropWhile isJsWhitespace)).filter
        (fun x => !x.isEmpty) = es := by
  induction es with
  | nil => decide
  | cons e rest ih =>
    obtain ⟨hne, hfree, htrim⟩ := h e (List.mem_cons_self e rest)
    have hempty : (!e.isEmpty) = true := by
      cases e with
      | nil => exact absurd rfl hne
      | cons a t => rfl
    cases rest with
    | nil =>
      have hjoin : List.intercalate [',', ' '] [e] = e := by
        simp [List.intercalate, List.intersperse]
      rw [hjoin, splitChars_free ',' e hfree]
      simp only [List.map_cons, List.map_nil, htrim, List.filter_cons, hempty, if_true,
        List.filter_nil]
    | cons e2 more =>
      have hjoin : List.intercalate [',', ' '] (e :: e2 :: more)
          = e ++ ',' :: ' ' :: List.intercalate [',', ' '] (e2 :: more) := by
        simp [List.intercalate, List.intersperse]
      rw [hjoin, splitChars_append_sep ',' e _ hfree, List.map_cons, splitChars_space, htrim,
        List.filter_cons]
      simp only [hempty, if_true]
      rw [ih (fun x hx => h x (List.mem_cons_of_mem e hx))]

theorem parseSkills_chars (value : String) :
    parseSkills value
      = (((splitChars ',' value.toList).map
          (fun x => (x.dropWhile isJsWhitespace).rdropWhile isJsWhitespace)).filter
          (fun x => !x.isEmpty)).map String.mk := by
  have hfilter : ∀ l : List (List Char),
      (l.map String.mk).filter (fun s => s != "")
        = (l.filter (fun x => !x.isEmpty)).map String.mk := by
    intro l
    induction l with
    | nil => rfl
    | cons x xs ih =>
      cases x with
      | nil =>
        have h1 : (String.mk [] != "") = false := by decide
        simp only [List.map_cons, List.filter_cons, h1, ih]
        rfl
      | cons a t =>
        have h1 : (String.mk (a :: t) != "") = true := by
          simp only [bne_iff_ne, ne_eq]
          intro e
          have := congrArg String.toList e
          simp at this
        simp only [List.map_cons, List.filter_cons, h1, ih]
        rfl
  have hmap : ∀ l : List (List Char),
      (l.map String.mk).map jsTrim
        = (l.map (fun x => (x.dropWhile isJsWhitespace).rdropWhile isJsWhitespace)).map
          String.mk := by
    intro l
    induction l with
    | nil => rfl
    | cons x xs ih =>
      simp only [List.map_cons, ih]
      rfl
  unfold parseSkills jsSplit
  rw [hmap, hfilter]

/-- C23. For every input text, parseSkills of ProfileMatcher and the conversion in
handleArrayChange of JobFormReview give the same list: the pieces between commas, in order,
trimmed, the empty ones dropped. No element is empty, none begins or ends with a whitespace
character, and parsing the elements joined with a comma and a space gives the same list
again. -/
theorem parseSkills_roundtrip (value : String) :
    arrayValue value = parseSkills value
      ∧ parseSkills value = ((jsSplit value ',').map jsTrim).filter (fun s => s ≠ "")
      ∧ (∀ e ∈ parseSkills value, e ≠ ""
          ∧ (∀ c, e.toList.head? = some c → isJsWhitespace c = false)
          ∧ (∀ c, e.toList.getLast? = some c → isJsWhitespace c = false))
      ∧ parseSkills (jsJoin (parseSkills value) ", ") = parseSkills value := by
  have hpieces : ∀ x ∈ ((splitChars ',' value.toList).map
      (fun x => (x.dropWhile isJsWhitespace).rdropWhile isJsWhitespace)).filter
      (fun x => !x.isEmpty),
      x ≠ [] ∧ ',' ∉ x ∧ (x.dropWhile isJsWhitespace).rdropWhile isJsWhitespace = x
        ∧ (∀ c, x.head? = some c → isJsWhitespace c = false)
        ∧ (∀ c, x.getLast? = some c → isJsWhitespace c = false) := by
    intro x hx
    obtain ⟨hmem, hne⟩ := List.mem_filter.mp hx
    obtain ⟨piece, hpiece, rfl⟩ := List.mem_map.mp hmem
    have hhead := trim_head?_not piece
    have hlast := trim_getLast?_not piece
    refine ⟨?_, trim_not_mem piece ',' (splitChars_pieces_free ',' _ piece hpiece),
      trim_of_trimmed _ hhead hlast, hhead, hlast⟩
    intro e
    rw [e] at hne
    simp at hne
  refine ⟨rfl, ?_, ?_, ?_⟩
  · unfold parseSkills
    congr 1
    funext s
    by_cases hs : s = ""
    · simp [hs]
    · simp [hs]
  · intro e he
    rw [parseSkills_chars] at he
    obtain ⟨x, hx, rfl⟩ := List.mem_map.mp he
    obtain ⟨hne, -, -, hhead, hlast⟩ := hpieces x hx
    refine ⟨?_, hhead, hlast⟩
    intro e
    exact hne (congrArg String.toList e)
  · have hjoin : (jsJoin (parseSkills value) ", ").toList
        = List.intercalate [',', ' '] (((splitChars ',' value.toList).map
          (fun x => (x.dropWhile isJsWhitespace).rdropWhile isJsWhitespace)).filter
          (fun x => !x.isEmpty)) := by
      have hcomp : (String.toList ∘ String.mk) = id := funext fun _ => rfl
      have hdef : (jsJoin (parseSkills value) ", ").toList
          = List.intercalate [',', ' '] ((parseSkills value).map String.toList) := rfl
      rw [hdef, parseSkills_chars value, List.map_map, hcomp, List.map_id]
    rw [parseSkills_chars (jsJoin (parseSkills value) ", "), hjoin,
      commaPieces_join _ (fun x hx => ⟨(hpieces x hx).1, (hpieces x hx).2.1,
        (hpieces x hx).2.2.1⟩), ← parseSkills_chars]


/-! ## Parts of a chat message -/

/-- C24, failing input. The message "Great. What is the role" ends with a sentence that has no
closing mark: parseMessage returns the single statement "Great." and the rest of the text is in
no part. The same words are kept when they close with a question mark, and when they are the
whole message. -/
theorem parseMessage_drops_open_tail :
    parseMessage (some "Great. What is the role") = [⟨.statement, "Great."⟩]
      ∧ parseMessage (some "Great. What is the role?")
          = [⟨.statement, "Great."⟩, ⟨.question, "What is the role?"⟩]
      ∧ parseMessage (some "What is the role") = [⟨.statement, "What is the role"⟩] := by
  decide

theorem chain_snoc {α : Type} (R : α → α → Prop) (l : List α) (x : α)
    (hl : l.Chain' R) (hlast : ∀ p, l.getLast? = some p → R p x) : (l ++ [x]).Chain' R := by
  rw [List.chain'_append]
  refine ⟨hl, List.chain'_singleton x, ?_⟩
  intro p hp y hy
  simp only [List.head?_cons, Option.mem_def, Option.some.injEq] at hy
  rw [← hy]
  exact hlast p hp

theorem sentenceStep_shape (acc : List MessagePart × String) (sentence : String)
    (hq : ∀ p ∈ acc.1, p.type = .question → jsEndsWith p.text '?' = true)
    (hc : acc.1.Chain' (fun a b => ¬ (a.type = .statement ∧ b.type = .statement)))
    (hl : ∀ p, acc.1.getLast? = some p → p.type = .question) :
    (∀ p ∈ (sentenceStep acc sentence).1, p.type = .question → jsEndsWith p.text '?' = true)
      ∧ (sentenceStep acc sentence).1.Chain'
          (fun a b => ¬ (a.type = .statement ∧ b.type = .statement))
      ∧ (∀ p, (sentenceStep acc sentence).1.getLast? = some p → p.type = .question) := by
  unfold sentenceStep
  by_cases hend : jsEndsWith (jsTrim sentence) '?' = true
  · simp only [hend, if_true]
    by_cases hcur : acc.2 = ""
    · simp only [hcur, ne_eq, not_true_eq_false, if_false]
      refine ⟨?_, ?_, ?_⟩
      · intro p hp ht
        rcases List.mem_append.mp hp with h | h
        · exact hq p h ht
        · simp only [List.mem_singleton] at h
          rw [h]
          exact hend
      · apply chain_snoc _ _ _ hc
        intro p hp h
        have := hl p hp
        rw [this] at h
        exact absurd h.1 (by simp)
      · intro p hp
        rw [List.getLast?_concat] at hp
        simp only [Option.some.injEq] at hp
        rw [← hp]
    · simp only [ne_eq, hcur, not_false_eq_true, if_true]
      refine ⟨?_, ?_, ?_⟩
      · intro p hp ht
        rcases List.mem_append.mp hp with h | h
        · rcases List.mem_append.mp h with h | h
          · exact hq p h ht
          · simp only [List.mem_singleton] at h
            rw [h] at ht
            exact absurd ht (by simp)
        · simp only [List.mem_singleton] at h
          rw [h]
          exact hend
      · apply chain_snoc
        · apply chain_snoc _ _ _ hc
          intro p hp h
          have := hl p hp
          rw [this] at h
          exact absurd h.1 (by simp)
        · intro p hp h
          exact absurd h.2 (by simp)
      · intro p hp
        rw [List.getLast?_concat] at hp
        simp only [Option.some.injEq] at hp
        rw [← hp]
  · simp only [hend, Bool.false_eq_true, if_false]
    exact ⟨hq, hc, hl⟩

theorem foldl_sentenceStep_shape (sentences : List String) (acc : List MessagePart × String)
    (hq : ∀ p ∈ acc.1, p.type = .question → jsEndsWith p.text '?' = true)
    (hc : acc.1.Chain' (fun a b => ¬ (a.type = .statement ∧ b.type = .statement)))
    (hl : ∀ p, acc.1.getLast? = some p → p.type = .question) :
    (∀ p ∈ (sentences.foldl sentenceStep acc).1,
        p.type = .question → jsEndsWith p.text '?' = true)
      ∧ (sentences.foldl sentenceStep acc).1.Chain'
          (fun a b => ¬ (a.type = .statement ∧ b.type = .statement))
      ∧ (∀ p, (sentences.foldl sentenceStep acc).1.getLast? = some p → p.type = .question) := by
  induction sentences generalizing acc with
  | nil => exact ⟨hq, hc, hl⟩
  | cons s rest ih =>
    obtain ⟨h1, h2, h3⟩ := sentenceStep_shape acc s hq hc hl
    exact ih (sentenceStep acc s) h1 h2 h3

theorem finalParts_shape (parts : List MessagePart) (current text : String)
    (hq : ∀ p ∈ parts, p.type = .question → jsEndsWith p.text '?' = true)
    (hc : parts.Chain' (fun a b => ¬ (a.type = .statement ∧ b.type = .statement)))
    (hl : ∀ p, parts.getLast? = some p → p.type = .question) :
    (∀ p ∈ (if (if current ≠ "" then parts ++ [⟨.statement, jsTrim current⟩]
          else parts).length > 0
        then (if current ≠ "" then parts ++ [⟨.statement, jsTrim current⟩] else parts)
        else [⟨.statement, text⟩]),
        p.type = .question → jsEndsWith p.text '?' = true)
      ∧ (if (if current ≠ "" then parts ++ [⟨.statement, jsTrim current⟩]
          else parts).length > 0
        then (if current ≠ "" then parts ++ [⟨.statement, jsTrim current⟩] else parts)
        else [⟨.statement, text⟩]).Chain'
          (fun a b => ¬ (a.type = .statement ∧ b.type = .statement)) := by
  have hsingle : (∀ p ∈ [(⟨.statement, text⟩ : MessagePart)],
      p.type = .question → jsEndsWith p.text '?' = true)
      ∧ [(⟨.statement, text⟩ : MessagePart)].Chain'
          (fun a b => ¬ (a.type = .statement ∧ b.type = .statement)) := by
    refine ⟨?_, List.chain'_singleton _⟩
    intro p hp hty
    simp only [List.mem_singleton] at hp
    rw [hp] at hty
    exact absurd hty (by simp)
  by_cases hcur : current = ""
  · simp only [hcur, ne_eq, not_true_eq_false, if_false]
    by_cases hlen : parts.length > 0
    · simp only [hlen, if_true]
      exact ⟨hq, hc⟩
    · simp only [hlen, if_false]
      exact hsingle
  · simp only [ne_eq, hcur, not_false_eq_true, if_true]
    have hlen : (parts ++ [(⟨.statement, jsTrim current⟩ : MessagePart)]).length > 0 := by
      simp
    simp only [hlen, if_true]
    refine ⟨?_, ?_⟩
    · intro p hp hty
      rcases List.mem_append.mp hp with h | h
      · exact hq p h hty
      · simp only [List.mem_singleton] at h
        rw [h] at hty
        exact absurd hty (by simp)
    · apply chain_snoc _ _ _ hc
      intro p hp h
      have := hl p hp
      rw [this] at h
      exact absurd h.1 (by simp)

/-- Support for C24: in every list that parseMessage returns, each part of type question ends
with a question mark and no two neighbouring parts are both statements. -/
theorem parseMessage_shape (message : Option String) :
    (∀ p ∈ parseMessage message, p.type = .question → jsEndsWith p.text '?' = true)
      ∧ (parseMessage message).Chain'
          (fun a b => ¬ (a.type = .statement ∧ b.type = .statement)) := by
  cases message with
  | none => exact ⟨by simp [parseMessage], by simp [parseMessage]⟩
  | some text =>
    by_cases ht : text = ""
    · exact ⟨by simp [parseMessage, ht], by simp [parseMessage, ht]⟩
    · obtain ⟨h1, h2, h3⟩ := foldl_sentenceStep_shape
        (if ((matchSentences .skipping [] text.toList).map String.mk).isEmpty then [text]
          else (matchSentences .skipping [] text.toList).map String.mk)
        ([], "") (by simp) (by simp) (by simp)
      unfold parseMessage
      simp only [ht, if_false]
      exact finalParts_shape _ _ text h1 h2 h3


/-! ## REST fallback of the interviewer panel -/

/-- C25. With a non-blank message, an existing socket object and no unanswered entry,
handleSendQuestion of InterviewerPanel falls back to REST exactly when the socket is not ready.
When ready, it sends one question message over the socket and appends one optimistic entry with
a temp- id and a null answer (no entry carries that id yet), and clears the message. When not
ready, it sends nothing over the socket, calls the REST sendQuestion with the id of the
interview shown, and on success replaces the local transcript by the transcript of the
response. The handler handleSubmit of CandidatePanel either does nothing or sends one response
message over the socket, the latter exactly when there is an active question, a non-blank
response and a socket object; it never calls REST. -/
theorem handleSendQuestion_rest_fallback (p : InterviewerPanel) (now : Nat) (ws : Socket)
    (interview : Interview) (hmessage : jsTrim p.message ≠ "") (hws : p.ws = some ws)
    (hnone : lastUnanswered p.transcript = none) (hinterview : p.interview = some interview)
    (hfresh : ∀ e ∈ p.transcript, e.id ≠ (tempEntry now (jsTrim p.message)).id) :
    (p.socketReady = true →
      handleSendQuestion p now
        = .ok ({ p with transcript := p.transcript ++ [tempEntry now (jsTrim p.message)], message := "" },
            .socketSend ws p.key (jsTrim p.message)) ∧
      (tempEntry now (jsTrim p.message)).id = .str ("temp-" ++ toString now) ∧
      (tempEntry now (jsTrim p.message)).answer = none) ∧
    (p.socketReady = false →
      handleSendQuestion p now
        = .ok (p, .restSendQuestion interview.id (jsTrim p.message) p.key) ∧
      ∀ updated : Interview, handleSendQuestionSettled p (.resolved updated)
        = ({ p with transcript := updated.transcript.getD [], message := "" }, .nothing)) ∧
    (∀ c : CandidatePanel,
      (handleSubmit c = (c, .nothing) ∧
        (lastUnanswered c.transcript = none ∨ jsTrim c.response = "" ∨ c.ws = none)) ∨
      ∃ q socket, lastUnanswered c.transcript = some q ∧ jsTrim c.response ≠ "" ∧
        c.ws = some socket ∧
        handleSubmit c = ({ c with response := "" },
          .socketSendResponse socket c.key q.id (jsTrim c.response))) := by
  refine ⟨?_, ?_, ?_⟩
  · intro hready
    have hup := upsertQuestion_fresh_append p.transcript (tempEntry now (jsTrim p.message))
      hnone hfresh
    refine ⟨?_, rfl, rfl⟩
    simp [handleSendQuestion, hws, hmessage, hnone, hready, hup]
  · intro hready
    refine ⟨by simp [handleSendQuestion, hws, hmessage, hnone, hready, hinterview], ?_⟩
    intro updated
    simp [handleSendQuestionSettled]
  · intro c
    cases hq : lastUnanswered c.transcript with
    | none => exact Or.inl ⟨by simp [handleSubmit, hq], Or.inl rfl⟩
    | some q =>
      by_cases hr : jsTrim c.response = ""
      · exact Or.inl ⟨by simp [handleSubmit, hq, hr], Or.inr (Or.inl hr)⟩
      · cases hs : c.ws with
        | none => exact Or.inl ⟨by simp [handleSubmit, hq, hr, hs], Or.inr (Or.inr rfl)⟩
        | some socket =>
          exact Or.inr ⟨q, socket, rfl, hr, rfl, by simp [handleSubmit, hq, hr, hs]⟩

/-- C25 at a concrete input: the socket of the interviewer is not ready, so the question goes
out by REST and nothing is sent over the socket. -/
theorem handleSendQuestion_rest_fallback_witness :
    handleSendQuestion
        { interview := some ⟨.num 3, none, none, none, none⟩,
          transcript := [⟨.num 1, some "Intro?", some "Hi."⟩],
          message := " Why Lean? ", socketReady := false, ws := some ⟨0, "3", .text "k"⟩,
          key := some "k" } 1700000000000
      = .ok ({ interview := some ⟨.num 3, none, none, none, none⟩,
               transcript := [⟨.num 1, some "Intro?", some "Hi."⟩],
               message := " Why Lean? ", socketReady := false, ws := some ⟨0, "3", .text "k"⟩,
               key := some "k" },
             .restSendQuestion (.num 3) "Why Lean?" (some "k")) :=
  ((handleSendQuestion_rest_fallback
    { interview := some ⟨.num 3, none, none, none, none⟩,
      transcript := [⟨.num 1, some "Intro?", some "Hi."⟩],
      message := " Why Lean? ", socketReady := false, ws := some ⟨0, "3", .text "k"⟩,
      key := some "k" } 1700000000000 ⟨0, "3", .text "k"⟩ ⟨.num 3, none, none, none, none⟩
    (by decide) rfl (by decide) rfl (by decide)).2.1 rfl).1

end TalentConnect
